import Mathlib

/-!
# sfizz: the ADSR envelope generator (`src/sfizz/ADSREnvelope.cpp`)

A shallow embedding of `sfz::ADSREnvelope`.

* `Float` is modelled by `ℚ` with exact arithmetic; rounding, NaN and infinities are
  outside the model. The definitions whose names end in `Float` are the exception: they
  round the result of every operation to the nearest `float` (`roundFloat`).
* `int` fields (`delay`, `hold`, `releaseDelay`) are `Int`; `size_t` counters are `Nat`.
  The conversion `static_cast<int>(count)` is exact below 2^31; the definitions whose names
  end in `Int` have it for every `count` (`castInt`).
* `std::pow` is a parameter `pow : ℚ → ℚ → ℚ` of the rendering functions. The theorems hold
  for every `pow` that satisfies the laws in `PowLaws` (all of them laws of the real power
  function); concrete evaluations use `powNat`, which is exact for natural exponents.
* The constants of `Config.h` (not part of the sources at hand) are the fields of `Config`.
* `getBlock` copies `currentState`, `currentValue`, `shouldRelease`, `releaseDelay` and
  `transitionDelta` into locals and writes them back on exit. Nothing else can touch the
  object during the call, so the embedding updates the fields in place.

Further sections embed the worker protocol, the port checks and the MIDI dispatch of the
LV2 adapter (`lv2/sfizz.c`), the table of opcode defaults (`sfizz/Defaults.cpp`) and the
oversampling parameter of the VST controller (`vst/SfizzVstController.cpp`). The
definitions come first, the theorems after them.
-/

namespace sfz

/-- The values of `enum class State`, with the `Fadeout` value that `getBlock` uses. -/
inductive State where
  | Delay
  | Attack
  | Hold
  | Decay
  | Sustain
  | Release
  | Fadeout
  | Done
  deriving DecidableEq, Repr

/-- The constants of namespace `config` that the envelope reads. -/
structure Config where
  defaultSampleRate : ℚ
  virtuallyZero : ℚ
  sustainFreeRunningThreshold : ℚ
  egReleaseThreshold : ℚ
  egTransitionTime : ℚ

/-- A numeric operation that can be undefined: a call of `pow`, or a division. -/
inductive NumOp where
  | pow (base exponent : ℚ)
  | div (divisor : ℚ)
  deriving DecidableEq, Repr

/-- The resolved values `reset` reads from the `EGDescription` (the results of
`desc.getDelay(state, velocity)` and so on, in seconds or as levels) and its three shapes. -/
structure EGValues where
  delay : ℚ
  attack : ℚ
  hold : ℚ
  decay : ℚ
  sustain : ℚ
  release : ℚ
  start : ℚ
  attack_shape : ℚ
  decay_shape : ℚ
  release_shape : ℚ

/-- The data members of `ADSREnvelope`: those declared in the header, and those that only
`ADSREnvelope.cpp` names (the three counters, `releaseValue`, the three shapes,
`transitionDelta`). -/
structure ADSREnvelope where
  sampleRate : ℚ
  currentState : State
  currentValue : ℚ
  delay : Int
  attackStep : ℚ
  decayRate : ℚ
  releaseRate : ℚ
  hold : Int
  start : ℚ
  sustain : ℚ
  sustainThreshold : ℚ
  releaseDelay : Int
  shouldRelease : Bool
  freeRunning : Bool
  attackCount : ℚ
  decayCount : ℚ
  releaseCount : ℚ
  releaseValue : ℚ
  attackShape : ℚ
  decayShape : ℚ
  releaseShape : ℚ
  transitionDelta : ℚ

/-- A default-constructed object: the member initialisers of the header; the members the
header does not declare start at zero. -/
def ADSREnvelope.init (cfg : Config) : ADSREnvelope :=
  { sampleRate := cfg.defaultSampleRate
    currentState := State.Done
    currentValue := 0
    delay := 0
    attackStep := 0
    decayRate := 0
    releaseRate := 0
    hold := 0
    start := 0
    sustain := 0
    sustainThreshold := cfg.virtuallyZero
    releaseDelay := 0
    shouldRelease := false
    freeRunning := false
    attackCount := 0
    decayCount := 0
    releaseCount := 0
    releaseValue := 0
    attackShape := 0
    decayShape := 0
    releaseShape := 0
    transitionDelta := 0 }

/-- Modelled from the spec: `clamp` of `MathHelpers.h`, which is not among the sources;
it bounds a value to the inclusive range `[lo, hi]`. -/
def clamp (v lo hi : ℚ) : ℚ := max lo (min v hi)

/-- The conversion `static_cast<int>` of a `Float`: truncation toward zero. -/
def truncToInt (x : ℚ) : Int := if 0 ≤ x then ⌊x⌋ else ⌈x⌉

/-- A power function that is exact for natural exponents (any other exponent is rounded
up to the next natural number). -/
def powNat (b x : ℚ) : ℚ := b ^ (⌈x⌉).toNat

/-- `ADSREnvelope::secondsToSamples`. -/
def secondsToSamples (sampleRate timeInSeconds : ℚ) : Int :=
  if timeInSeconds ≤ 0 then 0 else truncToInt (timeInSeconds * sampleRate)

/-- The divisor of `secondsToLinRate`. -/
def linRateDivisor (sampleRate timeInSeconds : ℚ) : ℚ := sampleRate * timeInSeconds

/-- `ADSREnvelope::secondsToLinRate`. -/
def secondsToLinRate (sampleRate timeInSeconds : ℚ) : ℚ :=
  if timeInSeconds ≤ 0 then 1 else 1 / linRateDivisor sampleRate timeInSeconds

/-- The divisor of `secondsToExpRate`, after the floor of 25 ms. -/
def expRateDivisor (sampleRate timeInSeconds : ℚ) : ℚ :=
  sampleRate * max (25 / 1000) timeInSeconds

/-- `ADSREnvelope::secondsToExpRate` (the statement after the first `return` is dead). -/
def secondsToExpRate (sampleRate timeInSeconds : ℚ) : ℚ :=
  if timeInSeconds ≤ 0 then 1 else 1 / expRateDivisor sampleRate timeInSeconds

/-- `ADSREnvelope::reset`. `e` is the object before the call (members that `reset` does not
assign keep their values), `desc` holds the values read from the description,
`oneShotOscillator` is `region.loopMode == LoopMode::one_shot && region.isOscillator()`. -/
def reset (cfg : Config) (e : ADSREnvelope) (desc : EGValues) (oneShotOscillator : Bool)
    (delay : Int) (sampleRate : ℚ) : ADSREnvelope :=
  let sustain := clamp desc.sustain 0 1
  let start := clamp desc.start 0 1
  { e with
    sampleRate := sampleRate
    delay := delay + secondsToSamples sampleRate desc.delay
    attackStep := secondsToLinRate sampleRate desc.attack
    decayRate := secondsToExpRate sampleRate desc.decay
    releaseRate := secondsToExpRate sampleRate desc.release
    hold := secondsToSamples sampleRate desc.hold
    sustain := sustain
    start := start
    attackShape := desc.attack_shape
    decayShape := desc.decay_shape
    releaseShape := desc.release_shape
    releaseDelay := 0
    sustainThreshold := sustain + cfg.virtuallyZero
    shouldRelease := false
    freeRunning := decide (sustain ≤ cfg.sustainFreeRunningThreshold) || oneShotOscillator
    currentValue := start
    currentState := State.Delay }

/-- `ADSREnvelope::startRelease`. The argument is not read by the body. -/
def startRelease (e : ADSREnvelope) (_releaseDelay : Int) : ADSREnvelope :=
  { e with
    releaseValue := if e.currentValue < 1 / 100000 then e.sustain else e.currentValue
    releaseCount := 1
    shouldRelease := true
    releaseDelay := 0 }

/-- `ADSREnvelope::setReleaseTime`. -/
def setReleaseTime (e : ADSREnvelope) (timeInSeconds : ℚ) : ADSREnvelope :=
  { e with releaseRate := secondsToExpRate e.sampleRate timeInSeconds }

/-- `ADSREnvelope::isSmoothing`. -/
def isSmoothing (e : ADSREnvelope) : Bool := decide (e.currentState ≠ State.Done)

/-- `ADSREnvelope::isReleased`. -/
def isReleased (e : ADSREnvelope) : Bool :=
  decide (e.currentState = State.Release) || e.shouldRelease

/-- `ADSREnvelope::getRemainingDelay`. -/
def getRemainingDelay (e : ADSREnvelope) : Int := e.delay

/-- What a piece of rendering produces: the object afterwards, the samples written to
`output[0 .. count)` in order, and the numeric operations evaluated. -/
structure Chunk where
  env : ADSREnvelope
  out : List ℚ
  ops : List NumOp

/-- Puts one more sample and its operations in front of a chunk. -/
def Chunk.push (v : ℚ) (o : List NumOp) (c : Chunk) : Chunk :=
  { env := c.env, out := v :: c.out, ops := o ++ c.ops }

/-- The loop of `case State::Delay`; the argument is `size - count`. When `count < size`
fails, `delay--` is not evaluated. -/
def delayLoop : ADSREnvelope → Nat → Chunk
  | e, 0 => ⟨e, [], []⟩
  | e, k + 1 =>
    if 0 < e.delay then
      Chunk.push e.start []
        (delayLoop { e with delay := e.delay - 1, currentValue := e.start, attackCount := 0 } k)
    else ⟨{ e with delay := e.delay - 1 }, [], []⟩

/-- The body of `case State::Delay`: the loop, then the statements after it. Only the
assignment of `attackCount` is governed by `if (delay <= 0)`. -/
def delayCase (e : ADSREnvelope) (size : Nat) : Chunk :=
  let c := delayLoop e size
  let e1 := c.env
  let e2 := if e1.delay ≤ 0 then { e1 with attackCount := 0 } else e1
  { c with env := { e2 with currentState := State.Attack } }

/-- The operations one attack sample evaluates with counter value `c`. -/
def attackOps (attackShape c : ℚ) : List NumOp :=
  if attackShape ≤ 0 then [NumOp.pow c (-attackShape + 1)]
  else [NumOp.div attackShape, NumOp.pow c (1 / attackShape + 1)]

/-- One pass through the body of the loop of `case State::Attack`. -/
def attackSample (pow : ℚ → ℚ → ℚ) (e : ADSREnvelope) : ADSREnvelope :=
  let c := min (e.attackCount + e.attackStep) 1
  { e with
    attackCount := c
    currentValue :=
      if e.attackShape ≤ 0 then e.start + (1 - e.start) * pow c (-e.attackShape + 1)
      else e.start + (1 - e.start) * pow c (1 / e.attackShape + 1) }

/-- The loop of `case State::Attack`. -/
def attackLoop (pow : ℚ → ℚ → ℚ) : ADSREnvelope → Nat → Chunk
  | e, 0 => ⟨e, [], []⟩
  | e, k + 1 =>
    if e.currentValue < 1 then
      let e1 := attackSample pow e
      Chunk.push e1.currentValue (attackOps e.attackShape e1.attackCount) (attackLoop pow e1 k)
    else ⟨e, [], []⟩

/-- The body of `case State::Attack`. -/
def attackCase (pow : ℚ → ℚ → ℚ) (e : ADSREnvelope) (size : Nat) : Chunk :=
  let c := attackLoop pow e size
  let e1 := c.env
  { c with env :=
      if 1 ≤ e1.currentValue then { e1 with currentValue := 1, currentState := State.Hold }
      else e1 }

/-- The loop of `case State::Hold`; its body is the single statement that writes a sample. -/
def holdLoop : ADSREnvelope → Nat → Chunk
  | e, 0 => ⟨e, [], []⟩
  | e, k + 1 =>
    if 0 < e.hold then
      Chunk.push e.currentValue [] (holdLoop { e with hold := e.hold - 1 } k)
    else ⟨{ e with hold := e.hold - 1 }, [], []⟩

/-- The body of `case State::Hold`: the loop, the assignment of `decayCount` that follows
it, the guarded assignment, and the unguarded change of state. -/
def holdCase (e : ADSREnvelope) (size : Nat) : Chunk :=
  let c := holdLoop e size
  let e1 := c.env
  let e2 := { e1 with decayCount := e1.currentValue - e1.sustain + (e1.hold : ℚ) }
  let e3 := if e2.hold ≤ 0 then { e2 with decayCount := e2.currentValue - e2.sustain } else e2
  { c with env := { e3 with currentState := State.Decay } }

/-- The operations one decay sample evaluates with counter value `c`. -/
def decayOps (decayShape sustain c : ℚ) : List NumOp :=
  if decayShape = 0 then []
  else if decayShape < 0 then
    [NumOp.div (-decayShape + 1), NumOp.pow sustain (1 / (-decayShape + 1)),
      NumOp.pow c (-decayShape + 1)]
  else
    [NumOp.pow sustain (decayShape + 1), NumOp.div (decayShape + 1),
      NumOp.pow c (1 / (decayShape + 1))]

/-- One pass through the body of the loop of `case State::Decay`. -/
def decaySample (pow : ℚ → ℚ → ℚ) (e : ADSREnvelope) : ADSREnvelope :=
  let c := clamp (e.decayCount - e.decayRate * (1 - e.sustain)) 0 1
  { e with
    decayCount := c
    currentValue :=
      if e.decayShape = 0 then e.sustain + 1 * c
      else if e.decayShape < 0 then
        pow e.sustain (1 / (-e.decayShape + 1)) + 1 * pow c (-e.decayShape + 1)
      else pow e.sustain (e.decayShape + 1) + 1 * pow c (1 / (e.decayShape + 1)) }

/-- The loop of `case State::Decay`. -/
def decayLoop (pow : ℚ → ℚ → ℚ) : ADSREnvelope → Nat → Chunk
  | e, 0 => ⟨e, [], []⟩
  | e, k + 1 =>
    if e.sustain < e.currentValue then
      let e1 := decaySample pow e
      Chunk.push e1.currentValue (decayOps e.decayShape e.sustain e1.decayCount)
        (decayLoop pow e1 k)
    else ⟨e, [], []⟩

/-- The body of `case State::Decay`. -/
def decayCase (pow : ℚ → ℚ → ℚ) (cfg : Config) (e : ADSREnvelope) (size : Nat) : Chunk :=
  let c := decayLoop pow e size
  let e1 := c.env
  if e1.currentValue ≤ e1.sustainThreshold then
    let v := max e1.sustain e1.currentValue
    { env := { e1 with
        currentState := State.Sustain
        currentValue := v
        transitionDelta := (e1.sustain - v) / (e1.sampleRate * cfg.egTransitionTime) }
      out := c.out
      ops := c.ops ++ [NumOp.div (e1.sampleRate * cfg.egTransitionTime)] }
  else c

/-- The loop of `case State::Sustain`. -/
def sustainLoop : ADSREnvelope → Nat → Chunk
  | e, 0 => ⟨e, [], []⟩
  | e, k + 1 =>
    let e1 := { e with currentValue := max e.sustain (e.currentValue + e.transitionDelta) }
    Chunk.push e1.currentValue [] (sustainLoop e1 k)

/-- The body of `case State::Sustain`. -/
def sustainCase (e : ADSREnvelope) (size : Nat) : Chunk :=
  if e.shouldRelease = false ∧ e.freeRunning = true then
    ⟨{ e with shouldRelease := true }, [], []⟩
  else sustainLoop e size

/-- The operations one release sample evaluates with counter value `c`. -/
def releaseOps (releaseShape c : ℚ) : List NumOp :=
  if releaseShape ≤ 0 then [NumOp.pow c (-releaseShape * 1 + 1)]
  else [NumOp.div (releaseShape * 1 + 1), NumOp.pow c (1 / (releaseShape * 1 + 1))]

/-- One pass through the body of the loop of `case State::Release`. -/
def releaseSample (pow : ℚ → ℚ → ℚ) (e : ADSREnvelope) : ADSREnvelope :=
  let c := clamp (e.releaseCount - e.releaseRate) 0 1
  { e with
    releaseCount := c
    currentValue :=
      if e.releaseShape ≤ 0 then e.releaseValue * pow c (-e.releaseShape * 1 + 1)
      else e.releaseValue * pow c (1 / (e.releaseShape * 1 + 1)) }

/-- The loop of `case State::Release`. The local `previousValue` always equals
`currentValue` (it is assigned from it before the loop and together with it in the body). -/
def releaseLoop (pow : ℚ → ℚ → ℚ) (cfg : Config) : ADSREnvelope → Nat → Chunk
  | e, 0 => ⟨e, [], []⟩
  | e, k + 1 =>
    if cfg.egReleaseThreshold < e.currentValue then
      let e1 := releaseSample pow e
      Chunk.push e1.currentValue (releaseOps e.releaseShape e1.releaseCount)
        (releaseLoop pow cfg e1 k)
    else ⟨e, [], []⟩

/-- The body of `case State::Release`; `currentValue = previousValue` leaves the value as
it is. -/
def releaseCase (pow : ℚ → ℚ → ℚ) (cfg : Config) (e : ADSREnvelope) (size : Nat) : Chunk :=
  let c := releaseLoop pow cfg e size
  let e1 := c.env
  if e1.currentValue ≤ cfg.egReleaseThreshold then
    { env := { e1 with
        currentState := State.Fadeout
        transitionDelta :=
          -(max cfg.egReleaseThreshold e1.currentValue) / (e1.sampleRate * cfg.egTransitionTime) }
      out := c.out
      ops := c.ops ++ [NumOp.div (e1.sampleRate * cfg.egTransitionTime)] }
  else c

/-- The loop of `case State::Fadeout`: `currentValue += transitionDelta` is evaluated only
when `count < size` holds. -/
def fadeoutLoop : ADSREnvelope → Nat → Chunk
  | e, 0 => ⟨e, [], []⟩
  | e, k + 1 =>
    let e1 := { e with currentValue := e.currentValue + e.transitionDelta }
    if 0 < e1.currentValue then Chunk.push e1.currentValue [] (fadeoutLoop e1 k)
    else ⟨e1, [], []⟩

/-- The body of `case State::Fadeout`. -/
def fadeoutCase (e : ADSREnvelope) (size : Nat) : Chunk :=
  let c := fadeoutLoop e size
  let e1 := c.env
  { c with env :=
      if e1.currentValue ≤ 0 then { e1 with currentState := State.Done, currentValue := 0 }
      else e1 }

/-- The `default` label, reached in state `Done`: `count = size`, the value becomes 0. The
samples are those of `output[0 .. count)`; `sfz::fill` also zeroes the rest of the span,
see `iteration`. -/
def doneCase (e : ADSREnvelope) (size : Nat) : Chunk :=
  ⟨{ e with currentValue := 0 }, List.replicate size 0, []⟩

/-- The `switch (currentState)` of `getBlock`. -/
def switchCase (pow : ℚ → ℚ → ℚ) (cfg : Config) (e : ADSREnvelope) (size : Nat) : Chunk :=
  match e.currentState with
  | State.Delay => delayCase e size
  | State.Attack => attackCase pow e size
  | State.Hold => holdCase e size
  | State.Decay => decayCase pow cfg e size
  | State.Sustain => sustainCase e size
  | State.Release => releaseCase pow cfg e size
  | State.Fadeout => fadeoutCase e size
  | State.Done => doneCase e size

/-- The test at the top of the body of the outer loop: a release that is due switches the
state, a release that is pending bounds `size`. The second component is `size`. -/
def releaseCheck (e : ADSREnvelope) (size : Nat) : ADSREnvelope × Nat :=
  if e.shouldRelease = true ∧ e.releaseDelay = 0 then
    ({ e with currentState := State.Release, releaseDelay := -1 }, size)
  else if e.shouldRelease = true ∧ 0 < e.releaseDelay then
    (e, min size e.releaseDelay.toNat)
  else (e, size)

/-- The statement after the `switch`: the pending release comes `count` samples closer.
`count` is subtracted as it is, which is what `static_cast<int>(count)` gives for every
`count` below 2^31, so for every span of fewer than 2^31 samples; `countDownInt` has the
conversion. -/
def countDown (e : ADSREnvelope) (count : Nat) : ADSREnvelope :=
  if e.shouldRelease = true then
    { e with releaseDelay := max (-1) (e.releaseDelay - (count : Int)) }
  else e

/-- What one pass through the body of the outer loop produces: a chunk, and the contents
of the span that is left after `output.remove_prefix(count)`. -/
structure Step where
  env : ADSREnvelope
  out : List ℚ
  ops : List NumOp
  rest : List ℚ

/-- One pass through the body of `while (!output.empty())`, for the span `output`. In state
`Done` the whole span is filled with zeros before its first `count` elements are removed. -/
def iteration (pow : ℚ → ℚ → ℚ) (cfg : Config) (e : ADSREnvelope) (output : List ℚ) : Step :=
  let rc := releaseCheck e output.length
  let c := switchCase pow cfg rc.1 rc.2
  let filled := if rc.1.currentState = State.Done then List.replicate output.length 0 else output
  { env := countDown c.env c.out.length
    out := c.out
    ops := c.ops
    rest := filled.drop c.out.length }

/-- The outer loop of `getBlock` with a bound on the number of passes: `none` when the
bound is reached before the span is empty. -/
def getBlockLoop (pow : ℚ → ℚ → ℚ) (cfg : Config) : Nat → ADSREnvelope → List ℚ → Option Chunk
  | _, e, [] => some ⟨e, [], []⟩
  | 0, _, _ :: _ => none
  | fuel + 1, e, x :: xs =>
    let s := iteration pow cfg e (x :: xs)
    match getBlockLoop pow cfg fuel s.env s.rest with
    | none => none
    | some c => some ⟨c.env, s.out ++ c.out, s.ops ++ c.ops⟩

/-- The number of passes that `getBlock` is given for a span of `n` samples. -/
def passBound (n : Nat) : Nat := 32 * n + 32

/-- `ADSREnvelope::getBlock` on the span `output`: the object afterwards, the samples
written and the operations evaluated. -/
def getBlock (pow : ℚ → ℚ → ℚ) (cfg : Config) (e : ADSREnvelope) (output : List ℚ) :
    Option Chunk :=
  getBlockLoop pow cfg (passBound output.length) e output

/-- Successive calls of `getBlock`, one for each span of the list; the samples of all the
calls in order. -/
def getBlocks (pow : ℚ → ℚ → ℚ) (cfg : Config) : ADSREnvelope → List (List ℚ) → Option Chunk
  | e, [] => some ⟨e, [], []⟩
  | e, b :: bs =>
    match getBlock pow cfg e b with
    | none => none
    | some c =>
      match getBlocks pow cfg c.env bs with
      | none => none
      | some d => some ⟨d.env, c.out ++ d.out, c.ops ++ d.ops⟩

/-- The laws of the real power function that the theorems below rely on. -/
structure PowLaws (pow : ℚ → ℚ → ℚ) : Prop where
  one_base : ∀ x, pow 1 x = 1
  zero_base : ∀ x, 0 < x → pow 0 x = 0

/-- The envelopes a caller can observe: a `reset` of any object, followed by any sequence of
`getBlock`, `startRelease` and `setReleaseTime` calls. -/
inductive Reachable (pow : ℚ → ℚ → ℚ) (cfg : Config) : ADSREnvelope → Prop where
  | reset (e : ADSREnvelope) (desc : EGValues) (oneShotOscillator : Bool) (delay : Int)
      (sampleRate : ℚ) : Reachable pow cfg (reset cfg e desc oneShotOscillator delay sampleRate)
  | getBlock {e : ADSREnvelope} (output : List ℚ) {c : Chunk} :
      Reachable pow cfg e → getBlock pow cfg e output = some c → Reachable pow cfg c.env
  | startRelease {e : ADSREnvelope} (releaseDelay : Int) :
      Reachable pow cfg e → Reachable pow cfg (startRelease e releaseDelay)
  | setReleaseTime {e : ADSREnvelope} (timeInSeconds : ℚ) :
      Reachable pow cfg e → Reachable pow cfg (setReleaseTime e timeInSeconds)

/-- When a numeric operation is defined: a power has its base in `[0, 1]` and a positive
exponent, a division has a divisor other than zero. -/
def NumOp.Defined : NumOp → Prop
  | NumOp.pow base exponent => 0 ≤ base ∧ base ≤ 1 ∧ 0 < exponent
  | NumOp.div divisor => divisor ≠ 0

/-- The position of a state in the nominal order, counted from the end. -/
def stateRank : State → Nat
  | State.Delay => 7
  | State.Attack => 6
  | State.Hold => 5
  | State.Decay => 4
  | State.Sustain => 3
  | State.Release => 2
  | State.Fadeout => 1
  | State.Done => 0

/-- A bound on the number of passes of the outer loop that can still go by without a
sample being written. -/
def rank (e : ADSREnvelope) : Nat :=
  stateRank e.currentState +
    (if e.shouldRelease = true then (if 0 ≤ e.releaseDelay then 10 else 0) else 20)

/-- Sample values for the constants of `Config.h`. -/
def sampleConfig : Config :=
  { defaultSampleRate := 48000
    virtuallyZero := 1 / 1000
    sustainFreeRunningThreshold := 32 / 10000
    egReleaseThreshold := 1 / 10000
    egTransitionTime := 50 / 1000 }

/-- A description with all times 0, sustain 1 and start 0, and linear shapes. -/
def instantDesc : EGValues :=
  { delay := 0, attack := 0, hold := 0, decay := 0, sustain := 1, release := 0, start := 0
    attack_shape := 0, decay_shape := 0, release_shape := 0 }

/-- The members that no loop of `getBlock` assigns. -/
structure Frame (e e' : ADSREnvelope) : Prop where
  sampleRate : e'.sampleRate = e.sampleRate
  currentState : e'.currentState = e.currentState
  attackStep : e'.attackStep = e.attackStep
  decayRate : e'.decayRate = e.decayRate
  releaseRate : e'.releaseRate = e.releaseRate
  start : e'.start = e.start
  sustain : e'.sustain = e.sustain
  sustainThreshold : e'.sustainThreshold = e.sustainThreshold
  releaseDelay : e'.releaseDelay = e.releaseDelay
  shouldRelease : e'.shouldRelease = e.shouldRelease
  freeRunning : e'.freeRunning = e.freeRunning
  releaseValue : e'.releaseValue = e.releaseValue
  attackShape : e'.attackShape = e.attackShape
  decayShape : e'.decayShape = e.decayShape
  releaseShape : e'.releaseShape = e.releaseShape
  transitionDelta : e'.transitionDelta = e.transitionDelta

/-- The members that `getBlock` never assigns. -/
structure Static (e e' : ADSREnvelope) : Prop where
  sampleRate : e'.sampleRate = e.sampleRate
  attackStep : e'.attackStep = e.attackStep
  decayRate : e'.decayRate = e.decayRate
  releaseRate : e'.releaseRate = e.releaseRate
  start : e'.start = e.start
  sustain : e'.sustain = e.sustain
  sustainThreshold : e'.sustainThreshold = e.sustainThreshold
  freeRunning : e'.freeRunning = e.freeRunning
  releaseValue : e'.releaseValue = e.releaseValue
  attackShape : e'.attackShape = e.attackShape
  decayShape : e'.decayShape = e.decayShape
  releaseShape : e'.releaseShape = e.releaseShape

/-- A description with an attack of half a second and everything else as in
`instantDesc`. -/
def slowAttackDesc : EGValues := { instantDesc with attack := 1 / 2 }

/-- A description with a release of half a second and everything else as in
`instantDesc`. -/
def slowReleaseDesc : EGValues := { instantDesc with release := 1 / 2 }

/-- An envelope reset with `slowAttackDesc`, a trigger delay of 2 samples and a sample rate
of 4: the attack step is 1/2. -/
def delayedEnvelope : ADSREnvelope :=
  reset sampleConfig (ADSREnvelope.init sampleConfig) slowAttackDesc false 2 4

/-- An envelope reset with `slowReleaseDesc`, no trigger delay and a sample rate of 4: the
release rate is 1/2. -/
def releasingEnvelope : ADSREnvelope :=
  reset sampleConfig (ADSREnvelope.init sampleConfig) slowReleaseDesc false 0 4

/-- An envelope reset with `instantDesc` and a trigger delay of `delay` samples. -/
def instantEnvelope (delay : Int) : ADSREnvelope :=
  reset sampleConfig (ADSREnvelope.init sampleConfig) instantDesc false delay 48000

/-- The states the `switch` can leave the object in, for each state it is entered in. -/
def nextStates : State → List State
  | State.Delay => [State.Attack]
  | State.Attack => [State.Attack, State.Hold]
  | State.Hold => [State.Decay]
  | State.Decay => [State.Decay, State.Sustain]
  | State.Sustain => [State.Sustain]
  | State.Release => [State.Release, State.Fadeout]
  | State.Fadeout => [State.Fadeout, State.Done]
  | State.Done => [State.Done]

/-- A bound on the samples still to come from a release whose counter stands at
`releaseCount`: those of `Release`, those of `Fadeout`, and one more. -/
def releaseBound (cfg : Config) (e : ADSREnvelope) : ℚ :=
  e.releaseCount / e.releaseRate + e.sampleRate * cfg.egTransitionTime + 2

/-- A bound on the samples still to come in `Fadeout`, and one more. -/
def fadeBound (e : ADSREnvelope) : ℚ :=
  max e.currentValue 0 / (-e.transitionDelta) + 1

/-- A bound on the number of samples that can be rendered before the state is `Done`, for
an envelope with a release that is due or has fired. -/
def samplesBound (cfg : Config) (e : ADSREnvelope) : ℚ :=
  if e.releaseDelay = 0 then releaseBound cfg e
  else
    match e.currentState with
    | State.Release => releaseBound cfg e
    | State.Fadeout => fadeBound e
    | _ => 0

/-- An envelope whose release is due (`releaseDelay = 0`) or has fired (`releaseDelay = -1`,
and the state is `Release`, `Fadeout` with a falling ramp, or `Done` with value 0). -/
def Releasing (e : ADSREnvelope) : Prop :=
  e.shouldRelease = true ∧ 0 ≤ e.releaseCount ∧ e.releaseCount ≤ 1
  ∧ (e.releaseDelay = 0
    ∨ (e.releaseDelay = -1
      ∧ (e.currentState = State.Release
        ∨ (e.currentState = State.Fadeout ∧ e.transitionDelta < 0)
        ∨ (e.currentState = State.Done ∧ e.currentValue = 0))))

/-- The release has fired and the envelope is `Done` with value 0. -/
def Finished (e : ADSREnvelope) : Prop :=
  e.releaseDelay = -1 ∧ e.currentState = State.Done ∧ e.currentValue = 0

/-- The exponent of the release curve. -/
def releaseExponent (releaseShape : ℚ) : ℚ :=
  if releaseShape ≤ 0 then -releaseShape * 1 + 1 else 1 / (releaseShape * 1 + 1)

/-- A power function that is exact for natural exponents and at the point
`(1/4)^(1/2) = 1/2`; everywhere else it is `powNat`. -/
def powHalf (b x : ℚ) : ℚ := if b = 1 / 4 ∧ x = 1 / 2 then 1 / 2 else powNat b x

/-- A description with all times 0, sustain 1/2, start 0 and decay shape 1. -/
def convexDecayDesc : EGValues := { instantDesc with sustain := 1 / 2, decay_shape := 1 }

/-- A description with a decay of one second, sustain 1/4, start 0 and decay shape -1. -/
def concaveDecayDesc : EGValues :=
  { instantDesc with decay := 1, sustain := 1 / 4, decay_shape := -1 }

/-- A description with all times 0, sustain 1/4, start 0 and decay shape -1. -/
def stuckDecayDesc : EGValues := { instantDesc with sustain := 1 / 4, decay_shape := -1 }

/-- A description with a release of a third of a second and release shape 1, and everything
else as in `instantDesc`. -/
def shapedReleaseDesc : EGValues := { instantDesc with release := 1 / 3, release_shape := 1 }

/-- An envelope reset with `stuckDecayDesc` at 48 kHz. -/
def stuckEnvelope : ADSREnvelope :=
  reset sampleConfig (ADSREnvelope.init sampleConfig) stuckDecayDesc false 0 48000

/-- The state `stuckEnvelope` is in after two rendered samples: in `Decay` at the value 1/2
with the decay counter at 0, no release armed. -/
def StuckInDecay (e : ADSREnvelope) : Prop :=
  e.currentState = State.Decay ∧ e.currentValue = 1 / 2 ∧ e.decayCount = 0
  ∧ e.shouldRelease = false ∧ e.sustain = 1 / 4 ∧ e.decayShape = -1 ∧ e.decayRate = 1
  ∧ e.sustainThreshold = 251 / 1000

/-- The release counter after `k` release samples: each sample lowers it by the release
rate and clamps it to `[0, 1]`. -/
def releaseCounter (count rate : ℚ) : Nat → ℚ
  | 0 => count
  | k + 1 => clamp (releaseCounter count rate k - rate) 0 1

/-- An envelope reset with `shapedReleaseDesc` at a sample rate of 4: the release rate is
3/4. -/
def shapedReleaseEnvelope : ADSREnvelope :=
  reset sampleConfig (ADSREnvelope.init sampleConfig) shapedReleaseDesc false 0 4

/-- An envelope in which a release from the value 1 is due, with release rate 1/2 and
release shape 0. -/
def dueReleaseEnvelope : ADSREnvelope :=
  startRelease { releasingEnvelope with currentValue := 1 } 0

/-- Further laws of the real power function: the exponent 1, the range on the unit
interval, and monotonicity in the base on the unit interval, for positive exponents. -/
structure PowOrder (pow : ℚ → ℚ → ℚ) : Prop where
  exponent_one : ∀ b, pow b 1 = b
  unit_range : ∀ b x, 0 ≤ b → b ≤ 1 → 0 < x → 0 ≤ pow b x ∧ pow b x ≤ 1
  monotone : ∀ a b x, 0 ≤ a → a ≤ b → b ≤ 1 → 0 < x → pow a x ≤ pow b x

namespace lv2

/-- An identifier handed out by the host's map feature. -/
abbrev LV2_URID := Nat

/-- The bytes that follow the header of an atom, read the way the adapter reads them. -/
inductive AtomBody
  | empty
  | string (chars : List Nat)
  | int (value : Int)
  | urid (value : LV2_URID)
  deriving DecidableEq, Repr

/-- The body of an atom read as a C string. -/
def AtomBody.chars : AtomBody → List Nat
  | AtomBody.string cs => cs
  | _ => []

/-- The body of an atom read as an `int`. -/
def AtomBody.value : AtomBody → Int
  | AtomBody.int v => v
  | AtomBody.urid v => v
  | _ => 0

/-- An atom: the header (`size`, `type`) and its body. -/
structure LV2_Atom where
  size : Nat
  type : LV2_URID
  body : AtomBody
  deriving DecidableEq, Repr

/-- The status a worker call returns. -/
inductive LV2_Worker_Status
  | LV2_WORKER_SUCCESS
  | LV2_WORKER_ERR_UNKNOWN
  | LV2_WORKER_ERR_NO_SPACE
  deriving DecidableEq, Repr

/-- The constants of `lv2/sfizz.c`. -/
def MAX_BLOCK_SIZE : Nat := 8192

/-- The default number of voices. -/
def DEFAULT_VOICES : Int := 64

/-- The default oversampling factor, `SFIZZ_OVERSAMPLING_X1`. -/
def DEFAULT_OVERSAMPLING : Int := 1

/-- The default preload size. -/
def DEFAULT_PRELOAD : Nat := 8192

/-- The number of samples after which `run` looks at the reload-check flag. -/
def LOG_SAMPLE_COUNT : Int := 48000

/-- The fields of `sfizz_plugin_t` that the worker protocol reads or writes. `unmap` tells
whether the host gave the unmap feature, `midnam` whether it gave the midnam feature. -/
structure sfizz_plugin_t where
  unmap : Bool
  midnam : Bool
  atom_urid_uri : LV2_URID
  sfizz_sfz_file_uri : LV2_URID
  sfizz_scala_file_uri : LV2_URID
  sfizz_num_voices_uri : LV2_URID
  sfizz_preload_size_uri : LV2_URID
  sfizz_oversampling_uri : LV2_URID
  sfizz_log_status_uri : LV2_URID
  sfizz_check_modification_uri : LV2_URID
  sfz_file_path : List Nat
  scala_file_path : List Nat
  num_voices : Int
  preload_size : Nat
  oversampling : Int
  check_modification : Bool
  sample_counter : Int
  must_update_midnam : Bool
  deriving DecidableEq, Repr

/-- The URIs of the plugin that the worker protocol uses. -/
inductive URI
  | LV2_ATOM__URID
  | SFIZZ__sfzFile
  | SFIZZ__tuningfile
  | SFIZZ__numVoices
  | SFIZZ__preloadSize
  | SFIZZ__oversampling
  | SFIZZ__logStatus
  | SFIZZ__checkModification
  deriving DecidableEq, Repr

/-- The function `sfizz_lv2_map_required_uris`, for the URIs of the worker protocol. -/
def sfizz_lv2_map_required_uris (self : sfizz_plugin_t) (map : URI → LV2_URID) :
    sfizz_plugin_t :=
  { self with
    atom_urid_uri := map URI.LV2_ATOM__URID
    sfizz_sfz_file_uri := map URI.SFIZZ__sfzFile
    sfizz_scala_file_uri := map URI.SFIZZ__tuningfile
    sfizz_num_voices_uri := map URI.SFIZZ__numVoices
    sfizz_preload_size_uri := map URI.SFIZZ__preloadSize
    sfizz_oversampling_uri := map URI.SFIZZ__oversampling
    sfizz_log_status_uri := map URI.SFIZZ__logStatus
    sfizz_check_modification_uri := map URI.SFIZZ__checkModification }

/-- The plugin that `instantiate` returns when it succeeds: the memory is zeroed, the
defaults are set, the URIs are mapped and the default files are named by their paths. -/
def instantiate (map : URI → LV2_URID) (unmap midnam : Bool)
    (default_sfz_path default_scala_path : List Nat) : sfizz_plugin_t :=
  let self : sfizz_plugin_t :=
    { unmap := unmap
      midnam := midnam
      atom_urid_uri := 0
      sfizz_sfz_file_uri := 0
      sfizz_scala_file_uri := 0
      sfizz_num_voices_uri := 0
      sfizz_preload_size_uri := 0
      sfizz_oversampling_uri := 0
      sfizz_log_status_uri := 0
      sfizz_check_modification_uri := 0
      sfz_file_path := []
      scala_file_path := []
      num_voices := DEFAULT_VOICES
      preload_size := DEFAULT_PRELOAD
      oversampling := DEFAULT_OVERSAMPLING
      check_modification := false
      sample_counter := 0
      must_update_midnam := false }
  let self := sfizz_lv2_map_required_uris self map
  { self with sfz_file_path := default_sfz_path, scala_file_path := default_scala_path }

/-- A call into the synth made by the worker. -/
inductive SynthCall
  | sfizz_load_file (path : List Nat)
  | sfizz_load_scala_file (path : List Nat)
  | sfizz_set_num_voices (num_voices : Int)
  | sfizz_get_num_voices
  | sfizz_set_preload_size (preload_size : Nat)
  | sfizz_get_preload_size
  | sfizz_set_oversampling_factor (oversampling : Int)
  | sfizz_get_oversampling_factor
  | sfizz_should_reload_file
  | sfizz_should_reload_scala
  | sfizz_get_unknown_opcodes
  | sfizz_get_num_masters
  | sfizz_get_num_groups
  | sfizz_get_num_regions
  deriving DecidableEq, Repr

/-- The level of a log message. -/
inductive LogLevel
  | note
  | warning
  | error
  deriving DecidableEq, Repr

/-- What a worker call does besides changing the plugin, in the order of the calls. -/
inductive Effect
  | synth (call : SynthCall)
  | respond (atom : LV2_Atom)
  | log (level : LogLevel)
  | unmap (urid : LV2_URID)
  deriving DecidableEq, Repr

/-- The answers of the synth during one worker call. The synth is not part of the model,
so what it returns is given from outside. -/
structure Synth where
  load_file : List Nat → Bool
  load_scala_file : List Nat → Bool
  should_reload_file : Bool
  should_reload_scala : Bool
  unknown_opcodes : Bool
  num_voices : Int
  preload_size : Nat
  oversampling_factor : Int

/-- The result of one of the two file loading helpers. -/
structure Loaded where
  status : Bool
  plugin : sfizz_plugin_t
  effects : List Effect

/-- The function `sfizz_lv2_update_file_info`. -/
def sfizz_lv2_update_file_info (self : sfizz_plugin_t) (synth : Synth)
    (file_path : List Nat) : sfizz_plugin_t × List Effect :=
  ({ self with sfz_file_path := file_path, must_update_midnam := true },
    [Effect.log LogLevel.note, Effect.synth SynthCall.sfizz_get_unknown_opcodes]
      ++ (if synth.unknown_opcodes then [Effect.log LogLevel.note] else [])
      ++ [Effect.synth SynthCall.sfizz_get_num_masters, Effect.log LogLevel.note,
          Effect.synth SynthCall.sfizz_get_num_groups, Effect.log LogLevel.note,
          Effect.synth SynthCall.sfizz_get_num_regions, Effect.log LogLevel.note])

/-- The function `sfizz_lv2_load_file`. -/
def sfizz_lv2_load_file (self : sfizz_plugin_t) (synth : Synth) (file_path : List Nat) :
    Loaded :=
  let status := synth.load_file file_path
  let r := sfizz_lv2_update_file_info self synth file_path
  { status := status, plugin := r.1,
    effects := Effect.synth (SynthCall.sfizz_load_file file_path) :: r.2 }

/-- What the `LV2_Handle` (a `void *`) given to a function as its instance points to. -/
inductive LV2_Handle
  | plugin (self : sfizz_plugin_t)
  | synth

/-- The function `sfizz_lv2_load_scala_file`. It converts its instance to a
`sfizz_plugin_t *`, reads the member `synth` and writes the member `scala_file_path`
through it: with an instance that is not the plugin the behaviour is undefined, which is
`none`. -/
def sfizz_lv2_load_scala_file (handle : LV2_Handle) (synth : Synth)
    (file_path : List Nat) : Option Loaded :=
  match handle with
  | LV2_Handle.plugin self =>
    some { status := synth.load_scala_file file_path,
           plugin := { self with scala_file_path := file_path },
           effects := [Effect.synth (SynthCall.sfizz_load_scala_file file_path)] }
  | LV2_Handle.synth => none

/-- The function `sfizz_lv2_activate_file_checking`: one response, an atom of the
check-modification type with size 0. -/
def sfizz_lv2_activate_file_checking (self : sfizz_plugin_t) : List Effect :=
  [Effect.respond
    { size := 0, type := self.sfizz_check_modification_uri, body := AtomBody.empty }]

/-- The result of `work`. -/
structure WorkResult where
  status : LV2_Worker_Status
  plugin : sfizz_plugin_t
  effects : List Effect


/-- The function `work`, run by the host in a lower priority thread; `data` is `none`
for a null pointer, and the result is `none` when the behaviour of the call is undefined.
In the two places where a tuning file is loaded the source passes `self->synth`, not the
plugin, as the instance of `sfizz_lv2_load_scala_file`. -/
def work (self : sfizz_plugin_t) (synth : Synth) (data : Option LV2_Atom) :
    Option WorkResult :=
  match data with
  | none =>
    some { status := LV2_Worker_Status.LV2_WORKER_ERR_UNKNOWN, plugin := self,
           effects := [Effect.log LogLevel.error] }
  | some atom =>
    if atom.type = self.sfizz_sfz_file_uri then
      let sfz_file_path := atom.body.chars
      let r := sfizz_lv2_load_file self synth sfz_file_path
      some { status := LV2_Worker_Status.LV2_WORKER_SUCCESS, plugin := r.plugin,
             effects := r.effects
               ++ (if r.status then [] else [Effect.log LogLevel.error])
               ++ sfizz_lv2_activate_file_checking r.plugin }
    else if atom.type = self.sfizz_scala_file_uri then
      let scala_file_path := atom.body.chars
      match sfizz_lv2_load_scala_file LV2_Handle.synth synth scala_file_path with
      | none => none
      | some r =>
        some { status := LV2_Worker_Status.LV2_WORKER_SUCCESS, plugin := r.plugin,
               effects := r.effects
                 ++ [Effect.log (if r.status then LogLevel.note else LogLevel.error)]
                 ++ sfizz_lv2_activate_file_checking r.plugin }
    else if atom.type = self.sfizz_num_voices_uri then
      let num_voices := atom.body.value
      some { status := LV2_Worker_Status.LV2_WORKER_SUCCESS, plugin := self,
             effects :=
               [Effect.synth (SynthCall.sfizz_set_num_voices num_voices),
                Effect.synth SynthCall.sfizz_get_num_voices,
                Effect.log (if synth.num_voices = num_voices then LogLevel.note
                  else LogLevel.error)] }
    else if atom.type = self.sfizz_preload_size_uri then
      let preload_size := (atom.body.value % 4294967296).toNat
      some { status := LV2_Worker_Status.LV2_WORKER_SUCCESS, plugin := self,
             effects :=
               [Effect.synth (SynthCall.sfizz_set_preload_size preload_size),
                Effect.synth SynthCall.sfizz_get_preload_size,
                Effect.log (if synth.preload_size = preload_size then LogLevel.note
                  else LogLevel.error)] }
    else if atom.type = self.sfizz_oversampling_uri then
      let oversampling := atom.body.value
      some { status := LV2_Worker_Status.LV2_WORKER_SUCCESS, plugin := self,
             effects :=
               [Effect.synth (SynthCall.sfizz_set_oversampling_factor oversampling),
                Effect.synth SynthCall.sfizz_get_oversampling_factor,
                Effect.log (if synth.oversampling_factor = oversampling then LogLevel.note
                  else LogLevel.error)] }
    else if atom.type = self.sfizz_log_status_uri then
      some { status := LV2_Worker_Status.LV2_WORKER_SUCCESS, plugin := self, effects := [] }
    else if atom.type = self.sfizz_check_modification_uri then
      let file : Loaded :=
        if synth.should_reload_file then
          let r := sfizz_lv2_load_file self synth self.sfz_file_path
          { r with effects := Effect.log LogLevel.note :: r.effects
              ++ (if r.status then [] else [Effect.log LogLevel.error]) }
        else { status := true, plugin := self, effects := [] }
      let self := file.plugin
      let scala : Option Loaded :=
        if synth.should_reload_scala then
          match sfizz_lv2_load_scala_file LV2_Handle.synth synth self.scala_file_path with
          | none => none
          | some r =>
            some { r with effects := Effect.log LogLevel.note :: r.effects
              ++ [Effect.log (if r.status then LogLevel.note else LogLevel.error)] }
        else some { status := true, plugin := self, effects := [] }
      match scala with
      | none => none
      | some scala =>
        some { status := LV2_Worker_Status.LV2_WORKER_SUCCESS, plugin := scala.plugin,
               effects := Effect.synth SynthCall.sfizz_should_reload_file :: file.effects
                 ++ Effect.synth SynthCall.sfizz_should_reload_scala :: scala.effects
                 ++ sfizz_lv2_activate_file_checking scala.plugin }
    else
      some { status := LV2_Worker_Status.LV2_WORKER_ERR_UNKNOWN, plugin := self,
             effects := Effect.log LogLevel.error
               :: (if self.unmap then [Effect.unmap atom.type, Effect.log LogLevel.error]
                   else []) }

/-- The function `work_response`, run by the host in the audio thread; the effects are
the log and unmap calls. -/
def work_response (self : sfizz_plugin_t) (data : Option LV2_Atom) : WorkResult :=
  match data with
  | none =>
    { status := LV2_Worker_Status.LV2_WORKER_ERR_UNKNOWN, plugin := self, effects := [] }
  | some atom =>
    if atom.type = self.sfizz_check_modification_uri then
      { status := LV2_Worker_Status.LV2_WORKER_SUCCESS,
        plugin := { self with check_modification := true }, effects := [] }
    else
      { status := LV2_Worker_Status.LV2_WORKER_ERR_UNKNOWN, plugin := self,
        effects := Effect.log LogLevel.error
          :: (if self.unmap then [Effect.unmap atom.type, Effect.log LogLevel.error]
              else []) }

/-- The responses among the effects of a worker call, in the order they were emitted. -/
def responses : List Effect → List LV2_Atom
  | [] => []
  | Effect.respond atom :: rest => atom :: responses rest
  | _ :: rest => responses rest

/-- The calls into the synth among the effects of a worker call. -/
def synthCalls : List Effect → List SynthCall
  | [] => []
  | Effect.synth call :: rest => call :: synthCalls rest
  | _ :: rest => synthCalls rest

/-- The identifier of the reload check differs from those of the four operation kinds
that `work` tests before it and that emit no response, as it does when the host maps
distinct URIs to distinct identifiers. -/
def CheckKindApart (self : sfizz_plugin_t) : Prop :=
  self.sfizz_check_modification_uri ≠ self.sfizz_num_voices_uri
    ∧ self.sfizz_check_modification_uri ≠ self.sfizz_preload_size_uri
    ∧ self.sfizz_check_modification_uri ≠ self.sfizz_oversampling_uri
    ∧ self.sfizz_check_modification_uri ≠ self.sfizz_log_status_uri

/-- The atom type is one of the seven operation kinds of the worker. -/
def KnownKind (self : sfizz_plugin_t) (type : LV2_URID) : Prop :=
  type = self.sfizz_sfz_file_uri ∨ type = self.sfizz_scala_file_uri
    ∨ type = self.sfizz_num_voices_uri ∨ type = self.sfizz_preload_size_uri
    ∨ type = self.sfizz_oversampling_uri ∨ type = self.sfizz_log_status_uri
    ∨ type = self.sfizz_check_modification_uri


/-- A value reduced to the range of a 32-bit `int` (two's complement). -/
def wrapInt32 (v : Int) : Int := (v + 2147483648) % 4294967296 - 2147483648

/-- A value reduced to the range of a 32-bit `unsigned int`. -/
def wrapUInt32 (v : Int) : Nat := (v % 4294967296).toNat

/-- The function `next_pow_2` on a 32-bit `int`: past the first test the value is not
negative, so the shifts and ors are those of natural numbers. -/
def next_pow_2 (v : Int) : Int :=
  if v < 1 then 1
  else
    let v : Nat := (v - 1).toNat
    let v := v ||| (v >>> 1)
    let v := v ||| (v >>> 2)
    let v := v ||| (v >>> 4)
    let v := v ||| (v >>> 8)
    let v := v ||| (v >>> 16)
    wrapInt32 ((v : Int) + 1)

/-- The host's worker as `run` sees it: the requests scheduled and not yet executed, and
the host's decision to accept one more. -/
structure Worker where
  accepts : List LV2_Atom → LV2_Atom → Bool
  queue : List LV2_Atom

/-- The host function `schedule_work`: an accepted request joins the queue. -/
def Worker.schedule_work (worker : Worker) (atom : LV2_Atom) :
    LV2_Worker_Status × Worker :=
  if worker.accepts worker.queue atom then
    (LV2_Worker_Status.LV2_WORKER_SUCCESS, { worker with queue := worker.queue ++ [atom] })
  else (LV2_Worker_Status.LV2_WORKER_ERR_NO_SPACE, worker)

/-- An event of the control port. For a patch `Set` object, `property` and `value` are
what `lv2_atom_object_get` finds and `forged` tells whether the forge could write the
path into its buffer. Every other event (patch `Get`, time position, MIDI, OSC,
unsupported objects) neither schedules work nor touches the fields of the model. -/
inductive ControlEvent
  | patch_set (property value : Option LV2_Atom) (forged : Bool)
  | other

/-- The identifier in the body of a URID atom. -/
def AtomBody.key : AtomBody → LV2_URID
  | AtomBody.urid v => v
  | AtomBody.int v => wrapUInt32 v
  | _ => 0

/-- The string that `strnlen` delimits in the body of an atom: up to the first zero byte
and no longer than the size of the atom. -/
def pathOf (atom : LV2_Atom) : List Nat :=
  (atom.body.chars.takeWhile (fun c => c != 0)).take atom.size

/-- The function `sfizz_lv2_handle_atom_object`; the status of `schedule_work` is not
looked at. -/
def sfizz_lv2_handle_atom_object (self : sfizz_plugin_t) (worker : Worker)
    (property value : Option LV2_Atom) (forged : Bool) : sfizz_plugin_t × Worker :=
  match property with
  | none => (self, worker)
  | some property =>
    if property.type ≠ self.atom_urid_uri then (self, worker)
    else
      let key := property.body.key
      match value with
      | none => (self, worker)
      | some atom =>
        if key = self.sfizz_sfz_file_uri then
          let worker :=
            if forged then
              (worker.schedule_work
                { size := (pathOf atom).length + 1, type := self.sfizz_sfz_file_uri,
                  body := AtomBody.string (pathOf atom) }).2
            else worker
          ({ self with check_modification := false }, worker)
        else if key = self.sfizz_scala_file_uri then
          let worker :=
            if forged then
              (worker.schedule_work
                { size := (pathOf atom).length + 1, type := self.sfizz_scala_file_uri,
                  body := AtomBody.string (pathOf atom) }).2
            else worker
          ({ self with check_modification := false }, worker)
        else (self, worker)

/-- The loop of `run` over the events of the control port. -/
def handleEvents (self : sfizz_plugin_t) (worker : Worker) :
    List ControlEvent → sfizz_plugin_t × Worker
  | [] => (self, worker)
  | ControlEvent.patch_set property value forged :: rest =>
    let r := sfizz_lv2_handle_atom_object self worker property value forged
    handleEvents r.1 r.2 rest
  | ControlEvent.other :: rest => handleEvents self worker rest

/-- The function `sfizz_lv2_check_oversampling`. -/
def sfizz_lv2_check_oversampling (self : sfizz_plugin_t) (worker : Worker)
    (oversampling_port : ℚ) : sfizz_plugin_t × Worker :=
  let port_value := next_pow_2 (truncToInt oversampling_port)
  if port_value = self.oversampling then (self, worker)
  else
    let self := { self with oversampling := port_value }
    (self, (worker.schedule_work
      { size := 4, type := self.sfizz_oversampling_uri,
        body := AtomBody.int self.oversampling }).2)

/-- The function `sfizz_lv2_check_preload_size`. -/
def sfizz_lv2_check_preload_size (self : sfizz_plugin_t) (worker : Worker)
    (preload_port : ℚ) : sfizz_plugin_t × Worker :=
  let preload_size := wrapUInt32 (truncToInt preload_port)
  if preload_size ≠ self.preload_size then
    ({ self with preload_size := preload_size },
      (worker.schedule_work
        { size := 4, type := self.sfizz_preload_size_uri,
          body := AtomBody.int (wrapInt32 preload_size) }).2)
  else (self, worker)

/-- The function `sfizz_lv2_check_num_voices`. -/
def sfizz_lv2_check_num_voices (self : sfizz_plugin_t) (worker : Worker)
    (polyphony_port : ℚ) : sfizz_plugin_t × Worker :=
  let num_voices := truncToInt polyphony_port
  if num_voices ≠ self.num_voices then
    ({ self with num_voices := num_voices },
      (worker.schedule_work
        { size := 4, type := self.sfizz_num_voices_uri,
          body := AtomBody.int num_voices }).2)
  else (self, worker)


/-- What the host connects to the ports before a `run` call: `connected` tells whether
the control and notify ports are both connected. -/
structure Ports where
  connected : Bool
  control_port : List ControlEvent
  polyphony_port : ℚ
  oversampling_port : ℚ
  preload_port : ℚ

/-- The end of `run`: the sample counter and the scheduling of the reload check. `debug`
tells whether the adapter was built without `NDEBUG`, in which case a log-status request
is scheduled first. The addition is that of a 32-bit `int`. -/
def countSamples (debug : Bool) (self : sfizz_plugin_t) (worker : Worker)
    (sample_count : Nat) : sfizz_plugin_t × Worker :=
  let self :=
    { self with sample_counter := wrapInt32 (self.sample_counter + wrapInt32 sample_count) }
  if self.sample_counter > LOG_SAMPLE_COUNT ∧ self.check_modification = true then
    let worker :=
      if debug then
        (worker.schedule_work
          { size := 0, type := self.sfizz_log_status_uri, body := AtomBody.empty }).2
      else worker
    let r := worker.schedule_work
      { size := 0, type := self.sfizz_check_modification_uri, body := AtomBody.empty }
    let self :=
      if r.1 = LV2_Worker_Status.LV2_WORKER_SUCCESS then
        { self with check_modification := false }
      else self
    ({ self with sample_counter := 0 }, r.2)
  else (self, worker)

/-- The function `run`, as far as the plugin fields of the model and the worker go: the
events of the control port, the three port checks that schedule work, the sample counter
with the reload check, and the midnam update. -/
def run (debug : Bool) (self : sfizz_plugin_t) (worker : Worker) (ports : Ports)
    (sample_count : Nat) : sfizz_plugin_t × Worker :=
  if ports.connected = false then (self, worker)
  else
    let r := handleEvents self worker ports.control_port
    let r := sfizz_lv2_check_preload_size r.1 r.2 ports.preload_port
    let r := sfizz_lv2_check_oversampling r.1 r.2 ports.oversampling_port
    let r := sfizz_lv2_check_num_voices r.1 r.2 ports.polyphony_port
    let r := countSamples debug r.1 r.2 sample_count
    let self := r.1
    let self :=
      if self.midnam = true ∧ self.must_update_midnam = true then
        { self with must_update_midnam := false }
      else self
    (self, r.2)

/-- The plugin together with the host's worker: the requests scheduled by `run` and not
yet executed by `work`, and the responses emitted by `work` and not yet delivered.
`undefined` is set once a call of `work` with undefined behaviour has been made: the
other fields say nothing from then on. -/
structure System where
  plugin : sfizz_plugin_t
  worker : Worker
  pending : List LV2_Atom
  undefined : Bool := false

/-- A call of the host into the plugin. -/
inductive Call
  | run (ports : Ports) (sample_count : Nat)
  | work (synth : Synth)
  | work_response

/-- One call of the host: `run` with the given ports, `work` on the oldest scheduled
request, or `work_response` on the oldest pending response. -/
def System.step (debug : Bool) (s : System) : Call → System
  | Call.run ports sample_count =>
    let r := run debug s.plugin s.worker ports sample_count
    { s with plugin := r.1, worker := r.2 }
  | Call.work synth =>
    match s.worker.queue with
    | [] => s
    | atom :: rest =>
      match work s.plugin synth (some atom) with
      | none => { s with undefined := true }
      | some r =>
        { s with plugin := r.plugin, worker := { s.worker with queue := rest },
                 pending := s.pending ++ responses r.effects }
  | Call.work_response =>
    match s.pending with
    | [] => s
    | atom :: rest =>
      { s with plugin := (work_response s.plugin (some atom)).plugin, pending := rest }

/-- A sequence of calls of the host, in order. -/
def System.steps (debug : Bool) (s : System) (calls : List Call) : System :=
  calls.foldl (System.step debug) s

/-- The reload-check requests that are outstanding: scheduled and not yet executed. -/
def System.outstandingChecks (s : System) : List LV2_Atom :=
  s.worker.queue.filter (fun atom => atom.type == s.plugin.sfizz_check_modification_uri)

/-- A host map that gives the URIs of the worker protocol the identifiers 1 to 8. -/
def sampleMap : URI → LV2_URID
  | URI.LV2_ATOM__URID => 1
  | URI.SFIZZ__sfzFile => 2
  | URI.SFIZZ__tuningfile => 3
  | URI.SFIZZ__numVoices => 4
  | URI.SFIZZ__preloadSize => 5
  | URI.SFIZZ__oversampling => 6
  | URI.SFIZZ__logStatus => 7
  | URI.SFIZZ__checkModification => 8

/-- A freshly instantiated plugin with a worker that accepts every request. -/
def freshSystem : System :=
  { plugin := instantiate sampleMap true false [] []
    worker := { accepts := fun _ _ => true, queue := [] }
    pending := [] }

/-- A synth in which every load succeeds and no file has changed on disk. -/
def quietSynth : Synth :=
  { load_file := fun _ => true
    load_scala_file := fun _ => true
    should_reload_file := false
    should_reload_scala := false
    unknown_opcodes := false
    num_voices := 64
    preload_size := 8192
    oversampling_factor := 1 }

/-- A patch `Set` event that asks for the instrument file of the given path. -/
def setSfzFile (path : List Nat) : ControlEvent :=
  ControlEvent.patch_set
    (some { size := 4, type := 1, body := AtomBody.urid 2 })
    (some { size := path.length + 1, type := 0, body := AtomBody.string path })
    true

/-- The ports of a `run` call with the given control events and the port values of a
fresh plugin. -/
def portsWith (events : List ControlEvent) : Ports :=
  { connected := true
    control_port := events
    polyphony_port := 64
    oversampling_port := 1
    preload_port := 8192 }

/-- Six `run` calls of 8192 samples without control events: 49152 samples. -/
def oneSecond : List Call :=
  List.replicate 6 (Call.run (portsWith []) 8192)

/-- Two instrument files are requested in one block; the first is loaded and its response
delivered, a second of audio passes, the second file is loaded and its response
delivered, and another second of audio passes. -/
def twoLoads : List Call :=
  [Call.run (portsWith [setSfzFile [97], setSfzFile [98]]) 8192,
   Call.work quietSynth, Call.work_response]
    ++ oneSecond
    ++ [Call.work quietSynth, Call.work_response]
    ++ oneSecond


/-- The reload-check request as `run` schedules it for the plugin of `freshSystem`. -/
def checkAtom : LV2_Atom := { size := 0, type := 8, body := AtomBody.empty }

/-- A request to load the tuning file of the path `a`, as `run` schedules it for the
plugin of `freshSystem`. -/
def tuningAtom : LV2_Atom := { size := 2, type := 3, body := AtomBody.string [97] }

/-- A synth in which every load succeeds and the tuning file has changed on disk. -/
def retunedSynth : Synth := { quietSynth with should_reload_scala := true }

/-- The value `x` has bit `i` set exactly when `n` has one of the `m` bits from `i` upwards
set. -/
def Smeared (m x n : Nat) : Prop :=
  ∀ i, x.testBit i = true ↔ ∃ j, j < m ∧ n.testBit (i + j) = true

/-- The five shift-and-or steps of `next_pow_2`. -/
def smear (v : Nat) : Nat :=
  let v := v ||| (v >>> 1)
  let v := v ||| (v >>> 2)
  let v := v ||| (v >>> 4)
  let v := v ||| (v >>> 8)
  v ||| (v >>> 16)

/-- The values of `sfizz_oversampling_factor_t` (`sfizz.h`): x1, x2, x4 and x8. -/
def sfizz_oversampling_factor_t : List Int := [1, 2, 4, 8]

/-- The request that `sfizz_lv2_check_oversampling` sends to the worker for the factor
`v`: an `int` atom of the oversampling type. -/
def oversamplingRequest (self : sfizz_plugin_t) (v : Int) : LV2_Atom :=
  { size := 4, type := self.sfizz_oversampling_uri, body := AtomBody.int v }

/-- A freshly instantiated plugin with the sample counter at `c`. -/
def idlePlugin (c : Int) : sfizz_plugin_t := { freshSystem.plugin with sample_counter := c }

/-- The function `lv2_midi_message_type` of the LV2 MIDI extension (`lv2/midi/midi.h`),
applied to the status byte: the type of a voice message is its status byte without the
channel, the type of a system message is its status byte, and anything else is invalid
(0). -/
def lv2_midi_message_type (status : Nat) : Nat :=
  if 128 ≤ status ∧ status < 240 then status &&& 240
  else if status ∈ [244, 245, 247, 249, 253] then 0
  else if status &&& 240 = 240 then status
  else 0

/-- The message type `LV2_MIDI_MSG_NOTE_OFF`. -/
def LV2_MIDI_MSG_NOTE_OFF : Nat := 128

/-- The message type `LV2_MIDI_MSG_NOTE_ON`. -/
def LV2_MIDI_MSG_NOTE_ON : Nat := 144

/-- The message type `LV2_MIDI_MSG_CONTROLLER`. -/
def LV2_MIDI_MSG_CONTROLLER : Nat := 176

/-- The message type `LV2_MIDI_MSG_BENDER`. -/
def LV2_MIDI_MSG_BENDER : Nat := 224

/-- A MIDI event of the control port: the frame time of the event and the first three
bytes of the message that follows it. -/
structure MidiEvent where
  frames : Int
  msg0 : Nat
  msg1 : Nat
  msg2 : Nat
  deriving DecidableEq, Repr

/-- A byte passed for a parameter of type `char` (signed). -/
def toChar (byte : Nat) : Int := if byte < 128 then byte else (byte : Int) - 256

/-- The macro `PITCH_BUILD_AND_CENTER`. -/
def PITCH_BUILD_AND_CENTER (first_byte last_byte : Nat) : Int :=
  wrapInt32 ((wrapUInt32 ((last_byte <<< 7 : Nat) + first_byte) : Nat) : Int) - 8192

/-- A MIDI call into the synth. -/
inductive MidiCall
  | sfizz_send_note_on (delay note_number velocity : Int)
  | sfizz_send_note_off (delay note_number velocity : Int)
  | sfizz_send_cc (delay cc_number cc_value : Int)
  | sfizz_send_pitch_wheel (delay pitch : Int)
  deriving DecidableEq, Repr

/-- The function `sfizz_lv2_process_midi_event`: the calls it makes into the synth. A
note-on with velocity 0 jumps to the label `noteoff`. -/
def sfizz_lv2_process_midi_event (ev : MidiEvent) : List MidiCall :=
  let type := lv2_midi_message_type ev.msg0
  if type = LV2_MIDI_MSG_NOTE_ON then
    if ev.msg2 = 0 then
      [MidiCall.sfizz_send_note_off (wrapInt32 ev.frames) ev.msg1 (toChar ev.msg2)]
    else [MidiCall.sfizz_send_note_on (wrapInt32 ev.frames) ev.msg1 (toChar ev.msg2)]
  else if type = LV2_MIDI_MSG_NOTE_OFF then
    [MidiCall.sfizz_send_note_off (wrapInt32 ev.frames) ev.msg1 (toChar ev.msg2)]
  else if type = LV2_MIDI_MSG_CONTROLLER then
    [MidiCall.sfizz_send_cc (wrapInt32 ev.frames) ev.msg1 (toChar ev.msg2)]
  else if type = LV2_MIDI_MSG_BENDER then
    [MidiCall.sfizz_send_pitch_wheel (wrapInt32 ev.frames)
      (PITCH_BUILD_AND_CENTER ev.msg1 ev.msg2)]
  else []

/-- A `run` call of `MAX_BLOCK_SIZE` samples without control events, with the port values
of a fresh plugin. -/
def idleRun : Call := Call.run (portsWith []) MAX_BLOCK_SIZE

end lv2


/-! ## The table of opcode defaults (`sfizz/Defaults.cpp`)

The table is that of the source. The type `OpcodeSpec`, its flags and the resolution of a
raw value are declared in `Defaults.h`, which is not among the sources. Values are exact
rationals: a decimal constant of the source stands for the `float` nearest to it, and
rounding to the nearest `float` keeps the order `≤`. -/

namespace Default

/-- Modelled from the spec: the policy flags of a parameter spec (§4.1), under the names
the table uses. `kEnforceBounds` and `kPermissiveBounds` stand for both sides. -/
inductive OpcodeFlags
  | kCanBeNote
  | kEnforceLowerBound
  | kEnforceUpperBound
  | kEnforceBounds
  | kPermissiveUpperBound
  | kPermissiveBounds
  | kNormalizePercent
  | kNormalizeMidi
  | kNormalizeBend
  | kWrapPhase
  | kDb2Mag
  deriving DecidableEq, Repr

open OpcodeFlags

/-- The value type `T` of an `OpcodeSpec<T>` of the table; `Enum` is an enumeration
type. -/
inductive SpecType
  | Float
  | Int8
  | Int16
  | Int32
  | Int64
  | UInt8
  | UInt16
  | UInt32
  | Bool
  | Enum
  deriving DecidableEq, Repr

/-- Modelled from the spec: `OpcodeSpec<T>` of `Defaults.h`, a default value, an inclusive
pair of bounds and a set of policy flags. The values of every numeric type are embedded
in the rationals, `true` is 1 and `false` is 0, and a constant of an enumeration is its
integer value. -/
structure OpcodeSpec where
  type : SpecType
  defaultValue : ℚ
  lo : ℚ
  hi : ℚ
  flags : List OpcodeFlags
  deriving DecidableEq, Repr

/-- The constants that the table takes from `Config.h` and from the effects as bounds. -/
structure Limits where
  oscillatorsPerVoice : Nat
  maxVoices : Nat
  numCCs : Nat
  maxLFOSteps : Nat
  maxDistoStages : Nat
  maxStrings : Nat

/-- The largest `uint32_t`. -/
def uint32_t_max : ℚ := 4294967295

/-- The largest `int32_t`. -/
def int32_t_max : ℚ := 2147483647

/-- The largest finite `float`, (2 - 2^(-23)) * 2^127. -/
def float_max : ℚ := (2 ^ 24 - 1) * 2 ^ 104

/-- The alias `FloatSpec`. -/
def FloatSpec (d lo hi : ℚ) (flags : List OpcodeFlags) : OpcodeSpec :=
  ⟨SpecType.Float, d, lo, hi, flags⟩

/-- The alias `Int32Spec`. -/
def Int32Spec (d lo hi : ℚ) (flags : List OpcodeFlags) : OpcodeSpec :=
  ⟨SpecType.Int32, d, lo, hi, flags⟩

/-- The alias `Int64Spec`. -/
def Int64Spec (d lo hi : ℚ) (flags : List OpcodeFlags) : OpcodeSpec :=
  ⟨SpecType.Int64, d, lo, hi, flags⟩

/-- The alias `UInt8Spec`. -/
def UInt8Spec (d lo hi : ℚ) (flags : List OpcodeFlags) : OpcodeSpec :=
  ⟨SpecType.UInt8, d, lo, hi, flags⟩

/-- The alias `UInt16Spec`. -/
def UInt16Spec (d lo hi : ℚ) (flags : List OpcodeFlags) : OpcodeSpec :=
  ⟨SpecType.UInt16, d, lo, hi, flags⟩

/-- The alias `UInt32Spec`. -/
def UInt32Spec (d lo hi : ℚ) (flags : List OpcodeFlags) : OpcodeSpec :=
  ⟨SpecType.UInt32, d, lo, hi, flags⟩

/-- The alias `BoolSpec`. -/
def BoolSpec (d lo hi : ℚ) (flags : List OpcodeFlags) : OpcodeSpec :=
  ⟨SpecType.Bool, d, lo, hi, flags⟩


def delay : OpcodeSpec :=
  FloatSpec 0 0 100 [kPermissiveBounds]

def delayRandom : OpcodeSpec :=
  FloatSpec 0 0 100 [kPermissiveBounds]

def delayMod : OpcodeSpec :=
  FloatSpec 0 0 100 [kPermissiveBounds]

def offset : OpcodeSpec :=
  Int64Spec 0 0 int32_t_max [kPermissiveBounds]

def offsetMod : OpcodeSpec :=
  Int64Spec 0 0 int32_t_max [kPermissiveBounds]

def offsetRandom : OpcodeSpec :=
  Int64Spec 0 0 int32_t_max [kPermissiveBounds]

def sampleEnd : OpcodeSpec :=
  Int64Spec int32_t_max 0 int32_t_max [kEnforceBounds]

def sampleEndMod : OpcodeSpec :=
  Int64Spec 0 (-int32_t_max) int32_t_max [kPermissiveBounds]

def sampleCount : OpcodeSpec :=
  UInt32Spec 0 0 uint32_t_max [kEnforceUpperBound]

def loopStart : OpcodeSpec :=
  Int64Spec 0 0 int32_t_max [kEnforceUpperBound]

def loopEnd : OpcodeSpec :=
  Int64Spec int32_t_max 0 int32_t_max [kEnforceUpperBound]

def loopMod : OpcodeSpec :=
  Int64Spec 0 (-int32_t_max) int32_t_max [kPermissiveBounds]

def loopCount : OpcodeSpec :=
  UInt32Spec 0 0 uint32_t_max [kEnforceUpperBound]

def loopCrossfade : OpcodeSpec :=
  FloatSpec (1 / 1000) (1 / 1000) 1 [kEnforceLowerBound, kPermissiveUpperBound]

def oscillatorPhase : OpcodeSpec :=
  FloatSpec 0 (-1000) 1000 [kPermissiveBounds]

def oscillatorMode : OpcodeSpec :=
  Int32Spec 0 0 2 []

def oscillatorMulti (c : Limits) : OpcodeSpec :=
  Int32Spec 1 1 c.oscillatorsPerVoice [kEnforceBounds]

def oscillatorDetune : OpcodeSpec :=
  FloatSpec 0 (-12000) 12000 [kPermissiveBounds]

def oscillatorDetuneMod : OpcodeSpec :=
  FloatSpec 0 (-12000) 12000 [kPermissiveBounds]

def oscillatorModDepth : OpcodeSpec :=
  FloatSpec 0 0 10000 [kNormalizePercent, kPermissiveBounds]

def oscillatorModDepthMod : OpcodeSpec :=
  FloatSpec 0 0 10000 [kNormalizePercent, kPermissiveBounds]

def oscillatorQuality : OpcodeSpec :=
  Int32Spec 1 0 3 []

def group : OpcodeSpec :=
  UInt32Spec 0 0 uint32_t_max []

def offTime : OpcodeSpec :=
  FloatSpec (6 / 1000) 0 100 [kPermissiveBounds]

def polyphony (c : Limits) : OpcodeSpec :=
  UInt32Spec c.maxVoices 0 c.maxVoices [kEnforceBounds]

def notePolyphony (c : Limits) : OpcodeSpec :=
  UInt32Spec c.maxVoices 0 c.maxVoices [kEnforceBounds]

def key : OpcodeSpec :=
  UInt8Spec 60 0 127 [kCanBeNote]

def loKey : OpcodeSpec :=
  UInt8Spec 0 0 127 [kCanBeNote]

def hiKey : OpcodeSpec :=
  UInt8Spec 127 0 127 [kCanBeNote]

def loCC : OpcodeSpec :=
  FloatSpec 0 0 127 [kNormalizeMidi, kPermissiveBounds]

def hiCC : OpcodeSpec :=
  FloatSpec 127 0 127 [kNormalizeMidi, kPermissiveBounds]

def loVel : OpcodeSpec :=
  FloatSpec 0 0 127 [kNormalizeMidi, kPermissiveBounds]

def hiVel : OpcodeSpec :=
  FloatSpec 127 0 127 [kNormalizeMidi, kPermissiveBounds]

def loChannelAftertouch : OpcodeSpec :=
  FloatSpec 0 0 127 [kNormalizeMidi, kPermissiveBounds]

def hiChannelAftertouch : OpcodeSpec :=
  FloatSpec 127 0 127 [kNormalizeMidi, kPermissiveBounds]

def loPolyAftertouch : OpcodeSpec :=
  FloatSpec 0 0 127 [kNormalizeMidi, kPermissiveBounds]

def hiPolyAftertouch : OpcodeSpec :=
  FloatSpec 127 0 127 [kNormalizeMidi, kPermissiveBounds]

def loBend : OpcodeSpec :=
  FloatSpec (-8191) (-8192) 8191 [kNormalizeBend, kPermissiveBounds]

def hiBend : OpcodeSpec :=
  FloatSpec 8191 (-8192) 8191 [kNormalizeBend, kPermissiveBounds]

def loNormalized : OpcodeSpec :=
  FloatSpec 0 0 1 [kPermissiveBounds]

def hiNormalized : OpcodeSpec :=
  FloatSpec 1 0 1 [kPermissiveBounds]

def loBipolar : OpcodeSpec :=
  FloatSpec (-1) (-1) 1 [kPermissiveBounds]

def hiBipolar : OpcodeSpec :=
  FloatSpec 1 (-1) 1 [kPermissiveBounds]

def ccNumber (c : Limits) : OpcodeSpec :=
  UInt16Spec 0 0 c.numCCs []

def smoothCC : OpcodeSpec :=
  UInt16Spec 0 0 100 [kPermissiveUpperBound]

def curveCC : OpcodeSpec :=
  UInt8Spec 0 0 255 []

def sustainCC : OpcodeSpec :=
  UInt8Spec 64 0 127 []

def sostenutoCC : OpcodeSpec :=
  UInt8Spec 66 0 127 []

def sustainThreshold : OpcodeSpec :=
  FloatSpec 1 0 127 [kNormalizeMidi, kPermissiveBounds]

def sostenutoThreshold : OpcodeSpec :=
  FloatSpec 1 0 127 [kNormalizeMidi, kPermissiveBounds]

def checkSustain : OpcodeSpec :=
  BoolSpec 1 0 1 [kEnforceBounds]

def checkSostenuto : OpcodeSpec :=
  BoolSpec 1 0 1 [kEnforceBounds]

def loBPM : OpcodeSpec :=
  FloatSpec 0 0 500 [kPermissiveBounds]

def hiBPM : OpcodeSpec :=
  FloatSpec 500 0 500 [kPermissiveBounds]

def sequence : OpcodeSpec :=
  UInt8Spec 1 1 100 []

def volume : OpcodeSpec :=
  FloatSpec 0 (-144) 48 [kPermissiveBounds]

def volumeMod : OpcodeSpec :=
  FloatSpec 0 (-144) 48 [kPermissiveBounds]

def amplitude : OpcodeSpec :=
  FloatSpec 100 0 10000 [kNormalizePercent, kPermissiveBounds]

def amplitudeMod : OpcodeSpec :=
  FloatSpec 0 0 10000 [kNormalizePercent, kPermissiveBounds]

def pan : OpcodeSpec :=
  FloatSpec 0 (-100) 100 [kNormalizePercent, kPermissiveBounds]

def panMod : OpcodeSpec :=
  FloatSpec 0 (-200) 200 [kNormalizePercent, kPermissiveBounds]

def position : OpcodeSpec :=
  FloatSpec 0 (-100) 100 [kNormalizePercent, kPermissiveBounds]

def positionMod : OpcodeSpec :=
  FloatSpec 0 (-200) 200 [kNormalizePercent, kPermissiveBounds]

def width : OpcodeSpec :=
  FloatSpec 100 (-100) 100 [kNormalizePercent, kPermissiveBounds]

def widthMod : OpcodeSpec :=
  FloatSpec 0 (-200) 200 [kNormalizePercent, kPermissiveBounds]

def ampKeytrack : OpcodeSpec :=
  FloatSpec 0 (-96) 12 [kPermissiveBounds]

def ampVeltrack : OpcodeSpec :=
  FloatSpec 100 (-100) 100 [kNormalizePercent, kPermissiveBounds]

def ampVelcurve : OpcodeSpec :=
  FloatSpec 0 0 1 [kPermissiveBounds]

def ampRandom : OpcodeSpec :=
  FloatSpec 0 (-24) 24 [kPermissiveBounds]

def rtDead : OpcodeSpec :=
  BoolSpec 0 0 1 [kEnforceBounds]

def rtDecay : OpcodeSpec :=
  FloatSpec 0 0 200 [kEnforceLowerBound, kPermissiveUpperBound]

def filterCutoff : OpcodeSpec :=
  FloatSpec 0 0 20000 [kPermissiveBounds]

def filterCutoffMod : OpcodeSpec :=
  FloatSpec 0 (-12000) 12000 [kPermissiveBounds]

def filterResonance : OpcodeSpec :=
  FloatSpec 0 0 96 [kPermissiveBounds]

def filterResonanceMod : OpcodeSpec :=
  FloatSpec 0 0 96 [kPermissiveBounds]

def filterGain : OpcodeSpec :=
  FloatSpec 0 (-96) 96 [kPermissiveBounds]

def filterGainMod : OpcodeSpec :=
  FloatSpec 0 (-96) 96 [kPermissiveBounds]

def filterRandom : OpcodeSpec :=
  FloatSpec 0 (-12000) 12000 [kPermissiveBounds]

def filterKeytrack : OpcodeSpec :=
  FloatSpec 0 0 1200 [kPermissiveBounds]

def filterVeltrack : OpcodeSpec :=
  FloatSpec 0 (-12000) 12000 [kPermissiveBounds]


def eqBandwidth : OpcodeSpec :=
  FloatSpec 1 (1 / 1000) 4 [kPermissiveBounds]

def eqBandwidthMod : OpcodeSpec :=
  FloatSpec 0 (-4) 4 [kPermissiveBounds]

def eqFrequency : OpcodeSpec :=
  FloatSpec 0 0 20000 [kPermissiveBounds]

def eqFrequencyMod : OpcodeSpec :=
  FloatSpec 0 (-20000) 20000 [kPermissiveBounds]

def eqGain : OpcodeSpec :=
  FloatSpec 0 (-96) 96 [kPermissiveBounds]

def eqGainMod : OpcodeSpec :=
  FloatSpec 0 (-96) 96 [kPermissiveBounds]

def eqVel2Frequency : OpcodeSpec :=
  FloatSpec 0 (-30000) 30000 [kPermissiveBounds]

def eqVel2Gain : OpcodeSpec :=
  FloatSpec 0 (-96) 96 [kPermissiveBounds]

def pitchKeytrack : OpcodeSpec :=
  FloatSpec 100 (-1200) 1200 [kPermissiveBounds]

def pitchRandom : OpcodeSpec :=
  FloatSpec 0 (-12000) 12000 [kPermissiveBounds]

def pitchVeltrack : OpcodeSpec :=
  FloatSpec 0 (-12000) 12000 [kPermissiveBounds]

def transpose : OpcodeSpec :=
  FloatSpec 0 (-127) 127 [kPermissiveBounds]

def pitch : OpcodeSpec :=
  FloatSpec 0 (-2400) 2400 [kPermissiveBounds]

def pitchMod : OpcodeSpec :=
  FloatSpec 0 (-9600) 9600 [kPermissiveBounds]

def bendUp : OpcodeSpec :=
  FloatSpec 200 (-12000) 12000 [kPermissiveBounds]

def bendDown : OpcodeSpec :=
  FloatSpec (-200) (-12000) 12000 [kPermissiveBounds]

def bendStep : OpcodeSpec :=
  FloatSpec 1 1 1200 [kEnforceLowerBound, kPermissiveBounds]

def ampLFODepth : OpcodeSpec :=
  FloatSpec 0 (-10) 10 [kPermissiveBounds]

def pitchLFODepth : OpcodeSpec :=
  FloatSpec 0 (-1200) 1200 [kPermissiveBounds]

def filLFODepth : OpcodeSpec :=
  FloatSpec 0 (-1200) 1200 [kPermissiveBounds]

def lfoFreq : OpcodeSpec :=
  FloatSpec 0 0 100 [kPermissiveBounds]

def lfoFreqMod : OpcodeSpec :=
  FloatSpec 0 (-100) 100 [kPermissiveBounds]

def lfoBeats : OpcodeSpec :=
  FloatSpec 0 0 1000 [kPermissiveBounds]

def lfoBeatsMod : OpcodeSpec :=
  FloatSpec 0 (-1000) 1000 [kPermissiveBounds]

def lfoPhase : OpcodeSpec :=
  FloatSpec 0 0 1 [kWrapPhase, kPermissiveBounds]

def lfoPhaseMod : OpcodeSpec :=
  FloatSpec 0 0 1 [kPermissiveBounds]

def lfoDelay : OpcodeSpec :=
  FloatSpec 0 0 30 [kPermissiveBounds]

def lfoDelayMod : OpcodeSpec :=
  FloatSpec 0 0 30 [kPermissiveBounds]

def lfoFade : OpcodeSpec :=
  FloatSpec 0 0 30 [kPermissiveBounds]

def lfoFadeMod : OpcodeSpec :=
  FloatSpec 0 0 30 [kPermissiveBounds]

def lfoCount : OpcodeSpec :=
  UInt32Spec 0 0 1000 [kEnforceLowerBound, kPermissiveUpperBound]

def lfoSteps (c : Limits) : OpcodeSpec :=
  UInt32Spec 0 0 c.maxLFOSteps [kEnforceBounds]

def lfoStepX : OpcodeSpec :=
  FloatSpec 0 (-100) 100 [kNormalizePercent, kPermissiveBounds]

def lfoOffset : OpcodeSpec :=
  FloatSpec 0 (-1) 1 [kPermissiveBounds]

def lfoRatio : OpcodeSpec :=
  FloatSpec 1 0 100 [kPermissiveBounds]

def lfoScale : OpcodeSpec :=
  FloatSpec 1 0 1 [kPermissiveBounds]

def egTime : OpcodeSpec :=
  FloatSpec 0 0 100 [kPermissiveBounds]

def egRelease : OpcodeSpec :=
  FloatSpec (1 / 1000) 0 100 [kPermissiveBounds]

def egTimeMod : OpcodeSpec :=
  FloatSpec 0 (-100) 100 [kPermissiveBounds]

def egSustain : OpcodeSpec :=
  FloatSpec 100 0 100 [kNormalizePercent, kPermissiveBounds]

def egPercent : OpcodeSpec :=
  FloatSpec 0 0 100 [kNormalizePercent, kPermissiveBounds]

def egPercentMod : OpcodeSpec :=
  FloatSpec 0 (-100) 100 [kNormalizePercent, kPermissiveBounds]

def egDepth : OpcodeSpec :=
  FloatSpec 0 (-12000) 12000 [kPermissiveBounds]

def egVel2Depth : OpcodeSpec :=
  FloatSpec 0 (-12000) 12000 [kPermissiveBounds]

def flexEGAmpeg : OpcodeSpec :=
  BoolSpec 0 0 1 [kEnforceBounds]

def flexEGDynamic : OpcodeSpec :=
  BoolSpec 0 0 1 [kEnforceBounds]

def flexEGSustain : OpcodeSpec :=
  Int32Spec 0 0 100 [kEnforceLowerBound, kPermissiveUpperBound]

def flexEGPointTime : OpcodeSpec :=
  FloatSpec 0 0 100 [kPermissiveBounds]

def flexEGPointLevel : OpcodeSpec :=
  FloatSpec 0 (-1) 1 [kPermissiveBounds]

def flexEGPointShape : OpcodeSpec :=
  FloatSpec 0 (-100) 100 [kPermissiveBounds]

def sampleQuality : OpcodeSpec :=
  Int32Spec 2 0 10 []

def octaveOffset : OpcodeSpec :=
  Int32Spec 0 (-10) 10 [kPermissiveBounds]

def noteOffset : OpcodeSpec :=
  Int32Spec 0 (-127) 127 [kPermissiveBounds]

def effect : OpcodeSpec :=
  FloatSpec 0 0 100 [kNormalizePercent]

def effectPercent : OpcodeSpec :=
  FloatSpec 0 0 100 []

def apanFrequency : OpcodeSpec :=
  FloatSpec 0 0 float_max []

def apanPhase : OpcodeSpec :=
  FloatSpec (5 / 10) 0 1 [kWrapPhase]

def apanLevel : OpcodeSpec :=
  FloatSpec 0 0 100 [kNormalizePercent]

def distoTone : OpcodeSpec :=
  FloatSpec 100 0 100 []

def distoDepth : OpcodeSpec :=
  FloatSpec 0 0 100 []

def distoStages (c : Limits) : OpcodeSpec :=
  UInt32Spec 1 1 c.maxDistoStages []

def compAttack : OpcodeSpec :=
  FloatSpec (5 / 1000) 0 10 []

def compRelease : OpcodeSpec :=
  FloatSpec (5 / 100) 0 10 []

def compSTLink : OpcodeSpec :=
  BoolSpec 0 0 1 []

def compThreshold : OpcodeSpec :=
  FloatSpec 0 (-100) 0 []

def compRatio : OpcodeSpec :=
  FloatSpec 1 1 50 []

def compGain : OpcodeSpec :=
  FloatSpec 0 (-100) 100 [kDb2Mag]

def fverbSize : OpcodeSpec :=
  FloatSpec 0 0 100 []

def fverbPredelay : OpcodeSpec :=
  FloatSpec 0 0 10 []

def fverbTone : OpcodeSpec :=
  FloatSpec 100 0 100 []

def fverbDamp : OpcodeSpec :=
  FloatSpec 0 0 100 []

def gateSTLink : OpcodeSpec :=
  BoolSpec 0 0 1 []

def gateAttack : OpcodeSpec :=
  FloatSpec (5 / 1000) 0 10 []

def gateRelease : OpcodeSpec :=
  FloatSpec (5 / 100) 0 10 []

def gateHold : OpcodeSpec :=
  FloatSpec 0 0 10 []

def gateThreshold : OpcodeSpec :=
  FloatSpec 0 (-100) 0 []

def lofiBitred : OpcodeSpec :=
  FloatSpec 0 0 100 []

def lofiDecim : OpcodeSpec :=
  FloatSpec 0 0 100 []

def rectify : OpcodeSpec :=
  FloatSpec 0 0 100 []

def stringsNumber (c : Limits) : OpcodeSpec :=
  UInt32Spec c.maxStrings 0 c.maxStrings []


/-- The numeric and boolean specs of the table, in the order of the source. The eleven
specs of an enumeration type (`oscillator`, `lfoWave`, `apanWaveform`, `trigger`,
`crossfadeCurve`, `offMode`, `loopMode`, `velocityOverride`, `selfMask`, `filter`, `eq`)
are not numeric and are left out; `table` below has them too. -/
def specs (c : Limits) : List OpcodeSpec :=
  [delay, delayRandom, delayMod, offset, offsetMod, offsetRandom, sampleEnd,
   sampleEndMod, sampleCount, loopStart, loopEnd, loopMod, loopCount, loopCrossfade,
   oscillatorPhase, oscillatorMode, oscillatorMulti c, oscillatorDetune,
   oscillatorDetuneMod, oscillatorModDepth, oscillatorModDepthMod, oscillatorQuality,
   group, offTime, polyphony c, notePolyphony c, key, loKey, hiKey, loCC, hiCC, loVel,
   hiVel, loChannelAftertouch, hiChannelAftertouch, loPolyAftertouch, hiPolyAftertouch,
   loBend, hiBend, loNormalized, hiNormalized, loBipolar, hiBipolar, ccNumber c,
   smoothCC, curveCC, sustainCC, sostenutoCC, sustainThreshold, sostenutoThreshold,
   checkSustain, checkSostenuto, loBPM, hiBPM, sequence, volume, volumeMod, amplitude,
   amplitudeMod, pan, panMod, position, positionMod, width, widthMod, ampKeytrack,
   ampVeltrack, ampVelcurve, ampRandom, rtDead, rtDecay, filterCutoff, filterCutoffMod,
   filterResonance, filterResonanceMod, filterGain, filterGainMod, filterRandom,
   filterKeytrack, filterVeltrack, eqBandwidth, eqBandwidthMod, eqFrequency,
   eqFrequencyMod, eqGain, eqGainMod, eqVel2Frequency, eqVel2Gain, pitchKeytrack,
   pitchRandom, pitchVeltrack, transpose, pitch, pitchMod, bendUp, bendDown, bendStep,
   ampLFODepth, pitchLFODepth, filLFODepth, lfoFreq, lfoFreqMod, lfoBeats, lfoBeatsMod,
   lfoPhase, lfoPhaseMod, lfoDelay, lfoDelayMod, lfoFade, lfoFadeMod, lfoCount,
   lfoSteps c, lfoStepX, lfoOffset, lfoRatio, lfoScale, egTime, egRelease, egTimeMod,
   egSustain, egPercent, egPercentMod, egDepth, egVel2Depth, flexEGAmpeg,
   flexEGDynamic, flexEGSustain, flexEGPointTime, flexEGPointLevel, flexEGPointShape,
   sampleQuality, octaveOffset, noteOffset, effect, effectPercent, apanFrequency,
   apanPhase, apanLevel, distoTone, distoDepth, distoStages c, compAttack, compRelease,
   compSTLink, compThreshold, compRatio, compGain, fverbSize, fverbPredelay, fverbTone,
   fverbDamp, gateSTLink, gateAttack, gateRelease, gateHold, gateThreshold, lofiBitred,
   lofiDecim, rectify, stringsNumber c]

/-- An example of the constants the table takes from elsewhere. -/
def sampleLimits : Limits :=
  { oscillatorsPerVoice := 9, maxVoices := 256, numCCs := 512, maxLFOSteps := 128,
    maxDistoStages := 4, maxStrings := 88 }


/-- The enumeration constants that the table names, `Enumeration::constant` written
`Enumeration_constant`. The enumerations are declared outside the sources. -/
inductive EnumConstant
  | OscillatorEnabled_Auto
  | OscillatorEnabled_On
  | LFOWave_Triangle
  | LFOWave_RandomSH
  | LFOWave_Saw
  | Trigger_attack
  | Trigger_release_key
  | CrossfadeCurve_power
  | CrossfadeCurve_gain
  | OffMode_fast
  | OffMode_time
  | LoopMode_no_loop
  | LoopMode_loop_sustain
  | VelocityOverride_current
  | VelocityOverride_previous
  | SelfMask_mask
  | SelfMask_dontMask
  | FilterType_kFilterNone
  | FilterType_kFilterPeq
  | EqType_kEqNone
  | EqType_kEqHshelf
  deriving DecidableEq, Repr

open EnumConstant

/-- The alias `ESpec`, for a spec of an enumeration type. A constant of the enumeration
stands for its integer value, which `code` gives. -/
def ESpec (d lo hi : Int) (flags : List OpcodeFlags) : OpcodeSpec :=
  ⟨SpecType.Enum, d, lo, hi, flags⟩

def oscillator (code : EnumConstant → Int) : OpcodeSpec :=
  ESpec (code OscillatorEnabled_Auto) (code OscillatorEnabled_Auto)
    (code OscillatorEnabled_On) []

def lfoWave (code : EnumConstant → Int) : OpcodeSpec :=
  ESpec (code LFOWave_Triangle) (code LFOWave_Triangle) (code LFOWave_RandomSH) []

def apanWaveform (code : EnumConstant → Int) : OpcodeSpec :=
  ESpec (code LFOWave_Triangle) (code LFOWave_Triangle) (code LFOWave_Saw) []

def trigger (code : EnumConstant → Int) : OpcodeSpec :=
  ESpec (code Trigger_attack) (code Trigger_attack) (code Trigger_release_key) []

def crossfadeCurve (code : EnumConstant → Int) : OpcodeSpec :=
  ESpec (code CrossfadeCurve_power) (code CrossfadeCurve_gain)
    (code CrossfadeCurve_power) []

def offMode (code : EnumConstant → Int) : OpcodeSpec :=
  ESpec (code OffMode_fast) (code OffMode_fast) (code OffMode_time) []

def loopMode (code : EnumConstant → Int) : OpcodeSpec :=
  ESpec (code LoopMode_no_loop) (code LoopMode_no_loop) (code LoopMode_loop_sustain) []

def velocityOverride (code : EnumConstant → Int) : OpcodeSpec :=
  ESpec (code VelocityOverride_current) (code VelocityOverride_current)
    (code VelocityOverride_previous) []

def selfMask (code : EnumConstant → Int) : OpcodeSpec :=
  ESpec (code SelfMask_mask) (code SelfMask_mask) (code SelfMask_dontMask) []

def filter (code : EnumConstant → Int) : OpcodeSpec :=
  ESpec (code FilterType_kFilterNone) (code FilterType_kFilterNone)
    (code FilterType_kFilterPeq) []

def eq (code : EnumConstant → Int) : OpcodeSpec :=
  ESpec (code EqType_kEqNone) (code EqType_kEqNone) (code EqType_kEqHshelf) []

/-- The table: every spec of `Defaults.cpp`, in the order of the source. The specs of an
enumeration type take the integer values of their constants from `code`. -/
def table (c : Limits) (code : EnumConstant → Int) : List OpcodeSpec :=
  [delay, delayRandom, delayMod, offset, offsetMod, offsetRandom, sampleEnd, sampleEndMod,
   sampleCount, loopStart, loopEnd, loopMod, loopCount, loopCrossfade, oscillator code,
   oscillatorPhase, oscillatorMode, oscillatorMulti c, oscillatorDetune,
   oscillatorDetuneMod, oscillatorModDepth, oscillatorModDepthMod, oscillatorQuality,
   group, offTime, polyphony c, notePolyphony c, key, loKey, hiKey, loCC, hiCC, loVel,
   hiVel, loChannelAftertouch, hiChannelAftertouch, loPolyAftertouch, hiPolyAftertouch,
   loBend, hiBend, loNormalized, hiNormalized, loBipolar, hiBipolar, ccNumber c, smoothCC,
   curveCC, sustainCC, sostenutoCC, sustainThreshold, sostenutoThreshold, checkSustain,
   checkSostenuto, loBPM, hiBPM, sequence, volume, volumeMod, amplitude, amplitudeMod, pan,
   panMod, position, positionMod, width, widthMod, ampKeytrack, ampVeltrack, ampVelcurve,
   ampRandom, rtDead, rtDecay, filterCutoff, filterCutoffMod, filterResonance,
   filterResonanceMod, filterGain, filterGainMod, filterRandom, filterKeytrack,
   filterVeltrack, eqBandwidth, eqBandwidthMod, eqFrequency, eqFrequencyMod, eqGain,
   eqGainMod, eqVel2Frequency, eqVel2Gain, pitchKeytrack, pitchRandom, pitchVeltrack,
   transpose, pitch, pitchMod, bendUp, bendDown, bendStep, ampLFODepth, pitchLFODepth,
   filLFODepth, lfoFreq, lfoFreqMod, lfoBeats, lfoBeatsMod, lfoPhase, lfoPhaseMod,
   lfoDelay, lfoDelayMod, lfoFade, lfoFadeMod, lfoCount, lfoSteps c, lfoStepX,
   lfoWave code, lfoOffset, lfoRatio, lfoScale, egTime, egRelease, egTimeMod, egSustain,
   egPercent, egPercentMod, egDepth, egVel2Depth, flexEGAmpeg, flexEGDynamic,
   flexEGSustain, flexEGPointTime, flexEGPointLevel, flexEGPointShape, sampleQuality,
   octaveOffset, noteOffset, effect, effectPercent, apanWaveform code, apanFrequency,
   apanPhase, apanLevel, distoTone, distoDepth, distoStages c, compAttack, compRelease,
   compSTLink, compThreshold, compRatio, compGain, fverbSize, fverbPredelay, fverbTone,
   fverbDamp, gateSTLink, gateAttack, gateRelease, gateHold, gateThreshold, lofiBitred,
   lofiDecim, rectify, stringsNumber c, trigger code, crossfadeCurve code, offMode code,
   loopMode code, velocityOverride code, selfMask code, filter code, eq code]

/-- An example of the integer values of the enumeration constants. -/
def sampleCodes : EnumConstant → Int
  | OscillatorEnabled_Auto => -1
  | OscillatorEnabled_On => 1
  | LFOWave_Triangle => 0
  | LFOWave_RandomSH => 12
  | LFOWave_Saw => 7
  | Trigger_attack => 0
  | Trigger_release_key => 4
  | CrossfadeCurve_power => 1
  | CrossfadeCurve_gain => 0
  | OffMode_fast => 0
  | OffMode_time => 2
  | LoopMode_no_loop => 0
  | LoopMode_loop_sustain => 3
  | VelocityOverride_current => 0
  | VelocityOverride_previous => 1
  | SelfMask_mask => 0
  | SelfMask_dontMask => 1
  | FilterType_kFilterNone => 0
  | FilterType_kFilterPeq => 25
  | EqType_kEqNone => 0
  | EqType_kEqHshelf => 3


/-- Modelled from the spec: the raw value of an opcode, the text that the instrument file
gives for it (§4.1): its characters by their codes (45 is the minus sign, 46 the point, 48
to 57 the digits). -/
abbrev Raw := List Nat

/-- Modelled from the spec (part of `str`): the decimal digits of `n`, the most
significant first, put in front of `rest`; at most `fuel` of them. -/
def digitCodes : Nat → Nat → List Nat → List Nat
  | 0, _, rest => rest
  | fuel + 1, n, rest =>
    if n < 10 then (48 + n) :: rest
    else digitCodes fuel (n / 10) ((48 + n % 10) :: rest)

/-- Modelled from the spec (part of `str`): the six decimal digits of `f`, a number below
10^6, with leading zeros. -/
def fractionCodes (f : Nat) : List Nat :=
  [48 + f / 100000 % 10, 48 + f / 10000 % 10, 48 + f / 1000 % 10, 48 + f / 100 % 10,
   48 + f / 10 % 10, 48 + f % 10]

/-- Modelled from the spec: the textual form of a value, which the table does not define.
It is the decimal numeral with six digits after the point (as `printf` writes a number
with `%f`), the digits beyond the sixth cut off: `100.000000`, `-1.000000`, `0.001000`. -/
def str (value : ℚ) : Raw :=
  let m := (⌊(if value < 0 then -value else value) * 1000000⌋).toNat
  (if value < 0 then [45] else [])
    ++ digitCodes (m / 1000000 + 1) (m / 1000000) (46 :: fractionCodes (m % 1000000))

/-- Modelled from the spec (part of `parse`): the number that a sequence of digits stands
for, read after the digits that gave `acc`; `none` when a character is not a digit. -/
def parseDigits : Nat → List Nat → Option Nat
  | acc, [] => some acc
  | acc, c :: cs => if 48 ≤ c ∧ c ≤ 57 then parseDigits (10 * acc + (c - 48)) cs else none

/-- Modelled from the spec (part of `parse`): a decimal numeral without sign: digits, and
optionally a point and more digits, with at least one digit in all. -/
def parseUnsigned (text : List Nat) : Option ℚ :=
  let whole := text.takeWhile (fun c => c != 46)
  let fraction := (text.dropWhile (fun c => c != 46)).drop 1
  if whole = [] ∧ fraction = [] then none
  else
    match parseDigits 0 whole, parseDigits 0 fraction with
    | some i, some f => some ((i : ℚ) + (f : ℚ) / 10 ^ fraction.length)
    | _, _ => none

/-- Modelled from the spec (part of `parse`): a decimal numeral with an optional minus
sign. -/
def parseNumber : Raw → Option ℚ
  | 45 :: text => (parseUnsigned text).map (fun v => -v)
  | text => parseUnsigned text

/-- Modelled from the spec (part of `parse`): the semitone of a note letter within its
octave: `c`, `d`, `e`, `f`, `g`, `a`, `b`. -/
def noteLetter : Nat → Option Nat
  | 99 => some 0
  | 100 => some 2
  | 101 => some 4
  | 102 => some 5
  | 103 => some 7
  | 97 => some 9
  | 98 => some 11
  | _ => none

/-- Modelled from the spec: the name of a note, a letter and an octave (`c4` is the key
60), with a value from 0 to 127. -/
def parseNote : Raw → Option ℚ
  | [] => none
  | letter :: octave =>
    match noteLetter letter, parseDigits 0 octave with
    | some semitone, some o =>
      if octave ≠ [] ∧ semitone + 12 * (o + 1) ≤ 127 then
        some ((semitone + 12 * (o + 1) : Nat) : ℚ)
      else none
    | _, _ => none

/-- Modelled from the spec: parsing (§4.1). A numeral parses directly, the name of a note
is accepted under `kCanBeNote`, and nothing else parses. -/
def parse (spec : OpcodeSpec) (raw : Raw) : Option ℚ :=
  match parseNumber raw with
  | some value => some value
  | none => if kCanBeNote ∈ spec.flags then parseNote raw else none

/-- The flags of the spec select a unit normalisation. -/
def OpcodeSpec.normalizes (spec : OpcodeSpec) : Bool :=
  decide (kNormalizePercent ∈ spec.flags) || decide (kNormalizeMidi ∈ spec.flags)
    || decide (kNormalizeBend ∈ spec.flags) || decide (kDb2Mag ∈ spec.flags)
    || decide (kWrapPhase ∈ spec.flags)

/-- The flags of the spec enforce the lower bound. -/
def OpcodeSpec.enforcesLower (spec : OpcodeSpec) : Bool :=
  decide (kEnforceBounds ∈ spec.flags) || decide (kEnforceLowerBound ∈ spec.flags)

/-- The flags of the spec enforce the upper bound. -/
def OpcodeSpec.enforcesUpper (spec : OpcodeSpec) : Bool :=
  decide (kEnforceBounds ∈ spec.flags) || decide (kEnforceUpperBound ∈ spec.flags)

/-- Modelled from the spec: unit normalisation (§4.1), `normalizeInput` of `Defaults.h`.
Percent divides by 100, MIDI by 127, bend by 8192, `kDb2Mag` converts decibels to a
magnitude by `db2mag` (the real function 10^(x/20), a parameter here), and `kWrapPhase`
wraps into `[0, 1)`. -/
def normalizeInput (db2mag : ℚ → ℚ) (spec : OpcodeSpec) (value : ℚ) : ℚ :=
  let value := if kNormalizePercent ∈ spec.flags then value / 100 else value
  let value := if kNormalizeMidi ∈ spec.flags then value / 127 else value
  let value := if kNormalizeBend ∈ spec.flags then value / 8192 else value
  let value := if kDb2Mag ∈ spec.flags then db2mag value else value
  if kWrapPhase ∈ spec.flags then Int.fract value else value

/-- Modelled from the spec: bounds enforcement (§4.1). `kEnforceBounds` clamps to
`[lo, hi]`, `kEnforceLowerBound` and `kEnforceUpperBound` clamp one side, and the
permissive flags clamp nothing. -/
def enforceBounds (spec : OpcodeSpec) (value : ℚ) : ℚ :=
  let value := if spec.enforcesLower then max spec.lo value else value
  if spec.enforcesUpper then min spec.hi value else value

/-- Modelled from the spec: `resolve(raw, spec) -> (value, valid)` of §4.1, which the
sources do not contain. A raw value that does not parse gives the default of the spec,
marked invalid; one that parses is normalised first and bounded second. -/
def resolve (db2mag : ℚ → ℚ) (raw : Raw) (spec : OpcodeSpec) : ℚ × Bool :=
  match parse spec raw with
  | none => (spec.defaultValue, false)
  | some value => (enforceBounds spec (normalizeInput db2mag spec value), true)

/-- The default of the spec lies within the bounds of the spec. -/
@[reducible]
def OpcodeSpec.defaultInBounds (spec : OpcodeSpec) : Prop :=
  spec.lo ≤ spec.defaultValue ∧ spec.defaultValue ≤ spec.hi

/-- A spec that enforces a bound selects no normalisation. -/
@[reducible]
def OpcodeSpec.enforcesRaw (spec : OpcodeSpec) : Prop :=
  (spec.enforcesLower = true ∨ spec.enforcesUpper = true) → spec.normalizes = false

/-- The value has at most six digits after the point, so that its textual form is
exact. -/
@[reducible]
def Printable (value : ℚ) : Prop := (value * 1000000).den = 1

/-- A conversion of decibels that is exact at 0 dB and at multiples of 20 dB. -/
def db2magNat (x : ℚ) : ℚ := 10 ^ (⌊x / 20⌋).toNat

end Default


/-- The conversion `static_cast<int>(count)` of a `size_t`: the value modulo 2^32 in the
range of a 32-bit `int`. It is `count` itself for every `count` below 2^31. -/
def castInt (count : Nat) : Int := ((count : Int) + 2147483648) % 4294967296 - 2147483648

/-- The statement after the `switch` with the conversion of `count` written out:
`releaseDelay = std::max(-1, releaseDelay - static_cast<int>(count))`. The subtraction is
that of the integers; from `releaseDelay = -1` its result is in the range of `int` for
every `count`. -/
def countDownInt (e : ADSREnvelope) (count : Nat) : ADSREnvelope :=
  if e.shouldRelease = true then
    { e with releaseDelay := max (-1) (e.releaseDelay - castInt count) }
  else e

/-- One pass through the body of `while (!output.empty())` as `iteration`, with the
conversion of `count` to `int` in the statement after the `switch`. -/
def iterationInt (pow : ℚ → ℚ → ℚ) (cfg : Config) (e : ADSREnvelope) (output : List ℚ) :
    Step :=
  let rc := releaseCheck e output.length
  let c := switchCase pow cfg rc.1 rc.2
  let filled := if rc.1.currentState = State.Done then List.replicate output.length 0 else output
  { env := countDownInt c.env c.out.length
    out := c.out
    ops := c.ops
    rest := filled.drop c.out.length }

/-- The outer loop of `getBlock` as `getBlockLoop`, with the passes of `iterationInt`. -/
def getBlockLoopInt (pow : ℚ → ℚ → ℚ) (cfg : Config) :
    Nat → ADSREnvelope → List ℚ → Option Chunk
  | _, e, [] => some ⟨e, [], []⟩
  | 0, _, _ :: _ => none
  | fuel + 1, e, x :: xs =>
    let s := iterationInt pow cfg e (x :: xs)
    match getBlockLoopInt pow cfg fuel s.env s.rest with
    | none => none
    | some c => some ⟨c.env, s.out ++ c.out, s.ops ++ c.ops⟩

/-- `ADSREnvelope::getBlock` as `getBlock`, with the conversion of `count` to `int`: the
two agree on every span of fewer than 2^31 samples. -/
def getBlockInt (pow : ℚ → ℚ → ℚ) (cfg : Config) (e : ADSREnvelope) (output : List ℚ) :
    Option Chunk :=
  getBlockLoopInt pow cfg (passBound output.length) e output

/-- The envelopes a caller can bring about from a default-constructed object, or from a
`reset` of any object, by `reset`, `getBlock` on spans of fewer than 2^31 samples,
`startRelease` and `setReleaseTime`. The objects between two passes of the outer loop of
`getBlock` are among them (`pass`). -/
inductive Driven (pow : ℚ → ℚ → ℚ) (cfg : Config) : ADSREnvelope → Prop where
  | init : Driven pow cfg (ADSREnvelope.init cfg)
  | reset (e : ADSREnvelope) (desc : EGValues) (oneShotOscillator : Bool) (delay : Int)
      (sampleRate : ℚ) : Driven pow cfg (reset cfg e desc oneShotOscillator delay sampleRate)
  | pass {e : ADSREnvelope} (x : ℚ) (xs : List ℚ) : (x :: xs).length < 2147483648 →
      Driven pow cfg e → Driven pow cfg (iterationInt pow cfg e (x :: xs)).env
  | getBlock {e : ADSREnvelope} (output : List ℚ) {c : Chunk} : output.length < 2147483648 →
      Driven pow cfg e → getBlockInt pow cfg e output = some c → Driven pow cfg c.env
  | startRelease {e : ADSREnvelope} (releaseDelay : Int) :
      Driven pow cfg e → Driven pow cfg (startRelease e releaseDelay)
  | setReleaseTime {e : ADSREnvelope} (timeInSeconds : ℚ) :
      Driven pow cfg e → Driven pow cfg (setReleaseTime e timeInSeconds)

/-- An envelope whose release has run to the end: reset with `instantDesc`, released with
`startRelease(5)` and rendered for one sample. -/
def finishedEnvelope : Option ADSREnvelope :=
  (getBlockInt powNat sampleConfig (startRelease (instantEnvelope 0) 5) [0]).map
    (fun c => c.env)


/-- An envelope that has been in use: reset with `slowReleaseDesc` at a sample rate of 4,
rendered for one sample (the value 1) and released with `startRelease`. -/
def usedEnvelope : Option ADSREnvelope :=
  (getBlock powNat sampleConfig releasingEnvelope [0]).map (fun c => startRelease c.env 0)

/-- The samples of a call of `getBlock` for four samples after a `reset` of the object `e`
for a one-shot oscillator (free-running) with `slowReleaseDesc` at a sample rate of 4. -/
def oneShotSamples (e : ADSREnvelope) : Option (List ℚ) :=
  (getBlock powNat sampleConfig (reset sampleConfig e slowReleaseDesc true 0 4)
    [0, 0, 0, 0]).map (fun c => c.out)


/-- The envelopes that come about from a default-constructed object, whose members start
at their defaults, by `reset` with a positive sample rate, `getBlock`, `startRelease` and
`setReleaseTime`. -/
inductive FromDefault (pow : ℚ → ℚ → ℚ) (cfg : Config) : ADSREnvelope → Prop where
  | init : FromDefault pow cfg (ADSREnvelope.init cfg)
  | reset {e : ADSREnvelope} (desc : EGValues) (oneShotOscillator : Bool) (delay : Int)
      (sampleRate : ℚ) : 0 < sampleRate → FromDefault pow cfg e →
      FromDefault pow cfg (reset cfg e desc oneShotOscillator delay sampleRate)
  | getBlock {e : ADSREnvelope} (output : List ℚ) {c : Chunk} :
      FromDefault pow cfg e → getBlock pow cfg e output = some c → FromDefault pow cfg c.env
  | startRelease {e : ADSREnvelope} (releaseDelay : Int) :
      FromDefault pow cfg e → FromDefault pow cfg (startRelease e releaseDelay)
  | setReleaseTime {e : ADSREnvelope} (timeInSeconds : ℚ) :
      FromDefault pow cfg e → FromDefault pow cfg (setReleaseTime e timeInSeconds)

/-- The power function is not negative on the unit interval, for positive exponents (a
law of the real power function). -/
def PowNonneg (pow : ℚ → ℚ → ℚ) : Prop :=
  ∀ b x : ℚ, 0 ≤ b → b ≤ 1 → 0 < x → 0 ≤ pow b x

/-- The numeric facts that keep the samples from being negative: the levels `start` and
`sustain` are in `[0, 1]`; the attack step, the release start point and the current value
are not negative; the attack counter is not negative in state `Attack`. -/
structure Sound (e : ADSREnvelope) : Prop where
  start_nonneg : 0 ≤ e.start
  start_le : e.start ≤ 1
  sustain_nonneg : 0 ≤ e.sustain
  sustain_le : e.sustain ≤ 1
  attackStep : 0 ≤ e.attackStep
  releaseValue : 0 ≤ e.releaseValue
  currentValue : 0 ≤ e.currentValue
  attackCount : e.currentState = State.Attack → 0 ≤ e.attackCount


/-- The first `m` values of the ramp of `Fadeout` that starts at the value `v` with the
step `d`: `v + d`, `v + 2 * d`, and so on. -/
def fadeoutRamp (v d : ℚ) (m : Nat) : List ℚ :=
  (List.range m).map (fun i : Nat => v + ((i : ℚ) + 1) * d)

/-- The number of samples the loop of `Fadeout` writes into `n` positions from the value
`v` with the step `d`: it stops at the first value of the ramp that is not positive. -/
def rampLength (v d : ℚ) : Nat → Nat
  | 0 => 0
  | n + 1 => if 0 < v + d then rampLength (v + d) d n + 1 else 0

/-- An envelope in state `Fadeout`, after a release that has fired, at the value `v` with
the step `d`. -/
def Fading (v d : ℚ) (e : ADSREnvelope) : Prop :=
  e.currentState = State.Fadeout ∧ e.shouldRelease = true ∧ e.releaseDelay = -1
    ∧ e.transitionDelta = d ∧ e.currentValue = v

/-- An envelope in state `Release` at the release threshold, at 48 kHz: the `Release` case
writes nothing and enters `Fadeout` at once. -/
def lowReleaseEnvelope : ADSREnvelope :=
  { instantEnvelope 0 with
    currentState := State.Release
    currentValue := 1 / 10000
    shouldRelease := true
    releaseDelay := -1 }

/-- The object that the `Release` case leaves when it runs on `lowReleaseEnvelope`: in
state `Fadeout` at the value 1/10000 with the step -1/24000000. -/
def fadingEnvelope : ADSREnvelope := (releaseCase powNat sampleConfig lowReleaseEnvelope 1).env

/-- Two calls of `getBlock`, for two samples and for one. -/
def twoCalls : List (List ℚ) := [[0, 0], [0]]


/-- The envelopes that a pass of the outer loop of `getBlock` can start from: a `reset` of
any object, followed by any sequence of `getBlock`, `startRelease` and `setReleaseTime`
calls, and the objects between two passes of the outer loop inside a call (`pass`). -/
inductive Visited (pow : ℚ → ℚ → ℚ) (cfg : Config) : ADSREnvelope → Prop where
  | reset (e : ADSREnvelope) (desc : EGValues) (oneShotOscillator : Bool) (delay : Int)
      (sampleRate : ℚ) : Visited pow cfg (reset cfg e desc oneShotOscillator delay sampleRate)
  | pass {e : ADSREnvelope} (x : ℚ) (xs : List ℚ) :
      Visited pow cfg e → Visited pow cfg (iteration pow cfg e (x :: xs)).env
  | getBlock {e : ADSREnvelope} (output : List ℚ) {c : Chunk} :
      Visited pow cfg e → getBlock pow cfg e output = some c → Visited pow cfg c.env
  | startRelease {e : ADSREnvelope} (releaseDelay : Int) :
      Visited pow cfg e → Visited pow cfg (startRelease e releaseDelay)
  | setReleaseTime {e : ADSREnvelope} (timeInSeconds : ℚ) :
      Visited pow cfg e → Visited pow cfg (setReleaseTime e timeInSeconds)

/-- The integer nearest to `y`; of two integers equally near, the even one. -/
def roundHalfEven (y : ℚ) : Int :=
  if y - ⌊y⌋ < 1 / 2 then ⌊y⌋
  else if 1 / 2 < y - ⌊y⌋ then ⌊y⌋ + 1
  else if ⌊y⌋ % 2 = 0 then ⌊y⌋
  else ⌊y⌋ + 1

/-- The power of two `2^k` for an integer `k`. -/
def twoPow (k : Int) : ℚ := if 0 ≤ k then 2 ^ k.toNat else 1 / 2 ^ (-k).toNat

/-- The exponent `k` with `2^k ≤ a < 2^(k+1)` for a positive `a`, searched from `k` in at
most `fuel` steps. -/
def binade : Nat → ℚ → Int → Int
  | 0, _, k => k
  | fuel + 1, a, k =>
    if twoPow (k + 1) ≤ a then binade fuel a (k + 1)
    else if a < twoPow k then binade fuel a (k - 1)
    else k

/-- The `float` nearest to `x` (IEEE 754 binary32, rounding to nearest, ties to even): a
multiple of `2^(k - 23)` when `2^k ≤ |x| < 2^(k+1)`, and of `2^-149` below `2^-126`.
Magnitudes from `2^128` on, which round to infinity, are outside the model. -/
def roundFloat (x : ℚ) : ℚ :=
  let k := max (binade 300 (if x < 0 then -x else x) 0) (-126)
  (roundHalfEven (x / twoPow (k - 23)) : ℚ) * twoPow (k - 23)

/-- `ADSREnvelope::secondsToExpRate` in `float` arithmetic: the constant, the product and
the quotient are rounded to `float`. -/
def secondsToExpRateFloat (sampleRate timeInSeconds : ℚ) : ℚ :=
  if timeInSeconds ≤ 0 then 1
  else roundFloat (1 / roundFloat (sampleRate * max (roundFloat (25 / 1000)) timeInSeconds))

/-- One pass through the body of the loop of `case State::Release` in `float` arithmetic:
`releaseSample` with the result of every operation rounded to `float`; `pow` is the power
function on `float` values. -/
def releaseSampleFloat (pow : ℚ → ℚ → ℚ) (e : ADSREnvelope) : ADSREnvelope :=
  let c := clamp (roundFloat (e.releaseCount - e.releaseRate)) 0 1
  { e with
    releaseCount := c
    currentValue :=
      if e.releaseShape ≤ 0 then
        roundFloat (e.releaseValue * pow c (roundFloat (roundFloat (-e.releaseShape * 1) + 1)))
      else
        roundFloat (e.releaseValue
          * pow c (roundFloat (1 / roundFloat (roundFloat (e.releaseShape * 1) + 1)))) }

/-- The loop of `case State::Release` in `float` arithmetic; the operations are not
logged. -/
def releaseLoopFloat (pow : ℚ → ℚ → ℚ) (cfg : Config) : ADSREnvelope → Nat → Chunk
  | e, 0 => ⟨e, [], []⟩
  | e, k + 1 =>
    if cfg.egReleaseThreshold < e.currentValue then
      let e1 := releaseSampleFloat pow e
      Chunk.push e1.currentValue [] (releaseLoopFloat pow cfg e1 k)
    else ⟨e, [], []⟩

/-- The body of `case State::Release` in `float` arithmetic. -/
def releaseCaseFloat (pow : ℚ → ℚ → ℚ) (cfg : Config) (e : ADSREnvelope) (size : Nat) :
    Chunk :=
  let c := releaseLoopFloat pow cfg e size
  let e1 := c.env
  if e1.currentValue ≤ cfg.egReleaseThreshold then
    { env := { e1 with
        currentState := State.Fadeout
        transitionDelta :=
          roundFloat (-(max cfg.egReleaseThreshold e1.currentValue)
            / roundFloat (e1.sampleRate * cfg.egTransitionTime)) }
      out := c.out
      ops := c.ops }
  else c

/-- A description with a release of 1000 seconds and everything else as in
`instantDesc`. -/
def longReleaseDesc : EGValues := { instantDesc with release := 1000 }

/-- An envelope reset with `longReleaseDesc` at 48 kHz, with the release rate as `float`
arithmetic gives it; the other members are 0 or 1, or are not read below. -/
def longReleaseEnvelope : ADSREnvelope :=
  { reset sampleConfig (ADSREnvelope.init sampleConfig) longReleaseDesc false 0 48000 with
    releaseRate := secondsToExpRateFloat 48000 1000 }

/-- The envelope `longReleaseEnvelope` after one rendered sample (the value 1) and
`startRelease`, at the release check of the next pass: the release has fired. -/
def heldEnvelope : Option ADSREnvelope :=
  (getBlock powNat sampleConfig longReleaseEnvelope [0]).map
    (fun c => (releaseCheck (startRelease c.env 0) 1).1)


/-! ## The VST controller (`vst/SfizzVstController.cpp`): the oversampling parameter -/

namespace SfizzVstControllerNoUi

/-- The loop `for (int32 f = factor; f > 1; f /= 2) ++log2Factor` of
`getParamValueByString`, with a bound on the number of passes: `none` when the bound is
reached while `f > 1` still holds. The quotient `f / 2` is taken of an `f` above 1, where
rounding toward zero and rounding down agree. -/
def halvingLoop : Nat → Int → Int → Option Int
  | 0, f, log2Factor => if 1 < f then none else some log2Factor
  | fuel + 1, f, log2Factor =>
    if 1 < f then halvingLoop fuel (f / 2) (log2Factor + 1) else some log2Factor

/-- The factor that `getParamValueByString` works with: `scanned` is what
`Steinberg::String::scanInt32` read from the string, `none` when it read nothing; a string
that does not parse and a factor below 1 count as 1. -/
def scannedFactor (scanned : Option Int) : Int :=
  match scanned with
  | none => 1
  | some factor => if factor < 1 then 1 else factor

/-- The local `log2Factor` of `getParamValueByString` in the case `kPidOversampling`, with
`fuel` passes allowed to the loop. -/
def log2Factor (fuel : Nat) (scanned : Option Int) : Option Int :=
  halvingLoop fuel (scannedFactor scanned) 0

/-- The case `kPidOversampling` of `getParamValueByString`: the normalised value;
`normalize` is `kParamOversamplingRange.normalize`, declared outside the sources. An
`int32` has 31 value bits, so 31 passes are allowed to the loop. -/
def getParamValueByString (normalize : Int → ℚ) (scanned : Option Int) : Option ℚ :=
  (log2Factor 31 scanned).map normalize

/-- The factor that `getParamStringByValue` prints for `factorLog2`, `1 << factorLog2`. -/
def printedFactor (factorLog2 : Nat) : Int := ((1 <<< factorLog2 : Nat) : Int)

end SfizzVstControllerNoUi

/-! ## Theorems -/

theorem frame_refl (e : ADSREnvelope) : Frame e e := by
  constructor <;> rfl

theorem frame_trans {a b c : ADSREnvelope} (h : Frame a b) (h' : Frame b c) : Frame a c := by
  constructor
  · exact h'.sampleRate.trans h.sampleRate
  · exact h'.currentState.trans h.currentState
  · exact h'.attackStep.trans h.attackStep
  · exact h'.decayRate.trans h.decayRate
  · exact h'.releaseRate.trans h.releaseRate
  · exact h'.start.trans h.start
  · exact h'.sustain.trans h.sustain
  · exact h'.sustainThreshold.trans h.sustainThreshold
  · exact h'.releaseDelay.trans h.releaseDelay
  · exact h'.shouldRelease.trans h.shouldRelease
  · exact h'.freeRunning.trans h.freeRunning
  · exact h'.releaseValue.trans h.releaseValue
  · exact h'.attackShape.trans h.attackShape
  · exact h'.decayShape.trans h.decayShape
  · exact h'.releaseShape.trans h.releaseShape
  · exact h'.transitionDelta.trans h.transitionDelta

theorem static_refl (e : ADSREnvelope) : Static e e := by
  constructor <;> rfl

theorem static_trans {a b c : ADSREnvelope} (h : Static a b) (h' : Static b c) :
    Static a c := by
  constructor
  · exact h'.sampleRate.trans h.sampleRate
  · exact h'.attackStep.trans h.attackStep
  · exact h'.decayRate.trans h.decayRate
  · exact h'.releaseRate.trans h.releaseRate
  · exact h'.start.trans h.start
  · exact h'.sustain.trans h.sustain
  · exact h'.sustainThreshold.trans h.sustainThreshold
  · exact h'.freeRunning.trans h.freeRunning
  · exact h'.releaseValue.trans h.releaseValue
  · exact h'.attackShape.trans h.attackShape
  · exact h'.decayShape.trans h.decayShape
  · exact h'.releaseShape.trans h.releaseShape

theorem Frame.toStatic {a b : ADSREnvelope} (h : Frame a b) : Static a b :=
  ⟨h.sampleRate, h.attackStep, h.decayRate, h.releaseRate, h.start, h.sustain,
    h.sustainThreshold, h.freeRunning, h.releaseValue, h.attackShape, h.decayShape,
    h.releaseShape⟩

theorem delayLoop_frame (e : ADSREnvelope) (k : Nat) : Frame e (delayLoop e k).env := by
  induction k generalizing e with
  | zero => exact frame_refl e
  | succ k ih =>
    unfold delayLoop
    split
    · exact frame_trans (by constructor <;> rfl) (ih _)
    · constructor <;> rfl

theorem attackLoop_frame (pow : ℚ → ℚ → ℚ) (e : ADSREnvelope) (k : Nat) :
    Frame e (attackLoop pow e k).env := by
  induction k generalizing e with
  | zero => exact frame_refl e
  | succ k ih =>
    unfold attackLoop
    split
    · exact frame_trans (by constructor <;> rfl) (ih _)
    · exact frame_refl e

theorem holdLoop_frame (e : ADSREnvelope) (k : Nat) : Frame e (holdLoop e k).env := by
  induction k generalizing e with
  | zero => exact frame_refl e
  | succ k ih =>
    unfold holdLoop
    split
    · exact frame_trans (by constructor <;> rfl) (ih _)
    · constructor <;> rfl

theorem decayLoop_frame (pow : ℚ → ℚ → ℚ) (e : ADSREnvelope) (k : Nat) :
    Frame e (decayLoop pow e k).env := by
  induction k generalizing e with
  | zero => exact frame_refl e
  | succ k ih =>
    unfold decayLoop
    split
    · exact frame_trans (by constructor <;> rfl) (ih _)
    · exact frame_refl e

theorem sustainLoop_frame (e : ADSREnvelope) (k : Nat) : Frame e (sustainLoop e k).env := by
  induction k generalizing e with
  | zero => exact frame_refl e
  | succ k ih =>
    unfold sustainLoop
    exact frame_trans (by constructor <;> rfl) (ih _)

theorem releaseLoop_frame (pow : ℚ → ℚ → ℚ) (cfg : Config) (e : ADSREnvelope) (k : Nat) :
    Frame e (releaseLoop pow cfg e k).env := by
  induction k generalizing e with
  | zero => exact frame_refl e
  | succ k ih =>
    unfold releaseLoop
    split
    · exact frame_trans (by constructor <;> rfl) (ih _)
    · exact frame_refl e

theorem fadeoutLoop_frame (e : ADSREnvelope) (k : Nat) : Frame e (fadeoutLoop e k).env := by
  induction k generalizing e with
  | zero => exact frame_refl e
  | succ k ih =>
    unfold fadeoutLoop
    dsimp only
    split
    · exact frame_trans (by constructor <;> rfl) (ih _)
    · constructor <;> rfl

theorem delayLoop_length (e : ADSREnvelope) (k : Nat) : (delayLoop e k).out.length ≤ k := by
  induction k generalizing e with
  | zero => simp [delayLoop]
  | succ k ih =>
    unfold delayLoop
    split
    · simpa [Chunk.push] using ih _
    · simp

theorem attackLoop_length (pow : ℚ → ℚ → ℚ) (e : ADSREnvelope) (k : Nat) :
    (attackLoop pow e k).out.length ≤ k := by
  induction k generalizing e with
  | zero => simp [attackLoop]
  | succ k ih =>
    unfold attackLoop
    split
    · simpa [Chunk.push] using ih _
    · simp

theorem holdLoop_length (e : ADSREnvelope) (k : Nat) : (holdLoop e k).out.length ≤ k := by
  induction k generalizing e with
  | zero => simp [holdLoop]
  | succ k ih =>
    unfold holdLoop
    split
    · simpa [Chunk.push] using ih _
    · simp

theorem decayLoop_length (pow : ℚ → ℚ → ℚ) (e : ADSREnvelope) (k : Nat) :
    (decayLoop pow e k).out.length ≤ k := by
  induction k generalizing e with
  | zero => simp [decayLoop]
  | succ k ih =>
    unfold decayLoop
    split
    · simpa [Chunk.push] using ih _
    · simp

theorem sustainLoop_length (e : ADSREnvelope) (k : Nat) : (sustainLoop e k).out.length = k := by
  induction k generalizing e with
  | zero => simp [sustainLoop]
  | succ k ih =>
    unfold sustainLoop
    simpa [Chunk.push] using ih _

theorem releaseLoop_length (pow : ℚ → ℚ → ℚ) (cfg : Config) (e : ADSREnvelope) (k : Nat) :
    (releaseLoop pow cfg e k).out.length ≤ k := by
  induction k generalizing e with
  | zero => simp [releaseLoop]
  | succ k ih =>
    unfold releaseLoop
    split
    · simpa [Chunk.push] using ih _
    · simp

theorem fadeoutLoop_length (e : ADSREnvelope) (k : Nat) : (fadeoutLoop e k).out.length ≤ k := by
  induction k generalizing e with
  | zero => simp [fadeoutLoop]
  | succ k ih =>
    unfold fadeoutLoop
    dsimp only
    split
    · simpa [Chunk.push] using ih _
    · simp

theorem switchCase_length (pow : ℚ → ℚ → ℚ) (cfg : Config) (e : ADSREnvelope) (size : Nat) :
    (switchCase pow cfg e size).out.length ≤ size := by
  unfold switchCase
  split
  · exact delayLoop_length e size
  · exact attackLoop_length pow e size
  · exact holdLoop_length e size
  · unfold decayCase
    dsimp only
    split
    · exact decayLoop_length pow e size
    · exact decayLoop_length pow e size
  · unfold sustainCase
    split
    · simp
    · exact le_of_eq (sustainLoop_length e size)
  · unfold releaseCase
    dsimp only
    split
    · exact releaseLoop_length pow cfg e size
    · exact releaseLoop_length pow cfg e size
  · exact fadeoutLoop_length e size
  · simp [doneCase]

theorem releaseCheck_size_le (e : ADSREnvelope) (n : Nat) : (releaseCheck e n).2 ≤ n := by
  unfold releaseCheck
  split
  · exact le_refl n
  · split
    · exact min_le_left _ _
    · exact le_refl n

theorem releaseCheck_size_pos (e : ADSREnvelope) (n : Nat) (hn : 0 < n) :
    0 < (releaseCheck e n).2 := by
  unfold releaseCheck
  split
  · exact hn
  · split
    · rename_i h
      have : 0 < e.releaseDelay.toNat := by
        have := h.2
        omega
      exact lt_min hn this
    · exact hn

theorem iteration_length (pow : ℚ → ℚ → ℚ) (cfg : Config) (e : ADSREnvelope)
    (output : List ℚ) :
    (iteration pow cfg e output).out.length + (iteration pow cfg e output).rest.length
      = output.length := by
  have h1 := switchCase_length pow cfg (releaseCheck e output.length).1
    (releaseCheck e output.length).2
  have h2 := releaseCheck_size_le e output.length
  unfold iteration
  dsimp only
  split
  · simp only [List.length_drop, List.length_replicate]
    omega
  · simp only [List.length_drop]
    omega

theorem stateRank_le (s : State) : stateRank s ≤ 7 := by
  cases s <;> simp [stateRank]

theorem rank_le (e : ADSREnvelope) : rank e ≤ 27 := by
  have := stateRank_le e.currentState
  unfold rank
  split
  · split <;> omega
  · omega

/-- The rule for the outer loop: a property of the pending span and the object that every
pass keeps, together with properties of the samples and operations of every pass, holds
when the loop ends. -/
theorem getBlockLoop_rule {pow : ℚ → ℚ → ℚ} {cfg : Config}
    (P : List ℚ → ADSREnvelope → Prop) (Q : ℚ → Prop) (R : NumOp → Prop)
    (hstep : ∀ e x xs, P (x :: xs) e →
      P (iteration pow cfg e (x :: xs)).rest (iteration pow cfg e (x :: xs)).env
      ∧ (∀ v ∈ (iteration pow cfg e (x :: xs)).out, Q v)
      ∧ (∀ o ∈ (iteration pow cfg e (x :: xs)).ops, R o)) :
    ∀ (fuel : Nat) (e : ADSREnvelope) (output : List ℚ) (c : Chunk), P output e →
      getBlockLoop pow cfg fuel e output = some c →
      P [] c.env ∧ (∀ v ∈ c.out, Q v) ∧ (∀ o ∈ c.ops, R o) := by
  intro fuel
  induction fuel with
  | zero =>
    intro e output c hP h
    cases output with
    | nil =>
      simp only [getBlockLoop, Option.some.injEq] at h
      subst h
      exact ⟨hP, by simp, by simp⟩
    | cons x xs => simp [getBlockLoop] at h
  | succ fuel ih =>
    intro e output c hP h
    cases output with
    | nil =>
      simp only [getBlockLoop, Option.some.injEq] at h
      subst h
      exact ⟨hP, by simp, by simp⟩
    | cons x xs =>
      obtain ⟨h1, h2, h3⟩ := hstep e x xs hP
      simp only [getBlockLoop] at h
      cases hr : getBlockLoop pow cfg fuel (iteration pow cfg e (x :: xs)).env
          (iteration pow cfg e (x :: xs)).rest with
      | none => simp [hr] at h
      | some d =>
        simp only [hr, Option.some.injEq] at h
        subst h
        obtain ⟨k1, k2, k3⟩ := ih _ _ d h1 hr
        refine ⟨k1, ?_, ?_⟩
        · intro v hv
          rcases List.mem_append.mp hv with hv | hv
          · exact h2 v hv
          · exact k2 v hv
        · intro o ho
          rcases List.mem_append.mp ho with ho | ho
          · exact h3 o ho
          · exact k3 o ho

/-- The outer loop ends, with every position of the span written, when every pass keeps a
property under which a pass writes a sample or lowers the rank. -/
theorem getBlockLoop_total {pow : ℚ → ℚ → ℚ} {cfg : Config} (P : List ℚ → ADSREnvelope → Prop)
    (hstep : ∀ e x xs, P (x :: xs) e →
      P (iteration pow cfg e (x :: xs)).rest (iteration pow cfg e (x :: xs)).env
      ∧ ((iteration pow cfg e (x :: xs)).out ≠ []
        ∨ rank (iteration pow cfg e (x :: xs)).env < rank e)) :
    ∀ (fuel : Nat) (e : ADSREnvelope) (output : List ℚ), P output e →
      32 * output.length + rank e < fuel →
      ∃ c, getBlockLoop pow cfg fuel e output = some c ∧ c.out.length = output.length := by
  intro fuel
  induction fuel with
  | zero => intro e output _ h; omega
  | succ fuel ih =>
    intro e output hP hf
    cases output with
    | nil => exact ⟨_, rfl, rfl⟩
    | cons x xs =>
      obtain ⟨h1, h2⟩ := hstep e x xs hP
      have hl := iteration_length pow cfg e (x :: xs)
      have hr := rank_le (iteration pow cfg e (x :: xs)).env
      have hb : 32 * (iteration pow cfg e (x :: xs)).rest.length
          + rank (iteration pow cfg e (x :: xs)).env < fuel := by
        simp only [List.length_cons] at hl hf
        rcases h2 with h2 | h2
        · have : 0 < (iteration pow cfg e (x :: xs)).out.length := List.length_pos.mpr h2
          omega
        · omega
      obtain ⟨d, hd, hlen⟩ := ih _ _ h1 hb
      refine ⟨⟨d.env, (iteration pow cfg e (x :: xs)).out ++ d.out,
        (iteration pow cfg e (x :: xs)).ops ++ d.ops⟩, ?_, ?_⟩
      · simp only [getBlockLoop, hd]
      · simp only [List.length_append, hlen]
        exact hl

/-- A larger bound on the number of passes does not change a result. -/
theorem getBlockLoop_mono {pow : ℚ → ℚ → ℚ} {cfg : Config} :
    ∀ (fuel fuel' : Nat) (e : ADSREnvelope) (output : List ℚ) (c : Chunk), fuel ≤ fuel' →
      getBlockLoop pow cfg fuel e output = some c →
      getBlockLoop pow cfg fuel' e output = some c := by
  intro fuel
  induction fuel with
  | zero =>
    intro fuel' e output c _ h
    cases output with
    | nil =>
      cases fuel' <;> simpa [getBlockLoop] using h
    | cons x xs => simp [getBlockLoop] at h
  | succ fuel ih =>
    intro fuel' e output c hle h
    cases output with
    | nil =>
      cases fuel' <;> simpa [getBlockLoop] using h
    | cons x xs =>
      obtain ⟨g, rfl⟩ : ∃ g, fuel' = g + 1 := ⟨fuel' - 1, by omega⟩
      simp only [getBlockLoop] at h ⊢
      cases hr : getBlockLoop pow cfg fuel (iteration pow cfg e (x :: xs)).env
          (iteration pow cfg e (x :: xs)).rest with
      | none => simp [hr] at h
      | some d =>
        rw [ih g _ _ d (by omega) hr]
        simpa [hr] using h

/-- The rule for a call of `getBlock`: when every pass keeps a property of the pending span
and the object, writes a sample or lowers the rank, and produces only samples and operations
of a given kind, the call returns, every position is written, and the properties hold of
the result. -/
theorem getBlock_rule {pow : ℚ → ℚ → ℚ} {cfg : Config}
    (P : List ℚ → ADSREnvelope → Prop) (Q : ℚ → Prop) (R : NumOp → Prop)
    (hstep : ∀ e x xs, P (x :: xs) e →
      P (iteration pow cfg e (x :: xs)).rest (iteration pow cfg e (x :: xs)).env
      ∧ (∀ v ∈ (iteration pow cfg e (x :: xs)).out, Q v)
      ∧ (∀ o ∈ (iteration pow cfg e (x :: xs)).ops, R o)
      ∧ ((iteration pow cfg e (x :: xs)).out ≠ []
        ∨ rank (iteration pow cfg e (x :: xs)).env < rank e))
    (e : ADSREnvelope) (output : List ℚ) (h : P output e) :
    ∃ c, getBlock pow cfg e output = some c ∧ c.out.length = output.length
      ∧ P [] c.env ∧ (∀ v ∈ c.out, Q v) ∧ (∀ o ∈ c.ops, R o) := by
  have hb : 32 * output.length + rank e < passBound output.length := by
    have := rank_le e
    unfold passBound
    omega
  obtain ⟨c, hc, hl⟩ := getBlockLoop_total P
    (fun e' x xs hP => ⟨(hstep e' x xs hP).1, (hstep e' x xs hP).2.2.2⟩)
    (passBound output.length) e output h hb
  obtain ⟨k1, k2, k3⟩ := getBlockLoop_rule P Q R
    (fun e' x xs hP => ⟨(hstep e' x xs hP).1, (hstep e' x xs hP).2.1, (hstep e' x xs hP).2.2.1⟩)
    (passBound output.length) e output c h hc
  exact ⟨c, hc, hl, k1, k2, k3⟩

theorem switchCase_static (pow : ℚ → ℚ → ℚ) (cfg : Config) (e : ADSREnvelope) (size : Nat) :
    Static e (switchCase pow cfg e size).env := by
  unfold switchCase
  split
  · have hf := (delayLoop_frame e size).toStatic
    unfold delayCase
    dsimp only
    split <;> exact static_trans hf (by constructor <;> rfl)
  · have hf := (attackLoop_frame pow e size).toStatic
    unfold attackCase
    dsimp only
    split <;> exact static_trans hf (by constructor <;> rfl)
  · have hf := (holdLoop_frame e size).toStatic
    unfold holdCase
    dsimp only
    split <;> exact static_trans hf (by constructor <;> rfl)
  · have hf := (decayLoop_frame pow e size).toStatic
    unfold decayCase
    dsimp only
    split <;> exact static_trans hf (by constructor <;> rfl)
  · unfold sustainCase
    split
    · constructor <;> rfl
    · exact (sustainLoop_frame e size).toStatic
  · have hf := (releaseLoop_frame pow cfg e size).toStatic
    unfold releaseCase
    dsimp only
    split <;> exact static_trans hf (by constructor <;> rfl)
  · have hf := (fadeoutLoop_frame e size).toStatic
    unfold fadeoutCase
    dsimp only
    split <;> exact static_trans hf (by constructor <;> rfl)
  · constructor <;> rfl

theorem releaseCheck_static (e : ADSREnvelope) (n : Nat) : Static e (releaseCheck e n).1 := by
  unfold releaseCheck
  split
  · constructor <;> rfl
  · split <;> exact static_refl e

theorem countDown_static (e : ADSREnvelope) (n : Nat) : Static e (countDown e n) := by
  unfold countDown
  split
  · constructor <;> rfl
  · exact static_refl e

theorem iteration_static (pow : ℚ → ℚ → ℚ) (cfg : Config) (e : ADSREnvelope)
    (output : List ℚ) : Static e (iteration pow cfg e output).env := by
  unfold iteration
  exact static_trans (releaseCheck_static e _)
    (static_trans (switchCase_static pow cfg _ _) (countDown_static _ _))

/-- A pass of the `switch` with `size ≥ 1` writes a sample, or moves the state forward and
leaves the release flags alone, or arms the free-running release. -/
theorem switchCase_progress (pow : ℚ → ℚ → ℚ) (cfg : Config) (e : ADSREnvelope) (k : Nat)
    (h : e.currentState = State.Decay → e.sustain ≤ e.sustainThreshold) :
    (switchCase pow cfg e (k + 1)).out ≠ []
    ∨ ((switchCase pow cfg e (k + 1)).env.releaseDelay = e.releaseDelay
      ∧ ((stateRank (switchCase pow cfg e (k + 1)).env.currentState < stateRank e.currentState
          ∧ (switchCase pow cfg e (k + 1)).env.shouldRelease = e.shouldRelease)
        ∨ ((switchCase pow cfg e (k + 1)).env.currentState = e.currentState
          ∧ e.shouldRelease = false
          ∧ (switchCase pow cfg e (k + 1)).env.shouldRelease = true))) := by
  unfold switchCase
  split
  · rename_i hs
    have hf := delayLoop_frame e (k + 1)
    right
    unfold delayCase
    dsimp only
    refine ⟨?_, Or.inl ⟨?_, ?_⟩⟩
    · split <;> exact hf.releaseDelay
    · simp [hs, stateRank]
    · split <;> exact hf.shouldRelease
  · rename_i hs
    unfold attackCase attackLoop
    dsimp only
    by_cases hv : e.currentValue < 1
    · left
      simp [hv, Chunk.push]
    · right
      have hv' : 1 ≤ e.currentValue := not_lt.mp hv
      simp [hv, hv', hs, stateRank]
  · rename_i hs
    have hf := holdLoop_frame e (k + 1)
    right
    unfold holdCase
    dsimp only
    refine ⟨?_, Or.inl ⟨?_, ?_⟩⟩
    · split <;> exact hf.releaseDelay
    · simp [hs, stateRank]
    · split <;> exact hf.shouldRelease
  · rename_i hs
    unfold decayCase decayLoop
    dsimp only
    by_cases hv : e.sustain < e.currentValue
    · left
      simp only [hv, if_true]
      split <;> simp [Chunk.push]
    · right
      have hv' : e.currentValue ≤ e.sustainThreshold := le_trans (not_lt.mp hv) (h hs)
      simp [hv, hv', hs, stateRank]
  · rename_i hs
    unfold sustainCase
    split
    · rename_i hc
      right
      exact ⟨rfl, Or.inr ⟨rfl, hc.1, rfl⟩⟩
    · left
      intro h0
      have := sustainLoop_length e (k + 1)
      rw [h0] at this
      simp at this
  · rename_i hs
    unfold releaseCase releaseLoop
    dsimp only
    by_cases hv : cfg.egReleaseThreshold < e.currentValue
    · left
      simp only [hv, if_true]
      split <;> simp [Chunk.push]
    · right
      have hv' : e.currentValue ≤ cfg.egReleaseThreshold := not_lt.mp hv
      simp [hv, hv', hs, stateRank]
  · rename_i hs
    unfold fadeoutCase fadeoutLoop
    dsimp only
    by_cases hv : 0 < e.currentValue + e.transitionDelta
    · left
      simp [hv, Chunk.push]
    · right
      have hv' : e.currentValue + e.transitionDelta ≤ 0 := not_lt.mp hv
      simp [hv, hv', hs, stateRank]
  · left
    simp [doneCase]

theorem releaseCheck_cases (e : ADSREnvelope) (n : Nat) :
    ((releaseCheck e n).1 = { e with currentState := State.Release, releaseDelay := -1 }
      ∧ e.shouldRelease = true ∧ e.releaseDelay = 0)
    ∨ ((releaseCheck e n).1 = e ∧ ¬ (e.shouldRelease = true ∧ e.releaseDelay = 0)) := by
  unfold releaseCheck
  split
  · rename_i h
    exact Or.inl ⟨rfl, h.1, h.2⟩
  · rename_i h
    right
    refine ⟨?_, h⟩
    split <;> rfl

theorem rank_countDown_zero (e : ADSREnvelope) : rank (countDown e 0) = rank e := by
  unfold countDown rank
  split
  · rename_i h
    simp only [h, if_true, Nat.cast_zero, sub_zero]
    by_cases h0 : 0 ≤ e.releaseDelay
    · have : (0 : Int) ≤ max (-1) e.releaseDelay := le_max_of_le_right h0
      simp [h0, this]
    · have : ¬ (0 : Int) ≤ max (-1) e.releaseDelay := by
        intro hc
        rcases le_max_iff.mp hc with hc | hc
        · omega
        · exact h0 hc
      simp [h0, this]
  · rfl

/-- Every pass of the outer loop writes a sample or lowers the rank, provided the sustain
threshold is not below the sustain level when the pass runs the `Decay` case. -/
theorem iteration_progress (pow : ℚ → ℚ → ℚ) (cfg : Config) (e : ADSREnvelope) (x : ℚ)
    (xs : List ℚ)
    (h : ¬ (e.shouldRelease = true ∧ e.releaseDelay = 0) → e.currentState = State.Decay →
      e.sustain ≤ e.sustainThreshold) :
    (iteration pow cfg e (x :: xs)).out ≠ []
    ∨ rank (iteration pow cfg e (x :: xs)).env < rank e := by
  obtain ⟨k, hk⟩ : ∃ k, (releaseCheck e (x :: xs).length).2 = k + 1 := by
    have := releaseCheck_size_pos e (x :: xs).length (by simp)
    exact ⟨(releaseCheck e (x :: xs).length).2 - 1, by omega⟩
  have hst := releaseCheck_static e (x :: xs).length
  have h1 : (releaseCheck e (x :: xs).length).1.currentState = State.Decay →
      (releaseCheck e (x :: xs).length).1.sustain
      ≤ (releaseCheck e (x :: xs).length).1.sustainThreshold := by
    intro hd
    rw [hst.sustain, hst.sustainThreshold]
    rcases releaseCheck_cases e (x :: xs).length with ⟨he, _, _⟩ | ⟨he, hn⟩
    · rw [he] at hd
      exact absurd hd (by simp)
    · rw [he] at hd
      exact h hn hd
  have hp := switchCase_progress pow cfg (releaseCheck e (x :: xs).length).1 k h1
  rw [← hk] at hp
  have hout : (iteration pow cfg e (x :: xs)).out
      = (switchCase pow cfg (releaseCheck e (x :: xs).length).1
          (releaseCheck e (x :: xs).length).2).out := rfl
  have henv : (iteration pow cfg e (x :: xs)).env
      = countDown (switchCase pow cfg (releaseCheck e (x :: xs).length).1
          (releaseCheck e (x :: xs).length).2).env
        (switchCase pow cfg (releaseCheck e (x :: xs).length).1
          (releaseCheck e (x :: xs).length).2).out.length := rfl
  rw [hout, henv]
  generalize switchCase pow cfg (releaseCheck e (x :: xs).length).1
    (releaseCheck e (x :: xs).length).2 = c at hp ⊢
  by_cases hc : c.out = []
  · right
    rw [hc, List.length_nil, rank_countDown_zero]
    rcases hp with hp | ⟨hrd, hp⟩
    · exact absurd hc hp
    · rcases releaseCheck_cases e (x :: xs).length with ⟨he, hs, hd⟩ | ⟨he, _⟩
      · rw [he] at hrd hp
        simp only at hrd hp
        rcases hp with ⟨hr, hsr⟩ | ⟨_, hf, _⟩
        · unfold rank
          simp only [hrd, hsr, hs, hd, stateRank] at hr ⊢
          simp
          omega
        · rw [hs] at hf
          exact absurd hf (by simp)
      · rw [he] at hrd hp
        rcases hp with ⟨hr, hsr⟩ | ⟨hcs, hf, ht⟩
        · unfold rank
          rw [hrd, hsr]
          omega
        · unfold rank
          rw [hrd, hcs, hf, ht]
          simp only [if_true]
          split <;> simp
  · exact Or.inl hc

theorem getBlockLoop_static {pow : ℚ → ℚ → ℚ} {cfg : Config} {fuel : Nat} {e : ADSREnvelope}
    {output : List ℚ} {c : Chunk} (h : getBlockLoop pow cfg fuel e output = some c) :
    Static e c.env :=
  (getBlockLoop_rule (fun _ e' => Static e e') (fun _ => True) (fun _ => True)
    (fun e' x xs hP =>
      ⟨static_trans hP (iteration_static pow cfg e' (x :: xs)), fun _ _ => trivial,
        fun _ _ => trivial⟩)
    fuel e output c (static_refl e) h).1

theorem reachable_threshold {pow : ℚ → ℚ → ℚ} {cfg : Config} {e : ADSREnvelope}
    (hr : Reachable pow cfg e) : e.sustainThreshold = e.sustain + cfg.virtuallyZero := by
  induction hr with
  | reset e desc o d sr => rfl
  | getBlock output _ h ih =>
    have hs := getBlockLoop_static h
    rw [hs.sustainThreshold, hs.sustain]
    exact ih
  | startRelease d _ ih => exact ih
  | setReleaseTime t _ ih => exact ih

/-- The outer loop ends from every object whose sustain threshold is not below its sustain
level, for every bound from `passBound` on, with one and the same result. -/
theorem getBlock_total_of_threshold (pow : ℚ → ℚ → ℚ) (cfg : Config) (e : ADSREnvelope)
    (h : e.sustain ≤ e.sustainThreshold) (output : List ℚ) :
    ∃ c, getBlock pow cfg e output = some c ∧ c.out.length = output.length
      ∧ ∀ fuel, passBound output.length ≤ fuel →
          getBlockLoop pow cfg fuel e output = some c := by
  have hb : 32 * output.length + rank e < passBound output.length := by
    have := rank_le e
    unfold passBound
    omega
  obtain ⟨c, hc, hl⟩ := getBlockLoop_total (fun _ e' => e'.sustain ≤ e'.sustainThreshold)
    (fun e' x xs hP => by
      have hs := iteration_static pow cfg e' (x :: xs)
      refine ⟨?_, iteration_progress pow cfg e' x xs (fun _ _ => hP)⟩
      show (iteration pow cfg e' (x :: xs)).env.sustain
        ≤ (iteration pow cfg e' (x :: xs)).env.sustainThreshold
      rw [hs.sustain, hs.sustainThreshold]
      exact hP)
    (passBound output.length) e output h hb
  exact ⟨c, hc, hl, fun fuel hf => getBlockLoop_mono _ _ _ _ _ hf hc⟩

/-- C1. `getBlock` is total on every envelope reachable from a `reset`, when
`config::virtuallyZero` is not negative: the outer loop ends within `passBound n` passes
with exactly `n` samples written for a span of `n` positions, no larger bound changes the
result, and every pass of the loop over a non-empty span writes a sample or lowers the
rank of the object (the state moves forward, or a release is armed or fires). -/
theorem getBlock_total (pow : ℚ → ℚ → ℚ) (cfg : Config) (hz : 0 ≤ cfg.virtuallyZero)
    (e : ADSREnvelope) (hr : Reachable pow cfg e) (output : List ℚ) :
    (∃ c, getBlock pow cfg e output = some c ∧ c.out.length = output.length
      ∧ ∀ fuel, passBound output.length ≤ fuel →
          getBlockLoop pow cfg fuel e output = some c)
    ∧ ∀ e' x xs, e'.sustain ≤ e'.sustainThreshold →
        (iteration pow cfg e' (x :: xs)).env.sustain
          ≤ (iteration pow cfg e' (x :: xs)).env.sustainThreshold
        ∧ ((iteration pow cfg e' (x :: xs)).out ≠ []
          ∨ rank (iteration pow cfg e' (x :: xs)).env < rank e') := by
  have h : e.sustain ≤ e.sustainThreshold := by
    rw [reachable_threshold hr]
    linarith
  refine ⟨getBlock_total_of_threshold pow cfg e h output, ?_⟩
  intro e' x xs hP
  have hs := iteration_static pow cfg e' (x :: xs)
  refine ⟨?_, iteration_progress pow cfg e' x xs (fun _ _ => hP)⟩
  rw [hs.sustain, hs.sustainThreshold]
  exact hP

/-- An instance of `getBlock_total`: a span of three samples after a `reset`. -/
theorem getBlock_total_witness :
    0 ≤ sampleConfig.virtuallyZero
    ∧ ∃ c, getBlock powNat sampleConfig
        (reset sampleConfig (ADSREnvelope.init sampleConfig) instantDesc false 0 48000)
        [0, 0, 0] = some c ∧ c.out.length = 3 :=
  ⟨by decide!,
    (getBlock_total powNat sampleConfig (by decide!) _
      (Reachable.reset (ADSREnvelope.init sampleConfig) instantDesc false 0 48000)
      [0, 0, 0]).1.imp (fun _ h => ⟨h.1, h.2.1⟩)⟩

/-- C8. `isReleased()` is true right after `startRelease(d)`, for every object and every
argument `d`. -/
theorem isReleased_startRelease (e : ADSREnvelope) (d : Int) :
    isReleased (startRelease e d) = true := by
  simp [isReleased, startRelease]

/-- C2. One call for three samples and a call for one sample followed by a call for two
write different samples: with a delay of 2 samples and an attack step of 1/2 the single
call writes `0, 0, 1/2`, the two calls write `0, 1/2, 1` (the first call leaves the state
`Delay` after one sample, with one sample of delay left). -/
theorem getBlock_split_differs :
    Option.map Chunk.out (getBlock powNat sampleConfig delayedEnvelope [0, 0, 0])
      = some [0, 0, 1 / 2]
    ∧ Option.map Chunk.out (getBlocks powNat sampleConfig delayedEnvelope [[0], [0, 0]])
      = some [0, 1 / 2, 1]
    ∧ Option.map (fun c => (c.env.currentState, c.env.delay))
        (getBlock powNat sampleConfig delayedEnvelope [0]) = some (State.Attack, 1) := by
  decide!

/-- C3. `startRelease(2)` releases at once: after one rendered sample the envelope would go
on with `1, 1, 1`, and after `startRelease(2)` the next three samples are `1/2, 0, 0`, the
first of them a `Release` sample; the pending delay recorded is 0. -/
theorem startRelease_ignores_delay :
    Option.map Chunk.out
        ((getBlock powNat sampleConfig releasingEnvelope [0]).bind
          (fun c => getBlock powNat sampleConfig c.env [0, 0, 0]))
      = some [1, 1, 1]
    ∧ Option.map Chunk.out
        ((getBlock powNat sampleConfig releasingEnvelope [0]).bind
          (fun c => getBlock powNat sampleConfig (startRelease c.env 2) [0, 0, 0]))
      = some [1 / 2, 0, 0]
    ∧ Option.map (fun c => (startRelease c.env 2).releaseDelay)
        (getBlock powNat sampleConfig releasingEnvelope [0]) = some 0 := by
  decide!

/-- C10. `getRemainingDelay()` does not count down to 0: with a delay of 3 samples it is 2
after one rendered sample and still 2 after two and after three (the state has left
`Delay` after the first call), and with a delay of 0 it is -1 after one sample. -/
theorem getRemainingDelay_stuck :
    getRemainingDelay (instantEnvelope 3) = 3
    ∧ Option.map (fun c => getRemainingDelay c.env)
        (getBlocks powNat sampleConfig (instantEnvelope 3) [[0]]) = some 2
    ∧ Option.map (fun c => getRemainingDelay c.env)
        (getBlocks powNat sampleConfig (instantEnvelope 3) [[0], [0]]) = some 2
    ∧ Option.map (fun c => getRemainingDelay c.env)
        (getBlocks powNat sampleConfig (instantEnvelope 3) [[0], [0], [0]]) = some 2
    ∧ Option.map (fun c => getRemainingDelay c.env)
        (getBlock powNat sampleConfig (instantEnvelope 0) [0]) = some (-1) := by
  decide!

theorem releaseCheck_idle (e : ADSREnvelope) (n : Nat) (h : e.shouldRelease = false) :
    releaseCheck e n = (e, n) := by
  simp [releaseCheck, h]

/-- A pass in state `Delay` with no delay left and no release armed writes nothing and
enters `Attack` with the counter at 0. -/
theorem iteration_delay_elapsed (pow : ℚ → ℚ → ℚ) (cfg : Config) (e : ADSREnvelope) (x : ℚ)
    (xs : List ℚ) (hs : e.currentState = State.Delay) (hr : e.shouldRelease = false)
    (hd : e.delay ≤ 0) :
    iteration pow cfg e (x :: xs)
      = { env := { e with delay := e.delay - 1, attackCount := 0,
                          currentState := State.Attack }
          out := []
          ops := []
          rest := x :: xs } := by
  have hd' : ¬ 0 < e.delay := not_lt.mpr hd
  have hd'' : e.delay - 1 ≤ 0 := by omega
  unfold iteration
  rw [releaseCheck_idle e _ hr]
  simp [switchCase, hs, delayCase, delayLoop, hd', hd'', countDown, hr]

/-- A pass in state `Attack` below 1 with no release armed writes the next attack sample
first. -/
theorem iteration_attack_head (pow : ℚ → ℚ → ℚ) (cfg : Config) (e : ADSREnvelope) (x : ℚ)
    (xs : List ℚ) (hs : e.currentState = State.Attack) (hr : e.shouldRelease = false)
    (hv : e.currentValue < 1) :
    (iteration pow cfg e (x :: xs)).out.head? = some (attackSample pow e).currentValue := by
  unfold iteration
  rw [releaseCheck_idle e _ hr]
  simp [switchCase, hs, attackCase, attackLoop, hv, Chunk.push]

theorem getBlockLoop_unroll {pow : ℚ → ℚ → ℚ} {cfg : Config} {fuel : Nat} {e : ADSREnvelope}
    {x : ℚ} {xs : List ℚ} {c : Chunk} (h : getBlockLoop pow cfg fuel e (x :: xs) = some c) :
    ∃ d fuel', getBlockLoop pow cfg fuel' (iteration pow cfg e (x :: xs)).env
        (iteration pow cfg e (x :: xs)).rest = some d
      ∧ c.env = d.env
      ∧ c.out = (iteration pow cfg e (x :: xs)).out ++ d.out
      ∧ c.ops = (iteration pow cfg e (x :: xs)).ops ++ d.ops := by
  cases fuel with
  | zero => simp [getBlockLoop] at h
  | succ fuel =>
    simp only [getBlockLoop] at h
    cases hr : getBlockLoop pow cfg fuel (iteration pow cfg e (x :: xs)).env
        (iteration pow cfg e (x :: xs)).rest with
    | none => simp [hr] at h
    | some d =>
      simp only [hr, Option.some.injEq] at h
      subst h
      exact ⟨d, fuel, hr, rfl, rfl, rfl⟩

theorem clamp_zero_unit : clamp 0 0 1 = 0 := by
  simp [clamp]

/-- C7. After a `reset` with no trigger delay and delay time, attack time and start level
all 0 (whatever the other times, the sustain level, the shapes and the sample rate),
`getRemainingDelay()` is 0 and the first sample of the first `getBlock` call is exactly 1. -/
theorem first_sample_is_one (pow : ℚ → ℚ → ℚ) (hp : PowLaws pow) (cfg : Config)
    (hz : 0 ≤ cfg.virtuallyZero) (e0 : ADSREnvelope) (desc : EGValues)
    (hdelay : desc.delay = 0) (hattack : desc.attack = 0) (hstart : desc.start = 0)
    (oneShotOscillator : Bool) (sampleRate : ℚ) (x : ℚ) (xs : List ℚ) :
    getRemainingDelay (reset cfg e0 desc oneShotOscillator 0 sampleRate) = 0
    ∧ ∃ c, getBlock pow cfg (reset cfg e0 desc oneShotOscillator 0 sampleRate) (x :: xs)
        = some c ∧ c.out.head? = some 1 := by
  have hdel : (reset cfg e0 desc oneShotOscillator 0 sampleRate).delay = 0 := by
    simp [reset, secondsToSamples, hdelay]
  refine ⟨hdel, ?_⟩
  have hth : (reset cfg e0 desc oneShotOscillator 0 sampleRate).sustain
      ≤ (reset cfg e0 desc oneShotOscillator 0 sampleRate).sustainThreshold := by
    simp only [reset]
    linarith
  obtain ⟨c, hc, -, -⟩ := getBlock_total_of_threshold pow cfg _ hth (x :: xs)
  refine ⟨c, hc, ?_⟩
  obtain ⟨d, f1, hd, -, hout, -⟩ := getBlockLoop_unroll hc
  rw [iteration_delay_elapsed pow cfg _ x xs rfl rfl (le_of_eq hdel)] at hd hout
  obtain ⟨d', f2, -, -, hout', -⟩ := getBlockLoop_unroll hd
  have hhead := iteration_attack_head pow cfg
    { reset cfg e0 desc oneShotOscillator 0 sampleRate with
      delay := (reset cfg e0 desc oneShotOscillator 0 sampleRate).delay - 1
      attackCount := 0
      currentState := State.Attack } x xs rfl rfl
    (by simp [reset, hstart, clamp_zero_unit])
  have hval : (attackSample pow
      { reset cfg e0 desc oneShotOscillator 0 sampleRate with
        delay := (reset cfg e0 desc oneShotOscillator 0 sampleRate).delay - 1
        attackCount := 0
        currentState := State.Attack }).currentValue = 1 := by
    simp [attackSample, reset, hstart, hattack, clamp_zero_unit, secondsToLinRate, hp.one_base]
  rw [hval] at hhead
  rw [hout, hout', List.nil_append]
  cases hi : (iteration pow cfg
      { reset cfg e0 desc oneShotOscillator 0 sampleRate with
        delay := (reset cfg e0 desc oneShotOscillator 0 sampleRate).delay - 1
        attackCount := 0
        currentState := State.Attack } (x :: xs)).out with
  | nil => simp [hi] at hhead
  | cons v vs =>
    rw [hi] at hhead
    simpa using hhead

theorem powNat_laws : PowLaws powNat := by
  constructor
  · intro x
    simp [powNat]
  · intro x hx
    have h1 : 0 < ⌈x⌉ := Int.ceil_pos.mpr hx
    have h2 : (⌈x⌉).toNat ≠ 0 := by omega
    simp [powNat, h2]

/-- An instance of `first_sample_is_one`: the description with all times 0, sustain 1 and
start 0, at 48 kHz. -/
theorem first_sample_is_one_witness :
    PowLaws powNat ∧ 0 ≤ sampleConfig.virtuallyZero
    ∧ instantDesc.delay = 0 ∧ instantDesc.attack = 0 ∧ instantDesc.start = 0
    ∧ getRemainingDelay (instantEnvelope 0) = 0
    ∧ ∃ c, getBlock powNat sampleConfig (instantEnvelope 0) [0, 0] = some c
        ∧ c.out.head? = some 1 :=
  ⟨powNat_laws, by decide!, rfl, rfl, rfl,
    first_sample_is_one powNat powNat_laws sampleConfig (by decide!)
      (ADSREnvelope.init sampleConfig) instantDesc rfl rfl rfl false 48000 0 [0]⟩

theorem switchCase_state (pow : ℚ → ℚ → ℚ) (cfg : Config) (e : ADSREnvelope) (size : Nat) :
    (switchCase pow cfg e size).env.currentState ∈ nextStates e.currentState := by
  unfold switchCase
  split
  · rename_i hs
    unfold delayCase
    simp [hs, nextStates]
  · rename_i hs
    have hf := attackLoop_frame pow e size
    unfold attackCase
    dsimp only
    split
    · simp [hs, nextStates]
    · simp [hs, nextStates, hf.currentState]
  · rename_i hs
    unfold holdCase
    simp [hs, nextStates]
  · rename_i hs
    have hf := decayLoop_frame pow e size
    unfold decayCase
    dsimp only
    split
    · simp [hs, nextStates]
    · simp [hs, nextStates, hf.currentState]
  · rename_i hs
    have hf := sustainLoop_frame e size
    unfold sustainCase
    split
    · simp [hs, nextStates]
    · simp [hs, nextStates, hf.currentState]
  · rename_i hs
    have hf := releaseLoop_frame pow cfg e size
    unfold releaseCase
    dsimp only
    split
    · simp [hs, nextStates]
    · simp [hs, nextStates, hf.currentState]
  · rename_i hs
    have hf := fadeoutLoop_frame e size
    unfold fadeoutCase
    dsimp only
    split
    · simp [hs, nextStates]
    · simp [hs, nextStates, hf.currentState]
  · rename_i hs
    simp [hs, nextStates, doneCase]

theorem switchCase_shouldRelease (pow : ℚ → ℚ → ℚ) (cfg : Config) (e : ADSREnvelope)
    (size : Nat) :
    (switchCase pow cfg e size).env.shouldRelease = e.shouldRelease
    ∨ (e.currentState = State.Sustain
      ∧ (switchCase pow cfg e size).env.shouldRelease = true) := by
  unfold switchCase
  split
  · have hf := delayLoop_frame e size
    left
    unfold delayCase
    dsimp only
    split <;> exact hf.shouldRelease
  · have hf := attackLoop_frame pow e size
    left
    unfold attackCase
    dsimp only
    split <;> exact hf.shouldRelease
  · have hf := holdLoop_frame e size
    left
    unfold holdCase
    dsimp only
    split <;> exact hf.shouldRelease
  · have hf := decayLoop_frame pow e size
    left
    unfold decayCase
    dsimp only
    split <;> exact hf.shouldRelease
  · rename_i hs
    unfold sustainCase
    split
    · exact Or.inr ⟨hs, rfl⟩
    · exact Or.inl (sustainLoop_frame e size).shouldRelease
  · have hf := releaseLoop_frame pow cfg e size
    left
    unfold releaseCase
    dsimp only
    split <;> exact hf.shouldRelease
  · have hf := fadeoutLoop_frame e size
    left
    unfold fadeoutCase
    dsimp only
    split <;> exact hf.shouldRelease
  · left
    rfl

theorem countDown_currentState (e : ADSREnvelope) (n : Nat) :
    (countDown e n).currentState = e.currentState := by
  unfold countDown
  split <;> rfl

theorem countDown_shouldRelease (e : ADSREnvelope) (n : Nat) :
    (countDown e n).shouldRelease = e.shouldRelease := by
  unfold countDown
  split <;> rfl

theorem countDown_currentValue (e : ADSREnvelope) (n : Nat) :
    (countDown e n).currentValue = e.currentValue := by
  unfold countDown
  split <;> rfl

/-- A pass of the outer loop keeps: in `Release` and `Fadeout` a release is armed. -/
theorem iteration_released (pow : ℚ → ℚ → ℚ) (cfg : Config) (e : ADSREnvelope)
    (output : List ℚ)
    (h : e.currentState = State.Release ∨ e.currentState = State.Fadeout →
      e.shouldRelease = true) :
    (iteration pow cfg e output).env.currentState = State.Release
      ∨ (iteration pow cfg e output).env.currentState = State.Fadeout →
    (iteration pow cfg e output).env.shouldRelease = true := by
  have h1 : (releaseCheck e output.length).1.currentState = State.Release
      ∨ (releaseCheck e output.length).1.currentState = State.Fadeout →
      (releaseCheck e output.length).1.shouldRelease = true := by
    rcases releaseCheck_cases e output.length with ⟨he, hs, _⟩ | ⟨he, _⟩
    · rw [he]
      exact fun _ => hs
    · rw [he]
      exact h
  have hst := switchCase_state pow cfg (releaseCheck e output.length).1
    (releaseCheck e output.length).2
  have hsr := switchCase_shouldRelease pow cfg (releaseCheck e output.length).1
    (releaseCheck e output.length).2
  show (countDown _ _).currentState = State.Release
      ∨ (countDown _ _).currentState = State.Fadeout → (countDown _ _).shouldRelease = true
  rw [countDown_currentState, countDown_shouldRelease]
  intro hc
  rcases hsr with hsr | ⟨_, hsr⟩
  · rw [hsr]
    apply h1
    generalize (releaseCheck e output.length).1.currentState = s at hst
    generalize (switchCase pow cfg (releaseCheck e output.length).1
      (releaseCheck e output.length).2).env.currentState = s' at hst hc
    cases s <;> simp [nextStates] at hst <;> rcases hc with hc | hc <;> simp_all
  · exact hsr

/-- C9. In every envelope reachable from a `reset` by `getBlock`, `startRelease` and
`setReleaseTime` calls, `isReleased()` is true when the state is `Release` or `Fadeout`. -/
theorem isReleased_of_release_or_fadeout (pow : ℚ → ℚ → ℚ) (cfg : Config) (e : ADSREnvelope)
    (hr : Reachable pow cfg e)
    (hs : e.currentState = State.Release ∨ e.currentState = State.Fadeout) :
    isReleased e = true := by
  have inv : e.currentState = State.Release ∨ e.currentState = State.Fadeout →
      e.shouldRelease = true := by
    clear hs
    induction hr with
    | reset e desc o d sr =>
      intro h
      simp [reset] at h
    | getBlock output _ h ih =>
      exact (getBlockLoop_rule
        (fun _ e' => e'.currentState = State.Release ∨ e'.currentState = State.Fadeout →
          e'.shouldRelease = true) (fun _ => True) (fun _ => True)
        (fun e' x xs hP =>
          ⟨iteration_released pow cfg e' (x :: xs) hP, fun _ _ => trivial,
            fun _ _ => trivial⟩)
        _ _ output _ ih h).1
    | startRelease d _ _ => exact fun _ => rfl
    | setReleaseTime t _ ih => exact ih
  unfold isReleased
  rw [inv hs, Bool.or_true]

theorem releaseCheck_no_fire (e : ADSREnvelope) (n : Nat) (hn : 0 < n)
    (h : ¬ (e.shouldRelease = true ∧ e.releaseDelay = 0)) :
    ∃ k, releaseCheck e n = (e, k + 1) ∧ k + 1 ≤ n := by
  have hp := releaseCheck_size_pos e n hn
  have hl := releaseCheck_size_le e n
  rcases releaseCheck_cases e n with ⟨_, h1, h2⟩ | ⟨he, _⟩
  · exact absurd ⟨h1, h2⟩ h
  · refine ⟨(releaseCheck e n).2 - 1, ?_, by omega⟩
    have h2 : (releaseCheck e n).2 - 1 + 1 = (releaseCheck e n).2 := by omega
    rw [h2]
    exact Prod.ext he rfl

theorem releaseCheck_fire (e : ADSREnvelope) (n : Nat) (h1 : e.shouldRelease = true)
    (h2 : e.releaseDelay = 0) :
    releaseCheck e n = ({ e with currentState := State.Release, releaseDelay := -1 }, n) := by
  simp [releaseCheck, h1, h2]

/-- A pass in which a release fires on a value at or below the release threshold writes
nothing and enters `Fadeout`. -/
theorem iteration_fire_low (pow : ℚ → ℚ → ℚ) (cfg : Config) (e : ADSREnvelope) (x : ℚ)
    (xs : List ℚ) (h1 : e.shouldRelease = true) (h2 : e.releaseDelay = 0)
    (hv : e.currentValue ≤ cfg.egReleaseThreshold) :
    iteration pow cfg e (x :: xs)
      = { env := { e with
                   currentState := State.Fadeout
                   releaseDelay := -1
                   transitionDelta := -(max cfg.egReleaseThreshold e.currentValue)
                     / (e.sampleRate * cfg.egTransitionTime) }
          out := []
          ops := [NumOp.div (e.sampleRate * cfg.egTransitionTime)]
          rest := x :: xs } := by
  have hv' : ¬ cfg.egReleaseThreshold < e.currentValue := not_lt.mpr hv
  unfold iteration
  rw [releaseCheck_fire e _ h1 h2]
  simp [switchCase, releaseCase, releaseLoop, hv, hv', countDown, h1]

/-- A pass in state `Done` in which no release fires writes zeros only and stays in `Done`
with value 0. -/
theorem iteration_done (pow : ℚ → ℚ → ℚ) (cfg : Config) (e : ADSREnvelope) (x : ℚ)
    (xs : List ℚ) (hs : e.currentState = State.Done)
    (h : ¬ (e.shouldRelease = true ∧ e.releaseDelay = 0)) :
    (iteration pow cfg e (x :: xs)).env.currentState = State.Done
    ∧ (iteration pow cfg e (x :: xs)).env.currentValue = 0
    ∧ (iteration pow cfg e (x :: xs)).ops = []
    ∧ (∀ v ∈ (iteration pow cfg e (x :: xs)).out, v = 0)
    ∧ (iteration pow cfg e (x :: xs)).out ≠ [] := by
  obtain ⟨k, hk, -⟩ := releaseCheck_no_fire e (x :: xs).length (by simp) h
  unfold iteration
  rw [hk]
  simp [switchCase, hs, doneCase, countDown_currentState, countDown_currentValue]

/-- A pass in state `Fadeout` in which no release fires and the next value is not positive
writes nothing and enters `Done` with value 0. -/
theorem iteration_fadeout_end (pow : ℚ → ℚ → ℚ) (cfg : Config) (e : ADSREnvelope) (x : ℚ)
    (xs : List ℚ) (hs : e.currentState = State.Fadeout)
    (h : ¬ (e.shouldRelease = true ∧ e.releaseDelay = 0))
    (hv : e.currentValue + e.transitionDelta ≤ 0) :
    (iteration pow cfg e (x :: xs)).env.currentState = State.Done
    ∧ (iteration pow cfg e (x :: xs)).env.currentValue = 0
    ∧ (iteration pow cfg e (x :: xs)).ops = []
    ∧ (iteration pow cfg e (x :: xs)).out = [] := by
  obtain ⟨k, hk, -⟩ := releaseCheck_no_fire e (x :: xs).length (by simp) h
  have hv' : ¬ 0 < e.currentValue + e.transitionDelta := not_lt.mpr hv
  unfold iteration
  rw [hk]
  simp [switchCase, hs, fadeoutCase, fadeoutLoop, hv, hv', countDown_currentState,
    countDown_currentValue]

/-- In state `Done` the value is 0, in every envelope reachable from a `reset`. -/
theorem reachable_done_value {pow : ℚ → ℚ → ℚ} {cfg : Config} {e : ADSREnvelope}
    (hr : Reachable pow cfg e) : e.currentState = State.Done → e.currentValue = 0 := by
  induction hr with
  | reset e desc o d sr =>
    intro h
    simp [reset] at h
  | getBlock output _ h ih =>
    refine (getBlockLoop_rule
      (fun _ e' => e'.currentState = State.Done → e'.currentValue = 0)
      (fun _ => True) (fun _ => True) ?_ _ _ output _ ih h).1
    intro e' x xs hP
    refine ⟨?_, fun _ _ => trivial, fun _ _ => trivial⟩
    intro hd
    show (countDown _ _).currentValue = 0
    rw [countDown_currentValue]
    have hd' : (switchCase pow cfg (releaseCheck e' (x :: xs).length).1
        (releaseCheck e' (x :: xs).length).2).env.currentState = State.Done := by
      rw [← countDown_currentState]
      exact hd
    revert hd'
    generalize (releaseCheck e' (x :: xs).length).2 = size
    have h1 : (releaseCheck e' (x :: xs).length).1.currentState = State.Done →
        (releaseCheck e' (x :: xs).length).1.currentValue = 0 := by
      rcases releaseCheck_cases e' (x :: xs).length with ⟨he, _, _⟩ | ⟨he, _⟩
      · rw [he]
        intro hc
        simp at hc
      · rw [he]
        exact hP
    revert h1
    generalize (releaseCheck e' (x :: xs).length).1 = e1
    intro h1
    unfold switchCase
    split
    · simp [delayCase]
    · have hf := attackLoop_frame pow e1 size
      unfold attackCase
      dsimp only
      split
      · simp
      · rename_i hs _
        intro hc
        rw [hf.currentState, hs] at hc
        simp at hc
    · simp [holdCase]
    · have hf := decayLoop_frame pow e1 size
      unfold decayCase
      dsimp only
      split
      · simp
      · rename_i hs _
        intro hc
        rw [hf.currentState, hs] at hc
        simp at hc
    · rename_i hs
      have hf := sustainLoop_frame e1 size
      unfold sustainCase
      split
      · simp [hs]
      · intro hc
        rw [hf.currentState, hs] at hc
        simp at hc
    · have hf := releaseLoop_frame pow cfg e1 size
      unfold releaseCase
      dsimp only
      split
      · simp
      · rename_i hs _
        intro hc
        rw [hf.currentState, hs] at hc
        simp at hc
    · have hf := fadeoutLoop_frame e1 size
      unfold fadeoutCase
      dsimp only
      split
      · simp
      · rename_i hs _
        intro hc
        rw [hf.currentState, hs] at hc
        simp at hc
    · simp [doneCase]
  | startRelease d _ ih => exact ih
  | setReleaseTime t _ ih => exact ih

/-- C5. `Done` is terminal in every envelope reachable from a `reset` by `getBlock`,
`startRelease` and `setReleaseTime` calls (so also when one of the latter two was called
after the envelope became `Done`), for a positive sample rate and transition time and a
release threshold that is not negative: a call of `getBlock` in state `Done` returns, every
sample it writes is 0, and the state is `Done` again with value 0. -/
theorem done_is_terminal (pow : ℚ → ℚ → ℚ) (cfg : Config)
    (hthr : 0 ≤ cfg.egReleaseThreshold) (htt : 0 < cfg.egTransitionTime)
    (e : ADSREnvelope) (hr : Reachable pow cfg e) (hsr : 0 < e.sampleRate)
    (hd : e.currentState = State.Done) (output : List ℚ) :
    ∃ c, getBlock pow cfg e output = some c
      ∧ c.out = List.replicate output.length 0
      ∧ c.env.currentState = State.Done ∧ c.env.currentValue = 0 := by
  obtain ⟨c, hc, hl, hP, hQ, -⟩ := getBlock_rule
    (fun rest e' => e'.sampleRate = e.sampleRate ∧ e'.currentValue = 0
      ∧ (e'.currentState = State.Done
        ∨ (e'.currentState = State.Fadeout ∧ e'.transitionDelta ≤ 0 ∧ rest ≠ [])))
    (fun v => v = 0) (fun _ => True)
    (by
      intro e' x xs ⟨h1, h2, h3⟩
      by_cases hf : e'.shouldRelease = true ∧ e'.releaseDelay = 0
      · have hv : e'.currentValue ≤ cfg.egReleaseThreshold := by
          rw [h2]
          exact hthr
        rw [iteration_fire_low pow cfg e' x xs hf.1 hf.2 hv]
        refine ⟨⟨h1, h2, Or.inr ⟨rfl, ?_, by simp⟩⟩, by simp, fun _ _ => trivial, ?_⟩
        · have hm : 0 ≤ max cfg.egReleaseThreshold e'.currentValue :=
            le_max_of_le_left hthr
          have hp : 0 < e'.sampleRate * cfg.egTransitionTime := by
            rw [h1]
            exact mul_pos hsr htt
          show -(max cfg.egReleaseThreshold e'.currentValue)
            / (e'.sampleRate * cfg.egTransitionTime) ≤ 0
          rw [neg_div]
          exact neg_nonpos.mpr (div_nonneg hm hp.le)
        · right
          unfold rank
          have := stateRank_le e'.currentState
          simp [hf.1, hf.2, stateRank]
      · have hst := iteration_static pow cfg e' (x :: xs)
        rcases h3 with h3 | ⟨h3, h4, -⟩
        · obtain ⟨k1, k2, -, k4, k5⟩ := iteration_done pow cfg e' x xs h3 hf
          exact ⟨⟨hst.sampleRate.trans h1, k2, Or.inl k1⟩, k4, fun _ _ => trivial,
            Or.inl k5⟩
        · have hv : e'.currentValue + e'.transitionDelta ≤ 0 := by
            rw [h2, zero_add]
            exact h4
          obtain ⟨k1, k2, -, k4⟩ := iteration_fadeout_end pow cfg e' x xs h3 hf hv
          refine ⟨⟨hst.sampleRate.trans h1, k2, Or.inl k1⟩, ?_, fun _ _ => trivial, ?_⟩
          · rw [k4]
            simp
          · right
            exact (iteration_progress pow cfg e' x xs (by simp [h3])).resolve_left
              (fun hne => hne k4))
    e output ⟨rfl, reachable_done_value hr hd, Or.inl hd⟩
  refine ⟨c, hc, ?_, ?_, hP.2.1⟩
  · rw [← hl]
    exact List.eq_replicate_iff.mpr ⟨rfl, hQ⟩
  · rcases hP.2.2 with h | ⟨-, -, h⟩
    · exact h
    · exact absurd rfl h

/-- An instance of `done_is_terminal`: an envelope released right after its `reset` is
`Done` after one sample; after another `startRelease` a call for two samples writes two
zeros and leaves the state `Done`. -/
theorem done_is_terminal_witness :
    0 ≤ sampleConfig.egReleaseThreshold ∧ 0 < sampleConfig.egTransitionTime
    ∧ ∃ c, getBlock powNat sampleConfig (startRelease (instantEnvelope 0) 0) [0] = some c
      ∧ 0 < (startRelease c.env 5).sampleRate
      ∧ (startRelease c.env 5).currentState = State.Done
      ∧ ∃ d, getBlock powNat sampleConfig (startRelease c.env 5) [0, 0] = some d
        ∧ d.out = [0, 0] ∧ d.env.currentState = State.Done ∧ d.env.currentValue = 0 := by
  have h : Option.map (fun c => (c.env.currentState, decide (0 < c.env.sampleRate)))
      (getBlock powNat sampleConfig (startRelease (instantEnvelope 0) 0) [0])
      = some (State.Done, true) := by decide!
  cases hg : getBlock powNat sampleConfig (startRelease (instantEnvelope 0) 0) [0] with
  | none => simp [hg] at h
  | some c =>
    simp only [hg, Option.map_some', Option.some.injEq, Prod.mk.injEq, decide_eq_true_eq] at h
    exact ⟨by decide!, by decide!, c, rfl, h.2, h.1,
      done_is_terminal powNat sampleConfig (by decide!) (by decide!) (startRelease c.env 5)
        (Reachable.startRelease 5
          (Reachable.getBlock [0]
            (Reachable.startRelease 0
              (Reachable.reset (ADSREnvelope.init sampleConfig) instantDesc false 0 48000))
            hg))
        h.2 h.1 [0, 0]⟩

/-- An instance of `isReleased_of_release_or_fadeout`: an envelope released after its first
sample is in state `Release` after the next one. -/
theorem isReleased_of_release_or_fadeout_witness :
    ∃ c, getBlock powNat sampleConfig releasingEnvelope [0] = some c
      ∧ ∃ d, getBlock powNat sampleConfig (startRelease c.env 0) [0] = some d
        ∧ d.env.currentState = State.Release ∧ isReleased d.env = true := by
  have h : Option.map (fun d => d.env.currentState)
      ((getBlock powNat sampleConfig releasingEnvelope [0]).bind
        (fun c => getBlock powNat sampleConfig (startRelease c.env 0) [0]))
      = some State.Release := by decide!
  cases hg : getBlock powNat sampleConfig releasingEnvelope [0] with
  | none => simp [hg] at h
  | some c =>
    simp only [hg, Option.some_bind] at h
    cases hg' : getBlock powNat sampleConfig (startRelease c.env 0) [0] with
    | none => simp [hg'] at h
    | some d =>
      simp only [hg', Option.map_some', Option.some.injEq] at h
      exact ⟨c, rfl, d, hg', h,
        isReleased_of_release_or_fadeout powNat sampleConfig d.env
          (Reachable.getBlock [0]
            (Reachable.startRelease 0
              (Reachable.getBlock [0]
                (Reachable.reset (ADSREnvelope.init sampleConfig) slowReleaseDesc false 0 4)
                hg))
            hg')
          (Or.inl h)⟩

theorem clamp_unit (v : ℚ) : 0 ≤ clamp v 0 1 ∧ clamp v 0 1 ≤ 1 := by
  unfold clamp
  refine ⟨le_max_left _ _, max_le (by norm_num) (min_le_right _ _)⟩

theorem attackOps_defined (shape c : ℚ) (h0 : 0 ≤ c) (h1 : c ≤ 1) :
    ∀ o ∈ attackOps shape c, o.Defined := by
  unfold attackOps
  split
  · rename_i hs
    intro o ho
    simp only [List.mem_singleton] at ho
    subst ho
    exact ⟨h0, h1, by linarith⟩
  · rename_i hs
    have hs' : 0 < shape := not_le.mp hs
    intro o ho
    simp only [List.mem_cons, List.mem_singleton, List.not_mem_nil, or_false] at ho
    rcases ho with rfl | rfl
    · exact ne_of_gt hs'
    · have : 0 < 1 / shape := one_div_pos.mpr hs'
      exact ⟨h0, h1, by linarith⟩

theorem decayOps_defined (shape sustain c : ℚ) (hs0 : 0 ≤ sustain) (hs1 : sustain ≤ 1)
    (h0 : 0 ≤ c) (h1 : c ≤ 1) : ∀ o ∈ decayOps shape sustain c, o.Defined := by
  unfold decayOps
  split
  · simp
  · split
    · rename_i hs
      have hp : 0 < -shape + 1 := by linarith
      intro o ho
      simp only [List.mem_cons, List.mem_singleton, List.not_mem_nil, or_false] at ho
      rcases ho with rfl | rfl | rfl
      · exact ne_of_gt hp
      · exact ⟨hs0, hs1, one_div_pos.mpr hp⟩
      · exact ⟨h0, h1, hp⟩
    · rename_i hz hs
      have hp : 0 < shape + 1 := by
        have : 0 ≤ shape := not_lt.mp hs
        linarith
      intro o ho
      simp only [List.mem_cons, List.mem_singleton, List.not_mem_nil, or_false] at ho
      rcases ho with rfl | rfl | rfl
      · exact ⟨hs0, hs1, hp⟩
      · exact ne_of_gt hp
      · exact ⟨h0, h1, one_div_pos.mpr hp⟩

theorem releaseOps_defined (shape c : ℚ) (h0 : 0 ≤ c) (h1 : c ≤ 1) :
    ∀ o ∈ releaseOps shape c, o.Defined := by
  unfold releaseOps
  split
  · rename_i hs
    intro o ho
    simp only [List.mem_singleton] at ho
    subst ho
    exact ⟨h0, h1, by linarith⟩
  · rename_i hs
    have hp : 0 < shape * 1 + 1 := by
      have : 0 < shape := not_le.mp hs
      linarith
    intro o ho
    simp only [List.mem_cons, List.mem_singleton, List.not_mem_nil, or_false] at ho
    rcases ho with rfl | rfl
    · exact ne_of_gt hp
    · exact ⟨h0, h1, one_div_pos.mpr hp⟩

theorem attackLoop_defined (pow : ℚ → ℚ → ℚ) (e : ADSREnvelope) (k : Nat)
    (ha : 0 ≤ e.attackCount) (hs : 0 ≤ e.attackStep) :
    (∀ o ∈ (attackLoop pow e k).ops, o.Defined)
    ∧ 0 ≤ (attackLoop pow e k).env.attackCount := by
  induction k generalizing e with
  | zero => simp [attackLoop, ha]
  | succ k ih =>
    unfold attackLoop
    split
    · have hc0 : 0 ≤ min (e.attackCount + e.attackStep) 1 :=
        le_min (by linarith) (by norm_num)
      have hc1 : min (e.attackCount + e.attackStep) 1 ≤ 1 := min_le_right _ _
      obtain ⟨k1, k2⟩ := ih (attackSample pow e) hc0 hs
      refine ⟨?_, k2⟩
      intro o ho
      simp only [Chunk.push, List.mem_append] at ho
      rcases ho with ho | ho
      · exact attackOps_defined _ _ hc0 hc1 o ho
      · exact k1 o ho
    · simp [ha]

theorem decayLoop_defined (pow : ℚ → ℚ → ℚ) (e : ADSREnvelope) (k : Nat)
    (hs0 : 0 ≤ e.sustain) (hs1 : e.sustain ≤ 1) :
    ∀ o ∈ (decayLoop pow e k).ops, o.Defined := by
  induction k generalizing e with
  | zero => simp [decayLoop]
  | succ k ih =>
    unfold decayLoop
    split
    · intro o ho
      simp only [Chunk.push, List.mem_append] at ho
      rcases ho with ho | ho
      · exact decayOps_defined _ _ _ hs0 hs1 (clamp_unit _).1 (clamp_unit _).2 o ho
      · exact ih (decaySample pow e) hs0 hs1 o ho
    · simp

theorem releaseLoop_defined (pow : ℚ → ℚ → ℚ) (cfg : Config) (e : ADSREnvelope) (k : Nat) :
    ∀ o ∈ (releaseLoop pow cfg e k).ops, o.Defined := by
  induction k generalizing e with
  | zero => simp [releaseLoop]
  | succ k ih =>
    unfold releaseLoop
    split
    · intro o ho
      simp only [Chunk.push, List.mem_append] at ho
      rcases ho with ho | ho
      · exact releaseOps_defined _ _ (clamp_unit _).1 (clamp_unit _).2 o ho
      · exact ih (releaseSample pow e) o ho
    · simp

theorem delayLoop_ops (e : ADSREnvelope) (k : Nat) : (delayLoop e k).ops = [] := by
  induction k generalizing e with
  | zero => rfl
  | succ k ih =>
    unfold delayLoop
    split
    · simpa [Chunk.push] using ih _
    · rfl

theorem holdLoop_ops (e : ADSREnvelope) (k : Nat) : (holdLoop e k).ops = [] := by
  induction k generalizing e with
  | zero => rfl
  | succ k ih =>
    unfold holdLoop
    split
    · simpa [Chunk.push] using ih _
    · rfl

theorem sustainLoop_ops (e : ADSREnvelope) (k : Nat) : (sustainLoop e k).ops = [] := by
  induction k generalizing e with
  | zero => rfl
  | succ k ih =>
    unfold sustainLoop
    simpa [Chunk.push] using ih _

theorem fadeoutLoop_ops (e : ADSREnvelope) (k : Nat) : (fadeoutLoop e k).ops = [] := by
  induction k generalizing e with
  | zero => rfl
  | succ k ih =>
    unfold fadeoutLoop
    dsimp only
    split
    · simpa [Chunk.push] using ih _
    · rfl

/-- The operations of one pass of the `switch` are defined. -/
theorem switchCase_defined (pow : ℚ → ℚ → ℚ) (cfg : Config) (e : ADSREnvelope) (size : Nat)
    (hd : e.sampleRate * cfg.egTransitionTime ≠ 0)
    (hs0 : 0 ≤ e.sustain) (hs1 : e.sustain ≤ 1) (hstep : 0 ≤ e.attackStep)
    (ha : e.currentState = State.Attack → 0 ≤ e.attackCount) :
    ∀ o ∈ (switchCase pow cfg e size).ops, o.Defined := by
  unfold switchCase
  split
  · simp [delayCase, delayLoop_ops]
  · rename_i hs
    exact (attackLoop_defined pow e size (ha hs) hstep).1
  · simp [holdCase, holdLoop_ops]
  · have hf := decayLoop_frame pow e size
    have hl := decayLoop_defined pow e size hs0 hs1
    unfold decayCase
    dsimp only
    split
    · intro o ho
      simp only [List.mem_append, List.mem_singleton] at ho
      rcases ho with ho | rfl
      · exact hl o ho
      · show (decayLoop pow e size).env.sampleRate * cfg.egTransitionTime ≠ 0
        rw [hf.sampleRate]
        exact hd
    · exact hl
  · unfold sustainCase
    split
    · simp
    · simp [sustainLoop_ops]
  · have hf := releaseLoop_frame pow cfg e size
    have hl := releaseLoop_defined pow cfg e size
    unfold releaseCase
    dsimp only
    split
    · intro o ho
      simp only [List.mem_append, List.mem_singleton] at ho
      rcases ho with ho | rfl
      · exact hl o ho
      · show (releaseLoop pow cfg e size).env.sampleRate * cfg.egTransitionTime ≠ 0
        rw [hf.sampleRate]
        exact hd
    · exact hl
  · simp [fadeoutCase, fadeoutLoop_ops]
  · simp [doneCase]

theorem delayLoop_attackCount (e : ADSREnvelope) (k : Nat)
    (h : e.attackCount = 0 ∨ 0 < k) :
    (delayLoop e k).env.attackCount = 0 ∨ (delayLoop e k).env.delay ≤ 0 := by
  induction k generalizing e with
  | zero =>
    rcases h with h | h
    · exact Or.inl h
    · omega
  | succ k ih =>
    unfold delayLoop
    split
    · exact ih _ (Or.inl rfl)
    · rename_i hd
      right
      show e.delay - 1 ≤ 0
      omega

/-- After a pass of the `switch` with `size ≥ 1` the attack counter is not negative when
the state is `Attack`. -/
theorem switchCase_attackCount (pow : ℚ → ℚ → ℚ) (cfg : Config) (e : ADSREnvelope) (k : Nat)
    (hstep : 0 ≤ e.attackStep) (ha : e.currentState = State.Attack → 0 ≤ e.attackCount) :
    (switchCase pow cfg e (k + 1)).env.currentState = State.Attack →
      0 ≤ (switchCase pow cfg e (k + 1)).env.attackCount := by
  intro hc
  have hst := switchCase_state pow cfg e (k + 1)
  rw [hc] at hst
  cases hs : e.currentState <;> rw [hs] at hst <;> simp [nextStates] at hst
  · have hl := delayLoop_attackCount e (k + 1) (Or.inr (Nat.succ_pos k))
    simp only [switchCase, hs, delayCase]
    split
    · exact le_refl _
    · rename_i hn
      rcases hl with hl | hl
      · exact le_of_eq hl.symm
      · exact absurd hl hn
  · have hl := (attackLoop_defined pow e (k + 1) (ha hs) hstep).2
    simp only [switchCase, hs, attackCase]
    split
    · exact hl
    · exact hl

theorem countDown_attackCount (e : ADSREnvelope) (n : Nat) :
    (countDown e n).attackCount = e.attackCount := by
  unfold countDown
  split <;> rfl

/-- What a pass of the outer loop keeps and produces, as far as the defined operations are
concerned. -/
theorem iteration_defined (pow : ℚ → ℚ → ℚ) (cfg : Config) (e : ADSREnvelope) (x : ℚ)
    (xs : List ℚ) (hs0 : 0 ≤ e.sustain) (hs1 : e.sustain ≤ 1) (hstep : 0 ≤ e.attackStep)
    (ha : e.currentState = State.Attack → 0 ≤ e.attackCount) :
    ((iteration pow cfg e (x :: xs)).env.currentState = State.Attack →
      0 ≤ (iteration pow cfg e (x :: xs)).env.attackCount)
    ∧ (e.sampleRate * cfg.egTransitionTime ≠ 0 →
        ∀ o ∈ (iteration pow cfg e (x :: xs)).ops, o.Defined) := by
  obtain ⟨k, hk⟩ : ∃ k, (releaseCheck e (x :: xs).length).2 = k + 1 := by
    have := releaseCheck_size_pos e (x :: xs).length (by simp)
    exact ⟨(releaseCheck e (x :: xs).length).2 - 1, by omega⟩
  have hst := releaseCheck_static e (x :: xs).length
  have ha1 : (releaseCheck e (x :: xs).length).1.currentState = State.Attack →
      0 ≤ (releaseCheck e (x :: xs).length).1.attackCount := by
    rcases releaseCheck_cases e (x :: xs).length with ⟨he, _, _⟩ | ⟨he, _⟩
    · rw [he]
      intro hc
      simp at hc
    · rw [he]
      exact ha
  constructor
  · show (countDown _ _).currentState = State.Attack → 0 ≤ (countDown _ _).attackCount
    rw [countDown_currentState, countDown_attackCount, hk]
    exact switchCase_attackCount pow cfg _ k (by rw [hst.attackStep]; exact hstep) ha1
  · intro hd
    exact switchCase_defined pow cfg _ _ (by rw [hst.sampleRate]; exact hd)
      (by rw [hst.sustain]; exact hs0) (by rw [hst.sustain]; exact hs1)
      (by rw [hst.attackStep]; exact hstep) ha1

theorem linRateDivisor_pos (sr t : ℚ) (hsr : 0 < sr) (ht : ¬ t ≤ 0) :
    0 < linRateDivisor sr t :=
  mul_pos hsr (not_le.mp ht)

theorem expRateDivisor_pos (sr t : ℚ) (hsr : 0 < sr) : 0 < expRateDivisor sr t :=
  mul_pos hsr (lt_of_lt_of_le (by norm_num) (le_max_left _ _))

theorem secondsToLinRate_pos (sr t : ℚ) (hsr : 0 < sr) : 0 < secondsToLinRate sr t := by
  unfold secondsToLinRate
  split
  · norm_num
  · rename_i ht
    exact one_div_pos.mpr (linRateDivisor_pos sr t hsr ht)

theorem secondsToExpRate_pos (sr t : ℚ) (hsr : 0 < sr) : 0 < secondsToExpRate sr t := by
  unfold secondsToExpRate
  split
  · norm_num
  · exact one_div_pos.mpr (expRateDivisor_pos sr t hsr)

/-- Numeric facts about every envelope reachable from a `reset`: the sustain level is in
`[0, 1]`; for a positive sample rate the attack step and the release rate are positive and
the attack counter is not negative in state `Attack`. -/
theorem reachable_numeric {pow : ℚ → ℚ → ℚ} {cfg : Config} {e : ADSREnvelope}
    (hr : Reachable pow cfg e) :
    0 ≤ e.sustain ∧ e.sustain ≤ 1
    ∧ (0 < e.sampleRate → 0 < e.attackStep ∧ 0 < e.releaseRate
        ∧ (e.currentState = State.Attack → 0 ≤ e.attackCount)) := by
  induction hr with
  | reset e desc o d sr =>
    refine ⟨(clamp_unit _).1, (clamp_unit _).2, fun hsr => ⟨?_, ?_, ?_⟩⟩
    · exact secondsToLinRate_pos _ _ hsr
    · exact secondsToExpRate_pos _ _ hsr
    · intro h
      simp [reset] at h
  | @getBlock e output c _ h ih =>
    have hs := getBlockLoop_static h
    obtain ⟨i1, i2, i3⟩ := ih
    refine ⟨by rw [hs.sustain]; exact i1, by rw [hs.sustain]; exact i2, ?_⟩
    intro hsr
    rw [hs.sampleRate] at hsr
    obtain ⟨j1, j2, j3⟩ := i3 hsr
    refine ⟨by rw [hs.attackStep]; exact j1, by rw [hs.releaseRate]; exact j2, ?_⟩
    exact (getBlockLoop_rule
      (fun _ e' => Static e e'
        ∧ (e'.currentState = State.Attack → 0 ≤ e'.attackCount))
      (fun _ => True) (fun _ => True)
      (fun e' x xs hP =>
        ⟨⟨static_trans hP.1 (iteration_static pow cfg e' (x :: xs)),
          (iteration_defined pow cfg e' x xs (by rw [hP.1.sustain]; exact i1)
            (by rw [hP.1.sustain]; exact i2) (by rw [hP.1.attackStep]; exact j1.le)
            hP.2).1⟩,
          fun _ _ => trivial, fun _ _ => trivial⟩)
      _ _ output _ ⟨static_refl e, j3⟩ h).1.2
  | @startRelease e d _ ih => exact ih
  | @setReleaseTime e t _ ih =>
    obtain ⟨i1, i2, i3⟩ := ih
    refine ⟨i1, i2, fun hsr => ?_⟩
    obtain ⟨j1, _, j3⟩ := i3 hsr
    exact ⟨j1, secondsToExpRate_pos _ _ hsr, j3⟩

/-- C6. No undefined numeric operation: for every envelope reachable from a `reset` with a
positive sample rate (and `virtuallyZero ≥ 0`, `egTransitionTime > 0`), a call of `getBlock`
returns and every operation it evaluates is defined: each `pow` has its base in `[0, 1]`
and a positive exponent, each division a divisor other than 0. The divisions that the rate
conversions of `reset` evaluate (for a positive time) have a divisor other than 0 too. -/
theorem getBlock_operations_defined (pow : ℚ → ℚ → ℚ) (cfg : Config)
    (hz : 0 ≤ cfg.virtuallyZero) (htt : 0 < cfg.egTransitionTime)
    (e : ADSREnvelope) (hr : Reachable pow cfg e) (hsr : 0 < e.sampleRate)
    (output : List ℚ) :
    (∃ c, getBlock pow cfg e output = some c ∧ ∀ o ∈ c.ops, o.Defined)
    ∧ ∀ t : ℚ, ¬ t ≤ 0 →
        linRateDivisor e.sampleRate t ≠ 0 ∧ expRateDivisor e.sampleRate t ≠ 0 := by
  obtain ⟨i1, i2, i3⟩ := reachable_numeric hr
  obtain ⟨j1, -, j3⟩ := i3 hsr
  have hth : e.sustain ≤ e.sustainThreshold := by
    rw [reachable_threshold hr]
    linarith
  constructor
  · obtain ⟨c, hc, -, -, -, hR⟩ := getBlock_rule
      (fun _ e' => Static e e' ∧ (e'.currentState = State.Attack → 0 ≤ e'.attackCount))
      (fun _ => True) NumOp.Defined
      (fun e' x xs hP => by
        have hd := iteration_defined pow cfg e' x xs (by rw [hP.1.sustain]; exact i1)
          (by rw [hP.1.sustain]; exact i2) (by rw [hP.1.attackStep]; exact j1.le) hP.2
        refine ⟨⟨static_trans hP.1 (iteration_static pow cfg e' (x :: xs)), hd.1⟩,
          fun _ _ => trivial, hd.2 ?_, iteration_progress pow cfg e' x xs (fun _ _ => ?_)⟩
        · rw [hP.1.sampleRate]
          exact ne_of_gt (mul_pos hsr htt)
        · rw [hP.1.sustain, hP.1.sustainThreshold]
          exact hth)
      e output ⟨static_refl e, j3⟩
    exact ⟨c, hc, hR⟩
  · intro t ht
    exact ⟨ne_of_gt (linRateDivisor_pos _ _ hsr ht), ne_of_gt (expRateDivisor_pos _ _ hsr)⟩

/-- An instance of `getBlock_operations_defined`: three samples of an envelope with an
attack of half a second at a sample rate of 4. -/
theorem getBlock_operations_defined_witness :
    0 ≤ sampleConfig.virtuallyZero ∧ 0 < sampleConfig.egTransitionTime
    ∧ 0 < delayedEnvelope.sampleRate
    ∧ ∃ c, getBlock powNat sampleConfig delayedEnvelope [0, 0, 0] = some c
        ∧ ∀ o ∈ c.ops, o.Defined :=
  ⟨by decide!, by decide!, by decide!,
    (getBlock_operations_defined powNat sampleConfig (by decide!) (by decide!) delayedEnvelope
      (Reachable.reset (ADSREnvelope.init sampleConfig) slowAttackDesc false 2 4)
      (by decide!) [0, 0, 0]).1⟩

theorem releaseExponent_pos (shape : ℚ) : 0 < releaseExponent shape := by
  unfold releaseExponent
  split
  · linarith
  · rename_i h
    have : 0 < shape := not_le.mp h
    exact one_div_pos.mpr (by linarith)

theorem releaseSample_value (pow : ℚ → ℚ → ℚ) (e : ADSREnvelope) :
    (releaseSample pow e).currentValue
      = e.releaseValue * pow (releaseSample pow e).releaseCount
          (releaseExponent e.releaseShape) := by
  unfold releaseSample releaseExponent
  dsimp only
  split <;> rfl

theorem releaseLoop_stop (pow : ℚ → ℚ → ℚ) (cfg : Config) (e : ADSREnvelope) (k : Nat)
    (h : ¬ cfg.egReleaseThreshold < e.currentValue) :
    releaseLoop pow cfg e k = ⟨e, [], []⟩ := by
  cases k with
  | zero => rfl
  | succ k => simp [releaseLoop, h]

/-- The release loop and the release counter: the counter stays in `[0, 1]`, and every
sample written lowers `releaseCount / releaseRate` by 1, except a last one with which the
value falls to the threshold. -/
theorem releaseLoop_bound (pow : ℚ → ℚ → ℚ) (hp : PowLaws pow) (cfg : Config)
    (hthr : 0 ≤ cfg.egReleaseThreshold) (e : ADSREnvelope) (k : Nat)
    (h0 : 0 ≤ e.releaseCount) (h1 : e.releaseCount ≤ 1) (hrate : 0 < e.releaseRate) :
    0 ≤ (releaseLoop pow cfg e k).env.releaseCount
    ∧ (releaseLoop pow cfg e k).env.releaseCount ≤ 1
    ∧ (((releaseLoop pow cfg e k).env.releaseCount / e.releaseRate
          + ((releaseLoop pow cfg e k).out.length : ℚ) ≤ e.releaseCount / e.releaseRate)
      ∨ ((releaseLoop pow cfg e k).env.currentValue ≤ cfg.egReleaseThreshold
        ∧ ((releaseLoop pow cfg e k).out.length : ℚ) ≤ e.releaseCount / e.releaseRate + 1)) := by
  induction k generalizing e with
  | zero =>
    refine ⟨h0, h1, Or.inl ?_⟩
    simp [releaseLoop]
  | succ k ih =>
    unfold releaseLoop
    split
    · have hc := clamp_unit (e.releaseCount - e.releaseRate)
      have hrc : (releaseSample pow e).releaseCount
          = clamp (e.releaseCount - e.releaseRate) 0 1 := rfl
      have hrr : (releaseSample pow e).releaseRate = e.releaseRate := rfl
      by_cases hge : e.releaseRate ≤ e.releaseCount
      · have hcl : clamp (e.releaseCount - e.releaseRate) 0 1
            = e.releaseCount - e.releaseRate := by
          unfold clamp
          rw [min_eq_left (by linarith), max_eq_right (by linarith)]
        obtain ⟨i0, i1, i2⟩ := ih (releaseSample pow e) (by rw [hrc]; exact hc.1)
          (by rw [hrc]; exact hc.2) (by rw [hrr]; exact hrate)
        have hdiv : (releaseSample pow e).releaseCount / e.releaseRate
            = e.releaseCount / e.releaseRate - 1 := by
          rw [hrc, hcl, sub_div, div_self (ne_of_gt hrate)]
        refine ⟨i0, i1, ?_⟩
        rw [hrr, hdiv] at i2
        simp only [Chunk.push, List.length_cons, Nat.cast_add, Nat.cast_one]
        rcases i2 with i2 | ⟨i2, i3⟩
        · left
          linarith
        · right
          exact ⟨i2, by linarith⟩
      · have hlt : e.releaseCount < e.releaseRate := not_le.mp hge
        have hcl : clamp (e.releaseCount - e.releaseRate) 0 1 = 0 := by
          unfold clamp
          rw [min_eq_left (by linarith), max_eq_left (by linarith)]
        have hv : (releaseSample pow e).currentValue = 0 := by
          rw [releaseSample_value, hrc, hcl, hp.zero_base _ (releaseExponent_pos _), mul_zero]
        have hstop := releaseLoop_stop pow cfg (releaseSample pow e) k
          (by rw [hv]; exact not_lt.mpr hthr)
        dsimp only
        rw [hstop]
        simp only [Chunk.push, List.length_cons, List.length_nil, Nat.cast_add, Nat.cast_one,
          Nat.cast_zero, zero_add]
        refine ⟨by rw [hrc]; exact hc.1, by rw [hrc]; exact hc.2, Or.inr ⟨?_, ?_⟩⟩
        · rw [hv]
          exact hthr
        · have : 0 ≤ e.releaseCount / e.releaseRate := div_nonneg h0 hrate.le
          linarith
    · refine ⟨h0, h1, Or.inl ?_⟩
      simp

/-- The fadeout loop: while the value stays positive it has fallen by one step for each
sample written. -/
theorem fadeoutLoop_bound (e : ADSREnvelope) (k : Nat) :
    0 < (fadeoutLoop e k).env.currentValue →
      (fadeoutLoop e k).env.currentValue
        = e.currentValue + ((fadeoutLoop e k).out.length : ℚ) * e.transitionDelta := by
  induction k generalizing e with
  | zero =>
    intro _
    simp [fadeoutLoop]
  | succ k ih =>
    unfold fadeoutLoop
    dsimp only
    split
    · intro h
      have := ih _ h
      simp only [Chunk.push, List.length_cons, Nat.cast_add, Nat.cast_one] at this ⊢
      rw [this]
      ring
    · rename_i hn
      intro h
      exact absurd h hn

theorem fadeoutLoop_releaseCount (e : ADSREnvelope) (k : Nat) :
    (fadeoutLoop e k).env.releaseCount = e.releaseCount := by
  induction k generalizing e with
  | zero => rfl
  | succ k ih =>
    unfold fadeoutLoop
    dsimp only
    split
    · exact ih _
    · rfl

theorem releaseBound_ge (cfg : Config) (htt : 0 < cfg.egTransitionTime) (e : ADSREnvelope)
    (h0 : 0 ≤ e.releaseCount) (hrate : 0 < e.releaseRate) (hsr : 0 < e.sampleRate) :
    2 ≤ releaseBound cfg e := by
  have h1 : 0 ≤ e.releaseCount / e.releaseRate := div_nonneg h0 hrate.le
  have h2 : 0 < e.sampleRate * cfg.egTransitionTime := mul_pos hsr htt
  unfold releaseBound
  linarith

theorem fadeBound_ge (e : ADSREnvelope) (hd : e.transitionDelta < 0) : 1 ≤ fadeBound e := by
  have h1 : 0 ≤ max e.currentValue 0 / (-e.transitionDelta) :=
    div_nonneg (le_max_right _ _) (by linarith)
  unfold fadeBound
  linarith

/-- The `Release` case and the bounds: the release counter stays in `[0, 1]`, and either
the state is kept and the bound of the release has fallen by the number of samples written,
or the state is `Fadeout` with a falling ramp whose bound, with the samples written, is
within the bound of the release. -/
theorem releaseCase_bound (pow : ℚ → ℚ → ℚ) (hp : PowLaws pow) (cfg : Config)
    (hthr : 0 < cfg.egReleaseThreshold) (htt : 0 < cfg.egTransitionTime)
    (e : ADSREnvelope) (size : Nat)
    (h0 : 0 ≤ e.releaseCount) (h1 : e.releaseCount ≤ 1) (hrate : 0 < e.releaseRate)
    (hsr : 0 < e.sampleRate) :
    0 ≤ (releaseCase pow cfg e size).env.releaseCount
    ∧ (releaseCase pow cfg e size).env.releaseCount ≤ 1
    ∧ (((releaseCase pow cfg e size).env.currentState = e.currentState
        ∧ releaseBound cfg (releaseCase pow cfg e size).env
            + ((releaseCase pow cfg e size).out.length : ℚ) ≤ releaseBound cfg e)
      ∨ ((releaseCase pow cfg e size).env.currentState = State.Fadeout
        ∧ (releaseCase pow cfg e size).env.transitionDelta < 0
        ∧ fadeBound (releaseCase pow cfg e size).env
            + ((releaseCase pow cfg e size).out.length : ℚ) ≤ releaseBound cfg e)) := by
  have hf := releaseLoop_frame pow cfg e size
  obtain ⟨i0, i1, i2⟩ := releaseLoop_bound pow hp cfg hthr.le e size h0 h1 hrate
  have hst : 0 < e.sampleRate * cfg.egTransitionTime := mul_pos hsr htt
  have hq : 0 ≤ (releaseLoop pow cfg e size).env.releaseCount / e.releaseRate :=
    div_nonneg i0 hrate.le
  unfold releaseCase
  dsimp only
  split
  · rename_i hv
    refine ⟨i0, i1, Or.inr ⟨rfl, ?_, ?_⟩⟩
    · show -(max cfg.egReleaseThreshold (releaseLoop pow cfg e size).env.currentValue)
        / ((releaseLoop pow cfg e size).env.sampleRate * cfg.egTransitionTime) < 0
      rw [max_eq_left hv, hf.sampleRate, neg_div]
      exact neg_neg_of_pos (div_pos hthr hst)
    · have hlen : ((releaseLoop pow cfg e size).out.length : ℚ)
          ≤ e.releaseCount / e.releaseRate + 1 := by
        rcases i2 with i2 | ⟨_, i2⟩
        · linarith
        · exact i2
      have hfb : fadeBound
          { (releaseLoop pow cfg e size).env with
            currentState := State.Fadeout
            transitionDelta :=
              -(max cfg.egReleaseThreshold (releaseLoop pow cfg e size).env.currentValue)
                / ((releaseLoop pow cfg e size).env.sampleRate * cfg.egTransitionTime) }
          ≤ e.sampleRate * cfg.egTransitionTime + 1 := by
        unfold fadeBound
        dsimp only
        rw [max_eq_left hv, hf.sampleRate, neg_div, neg_neg]
        have hm : max (releaseLoop pow cfg e size).env.currentValue 0
            ≤ cfg.egReleaseThreshold := max_le hv hthr.le
        have hpos : 0 < cfg.egReleaseThreshold / (e.sampleRate * cfg.egTransitionTime) :=
          div_pos hthr hst
        have : max (releaseLoop pow cfg e size).env.currentValue 0
            / (cfg.egReleaseThreshold / (e.sampleRate * cfg.egTransitionTime))
            ≤ e.sampleRate * cfg.egTransitionTime := by
          rw [div_le_iff₀ hpos, mul_div_cancel₀ _ (ne_of_gt hst)]
          exact hm
        linarith
      unfold releaseBound
      linarith
  · rename_i hv
    refine ⟨i0, i1, Or.inl ⟨hf.currentState, ?_⟩⟩
    rcases i2 with i2 | ⟨i2, _⟩
    · unfold releaseBound
      rw [hf.releaseRate, hf.sampleRate]
      linarith
    · exact absurd i2 hv

/-- The `Fadeout` case and the bounds, for a falling ramp: either the state is `Done` with
value 0, or the state and the ramp are kept and the bound has fallen by the number of
samples written. -/
theorem fadeoutCase_bound (e : ADSREnvelope) (size : Nat) (hd : e.transitionDelta < 0) :
    ((fadeoutCase e size).env.currentState = State.Done
      ∧ (fadeoutCase e size).env.currentValue = 0)
    ∨ ((fadeoutCase e size).env.currentState = e.currentState
      ∧ (fadeoutCase e size).env.transitionDelta = e.transitionDelta
      ∧ fadeBound (fadeoutCase e size).env + ((fadeoutCase e size).out.length : ℚ)
          = fadeBound e) := by
  have hf := fadeoutLoop_frame e size
  have hb := fadeoutLoop_bound e size
  unfold fadeoutCase
  dsimp only
  split
  · exact Or.inl ⟨rfl, rfl⟩
  · rename_i hv
    have hv' : 0 < (fadeoutLoop e size).env.currentValue := not_le.mp hv
    refine Or.inr ⟨hf.currentState, hf.transitionDelta, ?_⟩
    have hb' := hb hv'
    have hnd : 0 < -e.transitionDelta := by linarith
    have hev : 0 < e.currentValue := by
      have : 0 ≤ ((fadeoutLoop e size).out.length : ℚ) := Nat.cast_nonneg _
      nlinarith
    unfold fadeBound
    have hne : e.transitionDelta ≠ 0 := ne_of_lt hd
    have h1 : ((fadeoutLoop e size).out.length : ℚ) * e.transitionDelta / (-e.transitionDelta)
        = -((fadeoutLoop e size).out.length : ℚ) := by
      rw [div_neg, mul_div_assoc, div_self hne, mul_one]
    rw [hf.transitionDelta, max_eq_left hv'.le, max_eq_left hev.le, hb', add_div, h1]
    ring

theorem countDown_fired (e : ADSREnvelope) (n : Nat) (h1 : e.shouldRelease = true)
    (h2 : e.releaseDelay = -1) : countDown e n = e := by
  have hm : max (-1) (e.releaseDelay - (n : Int)) = -1 := by
    rw [h2]
    exact max_eq_left (by omega)
  unfold countDown
  rw [if_pos h1, hm, ← h2]

theorem switchCase_releaseDelay (pow : ℚ → ℚ → ℚ) (cfg : Config) (e : ADSREnvelope)
    (size : Nat) : (switchCase pow cfg e size).env.releaseDelay = e.releaseDelay := by
  unfold switchCase
  split
  · have hf := delayLoop_frame e size
    unfold delayCase
    dsimp only
    split <;> exact hf.releaseDelay
  · have hf := attackLoop_frame pow e size
    unfold attackCase
    dsimp only
    split <;> exact hf.releaseDelay
  · have hf := holdLoop_frame e size
    unfold holdCase
    dsimp only
    split <;> exact hf.releaseDelay
  · have hf := decayLoop_frame pow e size
    unfold decayCase
    dsimp only
    split <;> exact hf.releaseDelay
  · unfold sustainCase
    split
    · rfl
    · exact (sustainLoop_frame e size).releaseDelay
  · have hf := releaseLoop_frame pow cfg e size
    unfold releaseCase
    dsimp only
    split <;> exact hf.releaseDelay
  · have hf := fadeoutLoop_frame e size
    unfold fadeoutCase
    dsimp only
    split <;> exact hf.releaseDelay
  · rfl

theorem samplesBound_release (cfg : Config) (e : ADSREnvelope)
    (hs : e.currentState = State.Release) : samplesBound cfg e = releaseBound cfg e := by
  unfold samplesBound
  split
  · rfl
  · simp [hs]

theorem samplesBound_fadeout (cfg : Config) (e : ADSREnvelope) (hd : e.releaseDelay = -1)
    (hs : e.currentState = State.Fadeout) : samplesBound cfg e = fadeBound e := by
  unfold samplesBound
  rw [if_neg (by rw [hd]; decide)]
  simp [hs]

/-- The `switch` on an envelope whose release has fired: the envelope stays one whose
release has fired, and it is `Done` with value 0 or its bound has fallen by the number of
samples written. -/
theorem switchCase_releasing (pow : ℚ → ℚ → ℚ) (hp : PowLaws pow) (cfg : Config)
    (hthr : 0 < cfg.egReleaseThreshold) (htt : 0 < cfg.egTransitionTime)
    (e : ADSREnvelope) (size : Nat) (hsr : 0 < e.sampleRate) (hrate : 0 < e.releaseRate)
    (hs : e.shouldRelease = true) (h0 : 0 ≤ e.releaseCount) (h1 : e.releaseCount ≤ 1)
    (hd : e.releaseDelay = -1)
    (hst : e.currentState = State.Release
      ∨ (e.currentState = State.Fadeout ∧ e.transitionDelta < 0)
      ∨ e.currentState = State.Done) :
    Releasing (switchCase pow cfg e size).env
    ∧ (Finished (switchCase pow cfg e size).env
      ∨ (samplesBound cfg (switchCase pow cfg e size).env
            + ((switchCase pow cfg e size).out.length : ℚ) ≤ samplesBound cfg e
        ∧ 1 ≤ samplesBound cfg (switchCase pow cfg e size).env)) := by
  have hs' : (switchCase pow cfg e size).env.shouldRelease = true := by
    rcases switchCase_shouldRelease pow cfg e size with h | ⟨_, h⟩
    · rw [h]
      exact hs
    · exact h
  have hd' : (switchCase pow cfg e size).env.releaseDelay = -1 :=
    (switchCase_releaseDelay pow cfg e size).trans hd
  have hstat := switchCase_static pow cfg e size
  rcases hst with hst | ⟨hst, hdelta⟩ | hst
  · have heq : switchCase pow cfg e size = releaseCase pow cfg e size := by
      simp [switchCase, hst]
    rw [heq] at hs' hd' hstat ⊢
    obtain ⟨i0, i1, i2⟩ := releaseCase_bound pow hp cfg hthr htt e size h0 h1 hrate hsr
    rcases i2 with ⟨j1, j2⟩ | ⟨j1, j2, j3⟩
    · rw [hst] at j1
      refine ⟨⟨hs', i0, i1, Or.inr ⟨hd', Or.inl j1⟩⟩, Or.inr ⟨?_, ?_⟩⟩
      · rw [samplesBound_release cfg _ j1, samplesBound_release cfg _ hst]
        exact j2
      · rw [samplesBound_release cfg _ j1]
        have := releaseBound_ge cfg htt (releaseCase pow cfg e size).env i0
          (by rw [hstat.releaseRate]; exact hrate) (by rw [hstat.sampleRate]; exact hsr)
        linarith
    · refine ⟨⟨hs', i0, i1, Or.inr ⟨hd', Or.inr (Or.inl ⟨j1, j2⟩)⟩⟩, Or.inr ⟨?_, ?_⟩⟩
      · rw [samplesBound_fadeout cfg _ hd' j1, samplesBound_release cfg _ hst]
        exact j3
      · rw [samplesBound_fadeout cfg _ hd' j1]
        exact fadeBound_ge _ j2
  · have heq : switchCase pow cfg e size = fadeoutCase e size := by
      simp [switchCase, hst]
    rw [heq] at hs' hd' ⊢
    have hrc : (fadeoutCase e size).env.releaseCount = e.releaseCount := by
      have := fadeoutLoop_releaseCount e size
      unfold fadeoutCase
      dsimp only
      split <;> exact this
    rcases fadeoutCase_bound e size hdelta with ⟨j1, j2⟩ | ⟨j1, j2, j3⟩
    · exact ⟨⟨hs', by rw [hrc]; exact h0, by rw [hrc]; exact h1,
        Or.inr ⟨hd', Or.inr (Or.inr ⟨j1, j2⟩)⟩⟩, Or.inl ⟨hd', j1, j2⟩⟩
    · rw [hst] at j1
      have hdelta' : (fadeoutCase e size).env.transitionDelta < 0 := by
        rw [j2]
        exact hdelta
      refine ⟨⟨hs', by rw [hrc]; exact h0, by rw [hrc]; exact h1,
        Or.inr ⟨hd', Or.inr (Or.inl ⟨j1, hdelta'⟩)⟩⟩, Or.inr ⟨?_, ?_⟩⟩
      · rw [samplesBound_fadeout cfg _ hd' j1, samplesBound_fadeout cfg _ hd hst]
        exact le_of_eq j3
      · rw [samplesBound_fadeout cfg _ hd' j1]
        exact fadeBound_ge _ hdelta'
  · have heq : switchCase pow cfg e size = doneCase e size := by
      simp [switchCase, hst]
    rw [heq] at hs' hd' ⊢
    exact ⟨⟨hs', h0, h1, Or.inr ⟨hd', Or.inr (Or.inr ⟨hst, rfl⟩)⟩⟩, Or.inl ⟨hd', hst, rfl⟩⟩

/-- A pass of the outer loop on an envelope whose release is due or has fired: the envelope
stays such a one, and it is `Done` with value 0 or its bound has fallen by the number of
samples written. -/
theorem iteration_releasing (pow : ℚ → ℚ → ℚ) (hp : PowLaws pow) (cfg : Config)
    (hthr : 0 < cfg.egReleaseThreshold) (htt : 0 < cfg.egTransitionTime)
    (e : ADSREnvelope) (x : ℚ) (xs : List ℚ) (hsr : 0 < e.sampleRate)
    (hrate : 0 < e.releaseRate) (hJ : Releasing e) :
    Releasing (iteration pow cfg e (x :: xs)).env
    ∧ (Finished (iteration pow cfg e (x :: xs)).env
      ∨ (samplesBound cfg (iteration pow cfg e (x :: xs)).env
            + ((iteration pow cfg e (x :: xs)).out.length : ℚ) ≤ samplesBound cfg e
        ∧ 1 ≤ samplesBound cfg (iteration pow cfg e (x :: xs)).env)) := by
  obtain ⟨hs, h0, h1, hd⟩ := hJ
  have key : ∀ e1 : ADSREnvelope, (releaseCheck e (x :: xs).length).1 = e1 →
      0 < e1.sampleRate → 0 < e1.releaseRate → e1.shouldRelease = true →
      0 ≤ e1.releaseCount → e1.releaseCount ≤ 1 → e1.releaseDelay = -1 →
      (e1.currentState = State.Release
        ∨ (e1.currentState = State.Fadeout ∧ e1.transitionDelta < 0)
        ∨ e1.currentState = State.Done) →
      samplesBound cfg e1 = samplesBound cfg e →
      Releasing (iteration pow cfg e (x :: xs)).env
      ∧ (Finished (iteration pow cfg e (x :: xs)).env
        ∨ (samplesBound cfg (iteration pow cfg e (x :: xs)).env
              + ((iteration pow cfg e (x :: xs)).out.length : ℚ) ≤ samplesBound cfg e
          ∧ 1 ≤ samplesBound cfg (iteration pow cfg e (x :: xs)).env)) := by
    intro e1 he1 k1 k2 k3 k4 k5 k6 k7 k8
    have hsw := switchCase_releasing pow hp cfg hthr htt e1
      (releaseCheck e (x :: xs).length).2 k1 k2 k3 k4 k5 k6 k7
    have henv : (iteration pow cfg e (x :: xs)).env
        = (switchCase pow cfg e1 (releaseCheck e (x :: xs).length).2).env := by
      show countDown _ _ = _
      rw [he1]
      exact countDown_fired _ _ hsw.1.1
        ((switchCase_releaseDelay pow cfg e1 _).trans k6)
    have hout : (iteration pow cfg e (x :: xs)).out
        = (switchCase pow cfg e1 (releaseCheck e (x :: xs).length).2).out := by
      show (switchCase pow cfg _ _).out = _
      rw [he1]
    rw [henv, hout, ← k8]
    exact hsw
  rcases hd with hd | ⟨hd, hst⟩
  · have hrc := releaseCheck_fire e (x :: xs).length hs hd
    refine key { e with currentState := State.Release, releaseDelay := -1 } (by rw [hrc])
      hsr hrate hs h0 h1 rfl (Or.inl rfl) ?_
    rw [samplesBound_release cfg { e with currentState := State.Release, releaseDelay := -1 }
      rfl]
    unfold samplesBound
    rw [if_pos hd]
    rfl
  · have hnf : ¬ (e.shouldRelease = true ∧ e.releaseDelay = 0) := by
      rw [hd]
      simp
    rcases releaseCheck_cases e (x :: xs).length with ⟨_, h2, h3⟩ | ⟨he, _⟩
    · exact absurd ⟨h2, h3⟩ hnf
    · refine key e he hsr hrate hs h0 h1 hd ?_ rfl
      rcases hst with hst | hst | ⟨hst, _⟩
      · exact Or.inl hst
      · exact Or.inr (Or.inl hst)
      · exact Or.inr (Or.inr hst)

theorem samplesBound_finished (cfg : Config) (e : ADSREnvelope) (h : Finished e) :
    samplesBound cfg e = 0 := by
  unfold samplesBound
  rw [if_neg (by rw [h.1]; decide)]
  simp [h.2.1]

/-- One call of `getBlock` on an envelope whose release is due or has fired: the call
returns, and the envelope is `Done` with value 0 or its bound has fallen by the length of
the span. -/
theorem getBlock_releasing (pow : ℚ → ℚ → ℚ) (hp : PowLaws pow) (cfg : Config)
    (hthr : 0 < cfg.egReleaseThreshold) (htt : 0 < cfg.egTransitionTime)
    (e : ADSREnvelope) (output : List ℚ) (hsr : 0 < e.sampleRate)
    (hrate : 0 < e.releaseRate) (hJ : Releasing e) (M : ℚ)
    (hM : Finished e ∨ (samplesBound cfg e ≤ M ∧ 1 ≤ samplesBound cfg e)) :
    ∃ c, getBlock pow cfg e output = some c ∧ Static e c.env ∧ Releasing c.env
      ∧ (Finished c.env
        ∨ (samplesBound cfg c.env + (output.length : ℚ) ≤ M ∧ 1 ≤ samplesBound cfg c.env)) := by
  obtain ⟨c, hc, -, hP, -, -⟩ := getBlock_rule
    (fun rest e' => Static e e' ∧ Releasing e'
      ∧ (Finished e'
        ∨ (samplesBound cfg e' + (output.length : ℚ) ≤ M + (rest.length : ℚ)
          ∧ 1 ≤ samplesBound cfg e')))
    (fun _ => True) (fun _ => True)
    (by
      intro e' x xs ⟨k1, k2, k3⟩
      obtain ⟨i1, i2⟩ := iteration_releasing pow hp cfg hthr htt e' x xs
        (by rw [k1.sampleRate]; exact hsr) (by rw [k1.releaseRate]; exact hrate) k2
      have hlen := iteration_length pow cfg e' (x :: xs)
      have hlen' : ((iteration pow cfg e' (x :: xs)).out.length : ℚ)
          + ((iteration pow cfg e' (x :: xs)).rest.length : ℚ) = ((x :: xs).length : ℚ) := by
        rw [← hlen]
        push_cast
        ring
      have hnn : (0 : ℚ) ≤ ((iteration pow cfg e' (x :: xs)).out.length : ℚ) :=
        Nat.cast_nonneg _
      refine ⟨⟨static_trans k1 (iteration_static pow cfg e' (x :: xs)), i1, ?_⟩,
        fun _ _ => trivial, fun _ _ => trivial, ?_⟩
      · rcases i2 with i2 | ⟨i2, i3⟩
        · exact Or.inl i2
        · rcases k3 with k3 | ⟨k3, _⟩
          · rw [samplesBound_finished cfg e' k3] at i2
            linarith
          · exact Or.inr ⟨by linarith, i3⟩
      · apply iteration_progress
        intro hnf hdec
        obtain ⟨j1, -, -, j4⟩ := k2
        rcases j4 with j4 | ⟨-, j4⟩
        · exact absurd ⟨j1, j4⟩ hnf
        · rw [hdec] at j4
          simp at j4)
    e output ⟨static_refl e, hJ, by
      rcases hM with hM | ⟨hM, hM'⟩
      · exact Or.inl hM
      · exact Or.inr ⟨by linarith, hM'⟩⟩
  refine ⟨c, hc, hP.1, hP.2.1, ?_⟩
  rcases hP.2.2 with h | ⟨h, h'⟩
  · exact Or.inl h
  · simp only [List.length_nil, Nat.cast_zero, add_zero] at h
    exact Or.inr ⟨h, h'⟩

/-- Successive calls of `getBlock` on an envelope whose release is due or has fired: the
calls return, and the envelope is `Done` with value 0 or its bound has fallen by the total
length of the spans. -/
theorem getBlocks_releasing (pow : ℚ → ℚ → ℚ) (hp : PowLaws pow) (cfg : Config)
    (hthr : 0 < cfg.egReleaseThreshold) (htt : 0 < cfg.egTransitionTime) :
    ∀ (blocks : List (List ℚ)) (e : ADSREnvelope) (M : ℚ), 0 < e.sampleRate →
      0 < e.releaseRate → Releasing e →
      (Finished e ∨ (samplesBound cfg e ≤ M ∧ 1 ≤ samplesBound cfg e)) →
      ∃ c, getBlocks pow cfg e blocks = some c
        ∧ (Finished c.env
          ∨ (samplesBound cfg c.env + (((blocks.map List.length).sum : Nat) : ℚ) ≤ M
            ∧ 1 ≤ samplesBound cfg c.env)) := by
  intro blocks
  induction blocks with
  | nil =>
    intro e M _ _ _ hM
    refine ⟨⟨e, [], []⟩, rfl, ?_⟩
    simpa using hM
  | cons b bs ih =>
    intro e M hsr hrate hJ hM
    obtain ⟨c, hc, hst, hJ', hM'⟩ := getBlock_releasing pow hp cfg hthr htt e b hsr hrate hJ M hM
    obtain ⟨d, hd, hfin⟩ := ih c.env (M - (b.length : ℚ))
      (by rw [hst.sampleRate]; exact hsr) (by rw [hst.releaseRate]; exact hrate) hJ'
      (by
        rcases hM' with h | ⟨h, h'⟩
        · exact Or.inl h
        · exact Or.inr ⟨by linarith, h'⟩)
    refine ⟨⟨d.env, c.out ++ d.out, c.ops ++ d.ops⟩, ?_, ?_⟩
    · simp only [getBlocks, hc, hd]
    · rcases hfin with h | ⟨h, h'⟩
      · exact Or.inl h
      · refine Or.inr ⟨?_, h'⟩
        simp only [List.map_cons, List.sum_cons, Nat.cast_add]
        linarith

/-- In exact arithmetic a release armed by `startRelease` ends (in `float` arithmetic a
long one does not, see `release_stuck_in_float`): for every envelope reachable from a `reset`
with a positive sample rate (and positive `egReleaseThreshold` and `egTransitionTime`) there
is a number `N` such that every sequence of `getBlock` calls that renders at least `N`
samples after `startRelease`, however it is split into blocks, returns and leaves the state
`Done`, the value exactly 0 and `isSmoothing()` false. -/
theorem release_reaches_done (pow : ℚ → ℚ → ℚ) (hp : PowLaws pow) (cfg : Config)
    (hthr : 0 < cfg.egReleaseThreshold) (htt : 0 < cfg.egTransitionTime)
    (e : ADSREnvelope) (hr : Reachable pow cfg e) (hsr : 0 < e.sampleRate) (d : Int) :
    ∃ N : Nat, ∀ blocks : List (List ℚ), N ≤ (blocks.map List.length).sum →
      ∃ c, getBlocks pow cfg (startRelease e d) blocks = some c
        ∧ c.env.currentState = State.Done ∧ c.env.currentValue = 0
        ∧ isSmoothing c.env = false := by
  have hrate : 0 < e.releaseRate := ((reachable_numeric hr).2.2 hsr).2.1
  have hJ : Releasing (startRelease e d) :=
    ⟨rfl, by simp [startRelease], by simp [startRelease], Or.inl rfl⟩
  have hge : 1 ≤ samplesBound cfg (startRelease e d) := by
    have h2 := releaseBound_ge cfg htt (startRelease e d) (by simp [startRelease]) hrate hsr
    have : samplesBound cfg (startRelease e d) = releaseBound cfg (startRelease e d) := by
      unfold samplesBound
      exact if_pos rfl
    rw [this]
    linarith
  refine ⟨⌈samplesBound cfg (startRelease e d)⌉₊, fun blocks hN => ?_⟩
  obtain ⟨c, hc, hfin⟩ := getBlocks_releasing pow hp cfg hthr htt blocks (startRelease e d)
    (samplesBound cfg (startRelease e d)) hsr hrate hJ (Or.inr ⟨le_refl _, hge⟩)
  refine ⟨c, hc, ?_⟩
  rcases hfin with h | ⟨h, h'⟩
  · exact ⟨h.2.1, h.2.2, by simp [isSmoothing, h.2.1]⟩
  · exfalso
    have h1 : samplesBound cfg (startRelease e d)
        ≤ ((⌈samplesBound cfg (startRelease e d)⌉₊ : Nat) : ℚ) := Nat.le_ceil _
    have h2 : ((⌈samplesBound cfg (startRelease e d)⌉₊ : Nat) : ℚ)
        ≤ (((blocks.map List.length).sum : Nat) : ℚ) := by
      exact_mod_cast hN
    linarith

/-- An instance of `release_reaches_done`: the envelope with a release of half a second at
a sample rate of 4. -/
theorem release_reaches_done_witness :
    PowLaws powNat ∧ 0 < sampleConfig.egReleaseThreshold ∧ 0 < sampleConfig.egTransitionTime
    ∧ 0 < releasingEnvelope.sampleRate
    ∧ ∃ N : Nat, ∀ blocks : List (List ℚ), N ≤ (blocks.map List.length).sum →
        ∃ c, getBlocks powNat sampleConfig (startRelease releasingEnvelope 0) blocks = some c
          ∧ c.env.currentState = State.Done ∧ c.env.currentValue = 0
          ∧ isSmoothing c.env = false :=
  ⟨powNat_laws, by decide!, by decide!, by decide!,
    release_reaches_done powNat powNat_laws sampleConfig (by decide!) (by decide!)
      releasingEnvelope
      (Reachable.reset (ADSREnvelope.init sampleConfig) slowReleaseDesc false 0 4)
      (by decide!) 0⟩

/-- C16. The delay is not held across calls: with a delay of 3 samples (start 0, instant
attack), a call for one sample followed by a call for two writes `0, 1, 1`, so the second
and third of the first 3 samples are not the start value and the attack sample 1 comes
after one rendered sample; one call for three samples writes `0, 0, 0`. -/
theorem delay_cut_short :
    (instantEnvelope 3).start = 0 ∧ (instantEnvelope 3).delay = 3
    ∧ Option.map Chunk.out (getBlocks powNat sampleConfig (instantEnvelope 3) [[0], [0, 0]])
      = some [0, 1, 1]
    ∧ Option.map Chunk.out (getBlock powNat sampleConfig (instantEnvelope 3) [0, 0, 0])
      = some [0, 0, 0] := by
  decide!

/-- C18. Decay samples leave `[sustain, 1]`. With sustain 1/2, decay shape 1 and a decay
time of 0 the rendering is `1, 1/4, 1/2`: the one `Decay` sample (written by the `Decay`
case entered after `Hold`) is 1/4, below the sustain level. With sustain 1/4, decay shape
-1 and a decay of one second at a sample rate of 32 the first `Decay` sample is
`1/2 + (93/128)^2`, above 1. -/
theorem decay_leaves_range :
    Option.map Chunk.out
        (getBlock powNat sampleConfig
          (reset sampleConfig (ADSREnvelope.init sampleConfig) convexDecayDesc false 0 48000)
          [0, 0, 0])
      = some [1, 1 / 4, 1 / 2]
    ∧ Option.map (fun c => (c.env.currentState, (holdCase c.env 2).env.currentState,
          (decayCase powNat sampleConfig (holdCase c.env 2).env 2).out))
        (getBlock powNat sampleConfig
          (reset sampleConfig (ADSREnvelope.init sampleConfig) convexDecayDesc false 0 48000)
          [0])
      = some (State.Hold, State.Decay, [1 / 4])
    ∧ Option.map Chunk.out
        (getBlock powHalf sampleConfig
          (reset sampleConfig (ADSREnvelope.init sampleConfig) concaveDecayDesc false 0 32)
          [0, 0])
      = some [1, 1 / 2 + (93 / 128) ^ 2]
    ∧ (1 : ℚ) < 1 / 2 + (93 / 128) ^ 2 := by
  decide!

theorem decaySample_stuck (e : ADSREnvelope) (h : StuckInDecay e) :
    StuckInDecay (decaySample powHalf e) := by
  obtain ⟨h1, h2, h3, h4, h5, h6, h7, h8⟩ := h
  refine ⟨h1, ?_, ?_, h4, h5, h6, h7, h8⟩
  · simp only [decaySample, h3, h5, h6, h7]
    decide!
  · simp only [decaySample, h3, h5, h7]
    decide!

theorem decayLoop_stuck (e : ADSREnvelope) (k : Nat) (h : StuckInDecay e) :
    StuckInDecay (decayLoop powHalf e k).env
    ∧ (decayLoop powHalf e k).out = List.replicate k (1 / 2) := by
  induction k generalizing e with
  | zero => exact ⟨h, rfl⟩
  | succ k ih =>
    have hlt : e.sustain < e.currentValue := by
      rw [h.2.1, h.2.2.2.2.1]
      norm_num
    have hs := decaySample_stuck e h
    obtain ⟨i1, i2⟩ := ih (decaySample powHalf e) hs
    unfold decayLoop
    rw [if_pos hlt]
    refine ⟨i1, ?_⟩
    simp only [Chunk.push, i2, hs.2.1, List.replicate_succ]

theorem iteration_stuck (e : ADSREnvelope) (x : ℚ) (xs : List ℚ) (h : StuckInDecay e) :
    StuckInDecay (iteration powHalf sampleConfig e (x :: xs)).env
    ∧ (iteration powHalf sampleConfig e (x :: xs)).out
        = List.replicate (xs.length + 1) (1 / 2) := by
  obtain ⟨i1, i2⟩ := decayLoop_stuck e (xs.length + 1) h
  have hgt : ¬ (decayLoop powHalf e (xs.length + 1)).env.currentValue
      ≤ (decayLoop powHalf e (xs.length + 1)).env.sustainThreshold := by
    rw [i1.2.1, i1.2.2.2.2.2.2.2]
    norm_num
  have hsw : switchCase powHalf sampleConfig e (xs.length + 1)
      = decayLoop powHalf e (xs.length + 1) := by
    simp only [switchCase, h.1, decayCase]
    rw [if_neg hgt]
  unfold iteration
  rw [releaseCheck_idle e _ h.2.2.2.1]
  simp only [List.length_cons, hsw]
  refine ⟨?_, i2⟩
  rw [countDown, if_neg (by rw [i1.2.2.2.1]; simp)]
  exact i1

theorem getBlocks_stuck : ∀ (blocks : List (List ℚ)) (e : ADSREnvelope), StuckInDecay e →
    ∃ c, getBlocks powHalf sampleConfig e blocks = some c ∧ StuckInDecay c.env
      ∧ ∀ v ∈ c.out, v = 1 / 2 := by
  intro blocks
  induction blocks with
  | nil =>
    intro e h
    exact ⟨⟨e, [], []⟩, rfl, h, by simp⟩
  | cons b bs ih =>
    intro e h
    obtain ⟨c, hc, -, hP, hQ, -⟩ := getBlock_rule (fun _ e' => StuckInDecay e')
      (fun v => v = 1 / 2) (fun _ => True)
      (fun e' x xs hP => by
        obtain ⟨i1, i2⟩ := iteration_stuck e' x xs hP
        refine ⟨i1, ?_, fun _ _ => trivial, Or.inl ?_⟩
        · rw [i2]
          intro v hv
          exact (List.mem_replicate.mp hv).2
        · rw [i2]
          simp)
      e b h
    obtain ⟨d, hd, hP', hQ'⟩ := ih c.env hP
    refine ⟨⟨d.env, c.out ++ d.out, c.ops ++ d.ops⟩, ?_, hP', ?_⟩
    · simp only [getBlocks, hc, hd]
    · intro v hv
      rcases List.mem_append.mp hv with hv | hv
      · exact hQ v hv
      · exact hQ' v hv

/-- C19. An envelope that never reaches `Sustain`: with sustain 1/4, decay shape -1 and all
times 0 at 48 kHz (never released), the first two samples are `1, 1/2`, and whatever is
rendered afterwards, in any split into blocks, the calls return with the state still
`Decay` and every further sample equal to 1/2: the `Decay` value settles at
`pow(sustain, 1/2) = 1/2`, above the sustain threshold. -/
theorem decay_never_reaches_sustain (blocks : List (List ℚ)) :
    ∃ c d, getBlock powHalf sampleConfig stuckEnvelope [0, 0] = some c
      ∧ c.out = [1, 1 / 2]
      ∧ getBlocks powHalf sampleConfig c.env blocks = some d
      ∧ d.env.currentState = State.Decay ∧ d.env.currentState ≠ State.Sustain
      ∧ ∀ v ∈ d.out, v = 1 / 2 := by
  have h : Option.map (fun c => (c.out, c.env.currentState, c.env.currentValue,
        c.env.decayCount, c.env.shouldRelease))
      (getBlock powHalf sampleConfig stuckEnvelope [0, 0])
      = some ([1, 1 / 2], State.Decay, 1 / 2, 0, false) := by
    decide!
  have h' : Option.map (fun c => (c.env.sustain, c.env.decayShape, c.env.decayRate,
        c.env.sustainThreshold))
      (getBlock powHalf sampleConfig stuckEnvelope [0, 0])
      = some (1 / 4, -1, 1, 251 / 1000) := by
    decide!
  cases hg : getBlock powHalf sampleConfig stuckEnvelope [0, 0] with
  | none => simp [hg] at h
  | some c =>
    simp only [hg, Option.map_some', Option.some.injEq, Prod.mk.injEq] at h h'
    obtain ⟨h0, h1, h2, h3, h4⟩ := h
    obtain ⟨h5, h6, h7, h8⟩ := h'
    obtain ⟨d, hd, hP, hQ⟩ := getBlocks_stuck blocks c.env ⟨h1, h2, h3, h4, h5, h6, h7, h8⟩
    exact ⟨c, d, rfl, h0, hd, hP.1, by rw [hP.1]; decide, hQ⟩

theorem releaseCounter_shift (c r : ℚ) (j : Nat) :
    releaseCounter (clamp (c - r) 0 1) r j = releaseCounter c r (j + 1) := by
  induction j with
  | zero => rfl
  | succ j ih =>
    show clamp (releaseCounter (clamp (c - r) 0 1) r j - r) 0 1 = _
    rw [ih]
    rfl

/-- The samples of the release loop: the `i`-th one is the release value times the power
of the counter after `i + 1` steps; the counter afterwards has made one step per sample. -/
theorem releaseLoop_samples (pow : ℚ → ℚ → ℚ) (cfg : Config) (k : Nat) :
    ∀ (e : ADSREnvelope),
      (∀ (i : Nat) (v : ℚ), (releaseLoop pow cfg e k).out[i]? = some v →
        v = e.releaseValue * pow (releaseCounter e.releaseCount e.releaseRate (i + 1))
              (releaseExponent e.releaseShape))
      ∧ (releaseLoop pow cfg e k).env.releaseCount
          = releaseCounter e.releaseCount e.releaseRate (releaseLoop pow cfg e k).out.length := by
  induction k with
  | zero =>
    intro e
    refine ⟨fun i v h => ?_, rfl⟩
    simp [releaseLoop] at h
  | succ k ih =>
    intro e
    unfold releaseLoop
    split
    · obtain ⟨i1, i2⟩ := ih (releaseSample pow e)
      have hrc : (releaseSample pow e).releaseCount
          = clamp (e.releaseCount - e.releaseRate) 0 1 := rfl
      have hrr : (releaseSample pow e).releaseRate = e.releaseRate := rfl
      have hrv : (releaseSample pow e).releaseValue = e.releaseValue := rfl
      have hrs : (releaseSample pow e).releaseShape = e.releaseShape := rfl
      constructor
      · intro i v h
        cases i with
        | zero =>
          simp only [Chunk.push, List.getElem?_cons_zero, Option.some.injEq] at h
          rw [← h, releaseSample_value, hrc]
          rfl
        | succ j =>
          simp only [Chunk.push, List.getElem?_cons_succ] at h
          have := i1 j v h
          rw [hrc, hrr, hrv, hrs, releaseCounter_shift] at this
          exact this
      · simp only [Chunk.push, List.length_cons]
        rw [i2, hrc, hrr, releaseCounter_shift]
    · refine ⟨fun i v h => ?_, rfl⟩
      simp at h

theorem releaseCase_out (pow : ℚ → ℚ → ℚ) (cfg : Config) (e : ADSREnvelope) (size : Nat) :
    (releaseCase pow cfg e size).out = (releaseLoop pow cfg e size).out
    ∧ (releaseCase pow cfg e size).env.releaseCount
        = (releaseLoop pow cfg e size).env.releaseCount := by
  unfold releaseCase
  dsimp only
  split <;> exact ⟨rfl, rfl⟩

theorem countDown_releaseCount (e : ADSREnvelope) (n : Nat) :
    (countDown e n).releaseCount = e.releaseCount := by
  unfold countDown
  split <;> rfl

theorem releaseCheck_releaseCount (e : ADSREnvelope) (n : Nat) :
    (releaseCheck e n).1.releaseCount = e.releaseCount := by
  rcases releaseCheck_cases e n with ⟨he, _, _⟩ | ⟨he, _⟩ <;> rw [he]

/-- C20, as the code has it. In a pass of the outer loop that runs the `Release` case, the
`i`-th sample written is `releaseValue * pow c e`, where `c` is the release counter after
`i + 1` steps (each lowers it by `releaseRate` and clamps it to `[0, 1]`) and the exponent
`e` is `-shape + 1` for `releaseShape ≤ 0` and `1 / (shape + 1)` for `releaseShape > 0`;
the counter after the pass has made one step per sample written. -/
theorem release_sample_formula (pow : ℚ → ℚ → ℚ) (cfg : Config) (e : ADSREnvelope) (x : ℚ)
    (xs : List ℚ)
    (hs : (releaseCheck e (x :: xs).length).1.currentState = State.Release)
    (i : Nat) (v : ℚ) (hv : (iteration pow cfg e (x :: xs)).out[i]? = some v) :
    v = e.releaseValue * pow (releaseCounter e.releaseCount e.releaseRate (i + 1))
          (releaseExponent e.releaseShape)
    ∧ releaseExponent e.releaseShape
        = (if e.releaseShape ≤ 0 then -e.releaseShape + 1 else 1 / (e.releaseShape + 1))
    ∧ (iteration pow cfg e (x :: xs)).env.releaseCount
        = releaseCounter e.releaseCount e.releaseRate
            (iteration pow cfg e (x :: xs)).out.length := by
  have hst := releaseCheck_static e (x :: xs).length
  have hrc := releaseCheck_releaseCount e (x :: xs).length
  have hsw : switchCase pow cfg (releaseCheck e (x :: xs).length).1
      (releaseCheck e (x :: xs).length).2
      = releaseCase pow cfg (releaseCheck e (x :: xs).length).1
          (releaseCheck e (x :: xs).length).2 := by
    simp only [switchCase, hs]
  have hout : (iteration pow cfg e (x :: xs)).out
      = (releaseLoop pow cfg (releaseCheck e (x :: xs).length).1
          (releaseCheck e (x :: xs).length).2).out := by
    show (switchCase pow cfg _ _).out = _
    rw [hsw]
    exact (releaseCase_out pow cfg _ _).1
  have henv : (iteration pow cfg e (x :: xs)).env.releaseCount
      = (releaseLoop pow cfg (releaseCheck e (x :: xs).length).1
          (releaseCheck e (x :: xs).length).2).env.releaseCount := by
    show (countDown (switchCase pow cfg _ _).env _).releaseCount = _
    rw [countDown_releaseCount, hsw]
    exact (releaseCase_out pow cfg _ _).2
  obtain ⟨i1, i2⟩ := releaseLoop_samples pow cfg (releaseCheck e (x :: xs).length).2
    (releaseCheck e (x :: xs).length).1
  rw [hst.releaseValue, hst.releaseRate, hst.releaseShape, hrc] at i1
  rw [hst.releaseRate, hrc] at i2
  refine ⟨i1 i v (by rw [← hout]; exact hv), ?_, by rw [henv, hout, i2]⟩
  unfold releaseExponent
  split <;> simp

/-- An instance of `release_sample_formula`: a release from the value 1 with rate 1/2 and
shape 0; the sample is `1 * (1/2)^1`. -/
theorem release_sample_formula_witness :
    (releaseCheck dueReleaseEnvelope ([0] : List ℚ).length).1.currentState = State.Release
    ∧ (iteration powNat sampleConfig dueReleaseEnvelope [0]).out[0]? = some (1 / 2)
    ∧ (1 / 2 : ℚ) = dueReleaseEnvelope.releaseValue
        * powNat (releaseCounter dueReleaseEnvelope.releaseCount
            dueReleaseEnvelope.releaseRate (0 + 1))
          (releaseExponent dueReleaseEnvelope.releaseShape) :=
  ⟨by decide!, by decide!,
    (release_sample_formula powNat sampleConfig dueReleaseEnvelope 0 [] (by decide!) 0 (1 / 2)
      (by decide!)).1⟩

/-- C20, as the claim has it, fails for a positive release shape: with release shape 1,
release rate 3/4 and release value 1 the first `Release` sample is `pow(1/4, 1/2) = 1/2`
(the exponent evaluated is `1 / (1 + 1)`), not `pow(1/4, 1/1 + 1) = 1/16`. -/
theorem release_exponent_differs :
    Option.map (fun d => (d.out, d.ops, d.env.currentState))
        ((getBlock powHalf sampleConfig shapedReleaseEnvelope [0]).bind
          (fun c => getBlock powHalf sampleConfig (startRelease c.env 0) [0]))
      = some ([1 / 2], [NumOp.div 2, NumOp.pow (1 / 4) (1 / 2)], State.Release)
    ∧ Option.map (fun c => ((startRelease c.env 0).releaseValue,
          (startRelease c.env 0).releaseShape,
          clamp ((startRelease c.env 0).releaseCount - (startRelease c.env 0).releaseRate) 0 1))
        (getBlock powHalf sampleConfig shapedReleaseEnvelope [0])
      = some (1, 1, 1 / 4)
    ∧ (1 : ℚ) * powHalf (1 / 4) (1 / 1 + 1) = 1 / 16
    ∧ (1 / 2 : ℚ) ≠ 1 / 16 := by
  decide!

/-- Every envelope a caller can observe is one that a pass can start from. -/
theorem reachable_visited {pow : ℚ → ℚ → ℚ} {cfg : Config} {e : ADSREnvelope}
    (hr : Reachable pow cfg e) : Visited pow cfg e := by
  induction hr with
  | reset e desc o d sr => exact Visited.reset e desc o d sr
  | getBlock output _ h ih => exact Visited.getBlock output ih h
  | startRelease d _ ih => exact Visited.startRelease d ih
  | setReleaseTime t _ ih => exact Visited.setReleaseTime t ih

theorem powNat_order : PowOrder powNat := by
  constructor
  · intro b
    simp [powNat]
  · intro b x h0 h1 _
    exact ⟨pow_nonneg h0 _, pow_le_one₀ h0 h1⟩
  · intro a b x h0 hab _ _
    exact pow_le_pow_left₀ h0 hab _

namespace lv2

theorem responses_append (xs ys : List Effect) :
    responses (xs ++ ys) = responses xs ++ responses ys := by
  induction xs with
  | nil => rfl
  | cons x xs ih => cases x <;> simp [responses, ih]

theorem synthCalls_append (xs ys : List Effect) :
    synthCalls (xs ++ ys) = synthCalls xs ++ synthCalls ys := by
  induction xs with
  | nil => rfl
  | cons x xs ih => cases x <;> simp [synthCalls, ih]

theorem responses_update_file_info (self : sfizz_plugin_t) (synth : Synth)
    (file_path : List Nat) :
    responses (sfizz_lv2_update_file_info self synth file_path).2 = [] := by
  unfold sfizz_lv2_update_file_info
  by_cases h : synth.unknown_opcodes = true <;> simp [h, responses]

theorem responses_load_file (self : sfizz_plugin_t) (synth : Synth) (file_path : List Nat) :
    responses (sfizz_lv2_load_file self synth file_path).effects = [] := by
  unfold sfizz_lv2_load_file
  dsimp only
  exact responses_update_file_info self synth file_path

theorem load_file_check_uri (self : sfizz_plugin_t) (synth : Synth) (file_path : List Nat) :
    (sfizz_lv2_load_file self synth file_path).plugin.sfizz_check_modification_uri
      = self.sfizz_check_modification_uri := rfl

theorem work_scala_undefined (self : sfizz_plugin_t) (synth : Synth) (atom : LV2_Atom)
    (h1 : atom.type ≠ self.sfizz_sfz_file_uri) (h2 : atom.type = self.sfizz_scala_file_uri) :
    work self synth (some atom) = none := by
  unfold work
  dsimp only
  rw [if_neg h1, if_pos h2]
  rfl

/-- On every call in which the behaviour of `work` is defined it returns
`LV2_WORKER_SUCCESS` if and only if `data` is not null and the type of the atom is one of
the seven kinds; and it either returns `LV2_WORKER_SUCCESS`, or it returns
`LV2_WORKER_ERR_UNKNOWN`, leaves the plugin as it is, calls nothing in the synth and
emits no response. -/
theorem work_defined_kinds (self : sfizz_plugin_t) (synth : Synth)
    (data : Option LV2_Atom) (r : WorkResult) (hr : work self synth data = some r) :
    (r.status = LV2_Worker_Status.LV2_WORKER_SUCCESS
        ↔ ∃ atom, data = some atom ∧ KnownKind self atom.type)
      ∧ (r.status = LV2_Worker_Status.LV2_WORKER_SUCCESS
        ∨ (r.status = LV2_Worker_Status.LV2_WORKER_ERR_UNKNOWN
          ∧ r.plugin = self
          ∧ synthCalls r.effects = []
          ∧ responses r.effects = [])) := by
  cases data with
  | none =>
    have hw : work self synth none
        = some { status := LV2_Worker_Status.LV2_WORKER_ERR_UNKNOWN, plugin := self,
                 effects := [Effect.log LogLevel.error] } := rfl
    rw [hw, Option.some.injEq] at hr
    subst hr
    refine ⟨⟨fun h => ?_, fun h => ?_⟩, Or.inr ⟨rfl, rfl, rfl, rfl⟩⟩
    · cases h
    · obtain ⟨atom, h, _⟩ := h
      cases h
  | some atom =>
    have key : KnownKind self atom.type →
        (work self synth (some atom)).map (fun w => w.status)
          = some LV2_Worker_Status.LV2_WORKER_SUCCESS →
        (r.status = LV2_Worker_Status.LV2_WORKER_SUCCESS
            ↔ ∃ a, some atom = some a ∧ KnownKind self a.type)
          ∧ (r.status = LV2_Worker_Status.LV2_WORKER_SUCCESS
            ∨ (r.status = LV2_Worker_Status.LV2_WORKER_ERR_UNKNOWN
              ∧ r.plugin = self
              ∧ synthCalls r.effects = []
              ∧ responses r.effects = [])) := by
      intro hk hw
      rw [hr, Option.map_some', Option.some.injEq] at hw
      exact ⟨⟨fun _ => ⟨atom, rfl, hk⟩, fun _ => hw⟩, Or.inl hw⟩
    by_cases h1 : atom.type = self.sfizz_sfz_file_uri
    · refine key (Or.inl h1) ?_
      unfold work
      dsimp only
      rw [if_pos h1]
      rfl
    by_cases h2 : atom.type = self.sfizz_scala_file_uri
    · rw [work_scala_undefined self synth atom h1 h2] at hr
      cases hr
    by_cases h3 : atom.type = self.sfizz_num_voices_uri
    · refine key (Or.inr (Or.inr (Or.inl h3))) ?_
      unfold work
      dsimp only
      rw [if_neg h1, if_neg h2, if_pos h3]
      rfl
    by_cases h4 : atom.type = self.sfizz_preload_size_uri
    · refine key (Or.inr (Or.inr (Or.inr (Or.inl h4)))) ?_
      unfold work
      dsimp only
      rw [if_neg h1, if_neg h2, if_neg h3, if_pos h4]
      rfl
    by_cases h5 : atom.type = self.sfizz_oversampling_uri
    · refine key (Or.inr (Or.inr (Or.inr (Or.inr (Or.inl h5))))) ?_
      unfold work
      dsimp only
      rw [if_neg h1, if_neg h2, if_neg h3, if_neg h4, if_pos h5]
      rfl
    by_cases h6 : atom.type = self.sfizz_log_status_uri
    · refine key (Or.inr (Or.inr (Or.inr (Or.inr (Or.inr (Or.inl h6)))))) ?_
      unfold work
      dsimp only
      rw [if_neg h1, if_neg h2, if_neg h3, if_neg h4, if_neg h5, if_pos h6]
      rfl
    by_cases h7 : atom.type = self.sfizz_check_modification_uri
    · by_cases hsc : synth.should_reload_scala = true
      · have hw : work self synth (some atom) = none := by
          unfold work
          dsimp only
          rw [if_neg h1, if_neg h2, if_neg h3, if_neg h4, if_neg h5, if_neg h6, if_pos h7,
            if_pos hsc]
          rfl
        rw [hw] at hr
        cases hr
      · refine key (Or.inr (Or.inr (Or.inr (Or.inr (Or.inr (Or.inr h7)))))) ?_
        unfold work
        dsimp only
        rw [if_neg h1, if_neg h2, if_neg h3, if_neg h4, if_neg h5, if_neg h6, if_pos h7,
          if_neg hsc]
        rfl
    have hw : work self synth (some atom)
        = some { status := LV2_Worker_Status.LV2_WORKER_ERR_UNKNOWN, plugin := self,
                 effects := Effect.log LogLevel.error
                   :: (if self.unmap then [Effect.unmap atom.type, Effect.log LogLevel.error]
                       else []) } := by
      unfold work
      dsimp only
      rw [if_neg h1, if_neg h2, if_neg h3, if_neg h4, if_neg h5, if_neg h6, if_neg h7]
    rw [hw, Option.some.injEq] at hr
    subst hr
    refine ⟨⟨fun h => ?_, fun h => ?_⟩, Or.inr ⟨rfl, rfl, ?_, ?_⟩⟩
    · cases h
    · obtain ⟨a, ha, hk⟩ := h
      cases ha
      unfold KnownKind at hk
      rcases hk with h | h | h | h | h | h | h <;> contradiction
    · by_cases hu : self.unmap = true <;> simp [hu, synthCalls]
    · by_cases hu : self.unmap = true <;> simp [hu, responses]


/-- A reload check when the synth reports no change of the tuning file: `work` called
with an atom of the check-modification type (an identifier that differs from those of
the tuning file and of the kinds that emit no response) returns `LV2_WORKER_SUCCESS` and
emits exactly one response, of the check-modification type with an empty body, whatever
the synth answers about the instrument file; and `work_response` called with that
response, on the plugin in any later state with the same identifier, returns
`LV2_WORKER_SUCCESS` and sets `check_modification` to true, changing nothing else. -/
theorem check_rearms_without_tuning (self later : sfizz_plugin_t) (synth : Synth)
    (atom : LV2_Atom) (hd : CheckKindApart self)
    (hs : self.sfizz_check_modification_uri ≠ self.sfizz_scala_file_uri)
    (ht : atom.type = self.sfizz_check_modification_uri)
    (hl : later.sfizz_check_modification_uri = self.sfizz_check_modification_uri)
    (hsc : synth.should_reload_scala = false) :
    ∃ r, work self synth (some atom) = some r
      ∧ r.status = LV2_Worker_Status.LV2_WORKER_SUCCESS
      ∧ responses r.effects
        = [{ size := 0, type := self.sfizz_check_modification_uri,
             body := AtomBody.empty }]
      ∧ ∀ response ∈ responses r.effects,
          (work_response later (some response)).status
            = LV2_Worker_Status.LV2_WORKER_SUCCESS
          ∧ (work_response later (some response)).plugin
            = { later with check_modification := true } := by
  obtain ⟨d3, d4, d5, d6⟩ := hd
  have hw : ∃ r, work self synth (some atom) = some r
      ∧ r.status = LV2_Worker_Status.LV2_WORKER_SUCCESS
      ∧ responses r.effects
        = [{ size := 0, type := self.sfizz_check_modification_uri,
             body := AtomBody.empty }] := by
    by_cases h1 : atom.type = self.sfizz_sfz_file_uri
    · have hw : work self synth (some atom)
          = some { status := LV2_Worker_Status.LV2_WORKER_SUCCESS,
                   plugin := (sfizz_lv2_load_file self synth atom.body.chars).plugin,
                   effects := (sfizz_lv2_load_file self synth atom.body.chars).effects
                     ++ (if (sfizz_lv2_load_file self synth atom.body.chars).status then []
                         else [Effect.log LogLevel.error])
                     ++ sfizz_lv2_activate_file_checking
                         (sfizz_lv2_load_file self synth atom.body.chars).plugin } := by
        unfold work
        dsimp only
        rw [if_pos h1]
      refine ⟨_, hw, rfl, ?_⟩
      dsimp only
      rw [responses_append, responses_append, responses_load_file]
      by_cases hst : (sfizz_lv2_load_file self synth atom.body.chars).status = true
      · rw [if_pos hst]
        rfl
      · rw [if_neg hst]
        rfl
    have h2 : ¬ atom.type = self.sfizz_scala_file_uri := fun h => hs (ht ▸ h)
    have h3 : ¬ atom.type = self.sfizz_num_voices_uri := fun h => d3 (ht ▸ h)
    have h4 : ¬ atom.type = self.sfizz_preload_size_uri := fun h => d4 (ht ▸ h)
    have h5 : ¬ atom.type = self.sfizz_oversampling_uri := fun h => d5 (ht ▸ h)
    have h6 : ¬ atom.type = self.sfizz_log_status_uri := fun h => d6 (ht ▸ h)
    have hsc' : ¬ synth.should_reload_scala = true := by
      rw [hsc]
      decide
    have hst : (work self synth (some atom)).map (fun w => w.status)
        = some LV2_Worker_Status.LV2_WORKER_SUCCESS := by
      unfold work
      dsimp only
      rw [if_neg h1, if_neg h2, if_neg h3, if_neg h4, if_neg h5, if_neg h6, if_pos ht,
        if_neg hsc']
      rfl
    have hrs : (work self synth (some atom)).map (fun w => responses w.effects)
        = some [{ size := 0, type := self.sfizz_check_modification_uri,
                  body := AtomBody.empty }] := by
      unfold work
      dsimp only
      rw [if_neg h1, if_neg h2, if_neg h3, if_neg h4, if_neg h5, if_neg h6, if_pos ht,
        if_neg hsc']
      by_cases hf : synth.should_reload_file = true <;>
        by_cases hu : synth.unknown_opcodes = true <;>
        by_cases hst : synth.load_file self.sfz_file_path = true <;>
        simp [hf, hu, hst, responses, sfizz_lv2_load_file, sfizz_lv2_update_file_info,
          sfizz_lv2_activate_file_checking]
    cases hwr : work self synth (some atom) with
    | none => simp [hwr] at hst
    | some r =>
      rw [hwr, Option.map_some', Option.some.injEq] at hst hrs
      exact ⟨r, rfl, hst, hrs⟩
  obtain ⟨r, h1, h2, h3⟩ := hw
  refine ⟨r, h1, h2, h3, fun response hm => ?_⟩
  rw [h3] at hm
  have he : response.type = later.sfizz_check_modification_uri := by
    rw [List.mem_singleton] at hm
    rw [hm, hl]
  unfold work_response
  dsimp only
  rw [if_pos he]
  exact ⟨rfl, rfl⟩

/-- C13 (code defect): `work` on a request to load a tuning file. The atom `tuningAtom` is
of the scala-file kind, one of the seven kinds. `work` passes `self->synth` as the
instance of `sfizz_lv2_load_scala_file`, which uses it as the plugin: the behaviour of
the call is undefined, so `work` returns no status at all, and not
`LV2_WORKER_SUCCESS`. With the plugin as its instance the same function is defined. -/
theorem work_tuning_file_undefined :
    tuningAtom.type = freshSystem.plugin.sfizz_scala_file_uri
      ∧ KnownKind freshSystem.plugin tuningAtom.type
      ∧ (∀ synth file_path,
          sfizz_lv2_load_scala_file LV2_Handle.synth synth file_path = none)
      ∧ (∀ self synth file_path,
          (sfizz_lv2_load_scala_file (LV2_Handle.plugin self) synth file_path).isSome = true)
      ∧ work freshSystem.plugin quietSynth (some tuningAtom) = none
      ∧ ¬ ∃ r, work freshSystem.plugin quietSynth (some tuningAtom) = some r
          ∧ r.status = LV2_Worker_Status.LV2_WORKER_SUCCESS := by
  have hw : work freshSystem.plugin quietSynth (some tuningAtom) = none :=
    work_scala_undefined _ _ _ (by decide) (by decide)
  refine ⟨by decide, Or.inr (Or.inl (by decide)), fun _ _ => rfl, fun _ _ _ => rfl, hw, ?_⟩
  rintro ⟨r, h, _⟩
  rw [hw] at h
  cases h

/-- C12 (code defect): a reload check when the tuning file has changed on disk. `work` is
called with the atom of the check-modification type and the synth answers
`sfizz_should_reload_scala` with true: `work` then passes `self->synth` as the instance
of `sfizz_lv2_load_scala_file`, the behaviour of the call is undefined, and neither a
status nor the response that re-arms the check is there. When the synth answers false the
check is re-armed (`check_rearms_without_tuning`). -/
theorem check_with_tuning_change_undefined :
    checkAtom.type = freshSystem.plugin.sfizz_check_modification_uri
      ∧ retunedSynth.should_reload_scala = true
      ∧ work freshSystem.plugin retunedSynth (some checkAtom) = none
      ∧ (¬ ∃ r, work freshSystem.plugin retunedSynth (some checkAtom) = some r
          ∧ r.status = LV2_Worker_Status.LV2_WORKER_SUCCESS)
      ∧ ∃ r, work freshSystem.plugin quietSynth (some checkAtom) = some r
          ∧ r.status = LV2_Worker_Status.LV2_WORKER_SUCCESS
          ∧ responses r.effects = [checkAtom] := by
  have hw : work freshSystem.plugin retunedSynth (some checkAtom) = none := rfl
  refine ⟨by decide, rfl, hw, ?_, ?_⟩
  · rintro ⟨r, h, _⟩
    rw [hw] at h
    cases h
  · obtain ⟨r, h1, h2, h3, _⟩ := check_rearms_without_tuning freshSystem.plugin
      freshSystem.plugin quietSynth checkAtom ⟨by decide, by decide, by decide, by decide⟩
      (by decide) (by decide) rfl rfl
    exact ⟨r, h1, h2, h3⟩

/-- C11 (code defect): two reload checks are outstanding at once. From a freshly
instantiated plugin, two instrument files are requested in one block; after the first
load its response re-arms the check and `run` schedules a check while the second load is
still queued; after the second load its response re-arms the check again and `run`
schedules a second check while the first is still queued. -/
theorem two_checks_outstanding :
    (System.steps false freshSystem twoLoads).outstandingChecks.length = 2
      ∧ (System.steps false freshSystem twoLoads).worker.queue
        = [{ size := 0, type := 8, body := AtomBody.empty },
           { size := 0, type := 8, body := AtomBody.empty }] := by
  decide!

end lv2


/-! ## The table of opcode defaults -/

namespace Default

theorem specs_checked (c : Limits) :
    ∀ s ∈ specs c, s.enforcesRaw
      ∧ (s.defaultInBounds ∨ s = oscillatorMulti c ∨ s = distoStages c) := by
  have hv : (0 : ℚ) ≤ (c.maxVoices : ℚ) := Nat.cast_nonneg _
  have hc : (0 : ℚ) ≤ (c.numCCs : ℚ) := Nat.cast_nonneg _
  have hl : (0 : ℚ) ≤ (c.maxLFOSteps : ℚ) := Nat.cast_nonneg _
  have hm : (0 : ℚ) ≤ (c.maxStrings : ℚ) := Nat.cast_nonneg _
  have cfgpolyphony : (polyphony c).enforcesRaw
      ∧ ((polyphony c).defaultInBounds ∨ polyphony c = oscillatorMulti c
        ∨ polyphony c = distoStages c) :=
    ⟨fun _ => rfl, Or.inl ⟨hv, le_refl _⟩⟩
  have cfgnotePolyphony : (notePolyphony c).enforcesRaw
      ∧ ((notePolyphony c).defaultInBounds ∨ notePolyphony c = oscillatorMulti c
        ∨ notePolyphony c = distoStages c) :=
    ⟨fun _ => rfl, Or.inl ⟨hv, le_refl _⟩⟩
  have cfgccNumber : (ccNumber c).enforcesRaw
      ∧ ((ccNumber c).defaultInBounds ∨ ccNumber c = oscillatorMulti c
        ∨ ccNumber c = distoStages c) :=
    ⟨fun _ => rfl, Or.inl ⟨le_refl _, hc⟩⟩
  have cfglfoSteps : (lfoSteps c).enforcesRaw
      ∧ ((lfoSteps c).defaultInBounds ∨ lfoSteps c = oscillatorMulti c
        ∨ lfoSteps c = distoStages c) :=
    ⟨fun _ => rfl, Or.inl ⟨le_refl _, hl⟩⟩
  have cfgstringsNumber : (stringsNumber c).enforcesRaw
      ∧ ((stringsNumber c).defaultInBounds ∨ stringsNumber c = oscillatorMulti c
        ∨ stringsNumber c = distoStages c) :=
    ⟨fun _ => rfl, Or.inl ⟨hm, le_refl _⟩⟩
  have k : ∀ s : OpcodeSpec, s.enforcesRaw ∧ s.defaultInBounds →
      s.enforcesRaw ∧ (s.defaultInBounds ∨ s = oscillatorMulti c ∨ s = distoStages c) :=
    fun _ h => ⟨h.1, Or.inl h.2⟩
  simp only [specs, List.forall_mem_cons, List.not_mem_nil, false_imp_iff, implies_true,
    and_true]
  refine ⟨k delay (by decide!), k delayRandom (by decide!), k delayMod (by decide!),
    k offset (by decide!), k offsetMod (by decide!), k offsetRandom (by decide!),
    k sampleEnd (by decide!), k sampleEndMod (by decide!), k sampleCount (by decide!),
    k loopStart (by decide!), k loopEnd (by decide!), k loopMod (by decide!),
    k loopCount (by decide!), k loopCrossfade (by decide!),
    k oscillatorPhase (by decide!), k oscillatorMode (by decide!),
    ⟨fun _ => rfl, Or.inr (Or.inl trivial)⟩, k oscillatorDetune (by decide!),
    k oscillatorDetuneMod (by decide!), k oscillatorModDepth (by decide!),
    k oscillatorModDepthMod (by decide!), k oscillatorQuality (by decide!),
    k group (by decide!), k offTime (by decide!), cfgpolyphony, cfgnotePolyphony,
    k key (by decide!), k loKey (by decide!), k hiKey (by decide!), k loCC (by decide!),
    k hiCC (by decide!), k loVel (by decide!), k hiVel (by decide!),
    k loChannelAftertouch (by decide!), k hiChannelAftertouch (by decide!),
    k loPolyAftertouch (by decide!), k hiPolyAftertouch (by decide!),
    k loBend (by decide!), k hiBend (by decide!), k loNormalized (by decide!),
    k hiNormalized (by decide!), k loBipolar (by decide!), k hiBipolar (by decide!),
    cfgccNumber, k smoothCC (by decide!), k curveCC (by decide!),
    k sustainCC (by decide!), k sostenutoCC (by decide!),
    k sustainThreshold (by decide!), k sostenutoThreshold (by decide!),
    k checkSustain (by decide!), k checkSostenuto (by decide!), k loBPM (by decide!),
    k hiBPM (by decide!), k sequence (by decide!), k volume (by decide!),
    k volumeMod (by decide!), k amplitude (by decide!), k amplitudeMod (by decide!),
    k pan (by decide!), k panMod (by decide!), k position (by decide!),
    k positionMod (by decide!), k width (by decide!), k widthMod (by decide!),
    k ampKeytrack (by decide!), k ampVeltrack (by decide!), k ampVelcurve (by decide!),
    k ampRandom (by decide!), k rtDead (by decide!), k rtDecay (by decide!),
    k filterCutoff (by decide!), k filterCutoffMod (by decide!),
    k filterResonance (by decide!), k filterResonanceMod (by decide!),
    k filterGain (by decide!), k filterGainMod (by decide!), k filterRandom (by decide!),
    k filterKeytrack (by decide!), k filterVeltrack (by decide!),
    k eqBandwidth (by decide!), k eqBandwidthMod (by decide!),
    k eqFrequency (by decide!), k eqFrequencyMod (by decide!), k eqGain (by decide!),
    k eqGainMod (by decide!), k eqVel2Frequency (by decide!), k eqVel2Gain (by decide!),
    k pitchKeytrack (by decide!), k pitchRandom (by decide!),
    k pitchVeltrack (by decide!), k transpose (by decide!), k pitch (by decide!),
    k pitchMod (by decide!), k bendUp (by decide!), k bendDown (by decide!),
    k bendStep (by decide!), k ampLFODepth (by decide!), k pitchLFODepth (by decide!),
    k filLFODepth (by decide!), k lfoFreq (by decide!), k lfoFreqMod (by decide!),
    k lfoBeats (by decide!), k lfoBeatsMod (by decide!), k lfoPhase (by decide!),
    k lfoPhaseMod (by decide!), k lfoDelay (by decide!), k lfoDelayMod (by decide!),
    k lfoFade (by decide!), k lfoFadeMod (by decide!), k lfoCount (by decide!),
    cfglfoSteps, k lfoStepX (by decide!), k lfoOffset (by decide!),
    k lfoRatio (by decide!), k lfoScale (by decide!), k egTime (by decide!),
    k egRelease (by decide!), k egTimeMod (by decide!), k egSustain (by decide!),
    k egPercent (by decide!), k egPercentMod (by decide!), k egDepth (by decide!),
    k egVel2Depth (by decide!), k flexEGAmpeg (by decide!), k flexEGDynamic (by decide!),
    k flexEGSustain (by decide!), k flexEGPointTime (by decide!),
    k flexEGPointLevel (by decide!), k flexEGPointShape (by decide!),
    k sampleQuality (by decide!), k octaveOffset (by decide!), k noteOffset (by decide!),
    k effect (by decide!), k effectPercent (by decide!), k apanFrequency (by decide!),
    k apanPhase (by decide!), k apanLevel (by decide!), k distoTone (by decide!),
    k distoDepth (by decide!), ⟨fun _ => rfl, Or.inr (Or.inr trivial)⟩,
    k compAttack (by decide!), k compRelease (by decide!), k compSTLink (by decide!),
    k compThreshold (by decide!), k compRatio (by decide!), k compGain (by decide!),
    k fverbSize (by decide!), k fverbPredelay (by decide!), k fverbTone (by decide!),
    k fverbDamp (by decide!), k gateSTLink (by decide!), k gateAttack (by decide!),
    k gateRelease (by decide!), k gateHold (by decide!), k gateThreshold (by decide!),
    k lofiBitred (by decide!), k lofiDecim (by decide!), k rectify (by decide!),
    cfgstringsNumber⟩

/-- C15: every numeric or boolean spec of the table has `lo ≤ default ≤ hi`, when the
constants `config::oscillatorsPerVoice` and `maxDistoStages`, the upper bounds of the two
specs whose default is 1, are at least 1; so the default, which is the value used when a
raw value does not parse, lies within the bounds of its own spec. -/
theorem default_within_bounds (c : Limits) (h1 : 1 ≤ c.oscillatorsPerVoice)
    (h2 : 1 ≤ c.maxDistoStages) :
    ∀ s ∈ specs c, s.lo ≤ s.defaultValue ∧ s.defaultValue ≤ s.hi := by
  intro s hs
  rcases (specs_checked c s hs).2 with h | rfl | rfl
  · exact h
  · refine ⟨le_refl _, ?_⟩
    show (1 : ℚ) ≤ (c.oscillatorsPerVoice : ℚ)
    exact_mod_cast h1
  · refine ⟨le_refl _, ?_⟩
    show (1 : ℚ) ≤ (c.maxDistoStages : ℚ)
    exact_mod_cast h2

theorem default_within_bounds_witness :
    (oscillatorMulti sampleLimits).lo ≤ (oscillatorMulti sampleLimits).defaultValue
      ∧ (oscillatorMulti sampleLimits).defaultValue ≤ (oscillatorMulti sampleLimits).hi :=
  default_within_bounds sampleLimits (by decide) (by decide) (oscillatorMulti sampleLimits)
    (by simp [specs])

theorem normalizeInput_plain (db2mag : ℚ → ℚ) (s : OpcodeSpec) (v : ℚ)
    (h : s.normalizes = false) : normalizeInput db2mag s v = v := by
  unfold OpcodeSpec.normalizes at h
  simp only [Bool.or_eq_false_iff, decide_eq_false_iff_not] at h
  obtain ⟨⟨⟨⟨hp, hm⟩, hb⟩, hd⟩, hw⟩ := h
  unfold normalizeInput
  simp only [if_neg hp, if_neg hm, if_neg hb, if_neg hd, if_neg hw]

theorem enforceBounds_inside (s : OpcodeSpec) (v : ℚ)
    (hl : s.enforcesLower = true → s.lo ≤ v) (hu : s.enforcesUpper = true → v ≤ s.hi) :
    enforceBounds s v = v := by
  unfold enforceBounds
  dsimp only
  by_cases el : s.enforcesLower = true
  · rw [if_pos el, max_eq_right (hl el)]
    by_cases eu : s.enforcesUpper = true
    · rw [if_pos eu, min_eq_right (hu eu)]
    · rw [if_neg eu]
  · rw [if_neg el]
    by_cases eu : s.enforcesUpper = true
    · rw [if_pos eu, min_eq_right (hu eu)]
    · rw [if_neg eu]

/-- The digits of `n` are digits, there is at least one, and they parse back to `n`. -/
theorem digitCodes_spec (fuel : Nat) :
    ∀ n : Nat, n < fuel →
      ∃ ds : List Nat, ds ≠ [] ∧ (∀ d ∈ ds, 48 ≤ d ∧ d ≤ 57)
        ∧ (∀ rest, digitCodes fuel n rest = ds ++ rest)
        ∧ ∃ k, ∀ acc rest, parseDigits acc (ds ++ rest)
            = parseDigits (acc * 10 ^ k + n) rest := by
  induction fuel with
  | zero =>
    intro n h
    omega
  | succ fuel ih =>
    intro n h
    by_cases hn : n < 10
    · refine ⟨[48 + n], by simp, ?_, fun rest => ?_, 1, fun acc rest => ?_⟩
      · intro d hd
        simp only [List.mem_singleton] at hd
        omega
      · unfold digitCodes
        rw [if_pos hn]
        rfl
      · show parseDigits acc ((48 + n) :: rest) = _
        rw [parseDigits, if_pos (by omega)]
        congr 1
        omega
    · obtain ⟨ds, h2, h3, h1, k, hk⟩ := ih (n / 10) (by omega)
      refine ⟨ds ++ [48 + n % 10], by simp, ?_, fun rest => ?_, k + 1, fun acc rest => ?_⟩
      · intro d hd
        rw [List.mem_append, List.mem_singleton] at hd
        rcases hd with hd | hd
        · exact h3 d hd
        · omega
      · unfold digitCodes
        rw [if_neg hn, h1]
        simp
      · rw [List.append_assoc, hk]
        show parseDigits _ ((48 + n % 10) :: rest) = _
        rw [parseDigits, if_pos (by omega)]
        congr 1
        have := Nat.div_add_mod n 10
        have e : 48 + n % 10 - 48 = n % 10 := by omega
        rw [e, pow_succ]
        have e2 : 10 * (acc * 10 ^ k + n / 10) + n % 10
            = acc * (10 ^ k * 10) + (10 * (n / 10) + n % 10) := by ring
        rw [e2, this]

theorem parseDigits_fractionCodes (f : Nat) (hf : f < 1000000) :
    parseDigits 0 (fractionCodes f) = some f := by
  unfold fractionCodes
  simp only [parseDigits]
  rw [if_pos (by omega), if_pos (by omega), if_pos (by omega), if_pos (by omega),
    if_pos (by omega), if_pos (by omega)]
  congr 1
  omega

theorem takeWhile_point (ds rest : List Nat) (h : ∀ d ∈ ds, 48 ≤ d ∧ d ≤ 57) :
    (ds ++ 46 :: rest).takeWhile (fun c => c != 46) = ds
      ∧ (ds ++ 46 :: rest).dropWhile (fun c => c != 46) = 46 :: rest := by
  induction ds with
  | nil => simp
  | cons d ds ih =>
    have hd := h d (List.mem_cons_self _ _)
    have hne : (d != 46) = true := by
      rw [bne_iff_ne]
      omega
    obtain ⟨i1, i2⟩ := ih (fun x hx => h x (List.mem_cons_of_mem _ hx))
    simp only [List.cons_append, List.takeWhile_cons, List.dropWhile_cons, hne, if_true]
    exact ⟨by rw [i1], i2⟩

/-- The text of a number of millionths: the whole part, the point and six decimals; it
starts with a digit and parses back to the number. -/
theorem parseUnsigned_codes (m : Nat) :
    parseUnsigned (digitCodes (m / 1000000 + 1) (m / 1000000)
        (46 :: fractionCodes (m % 1000000)))
      = some ((m : ℚ) / 1000000)
    ∧ ∃ d rest, digitCodes (m / 1000000 + 1) (m / 1000000)
        (46 :: fractionCodes (m % 1000000)) = d :: rest ∧ 48 ≤ d := by
  obtain ⟨ds, h2, h3, h1, k, hk⟩ := digitCodes_spec (m / 1000000 + 1) (m / 1000000)
    (Nat.lt_succ_self _)
  obtain ⟨t1, t2⟩ := takeWhile_point ds (fractionCodes (m % 1000000)) h3
  have hw : parseDigits 0 ds = some (m / 1000000) := by
    have := hk 0 []
    rw [List.append_nil, Nat.zero_mul, Nat.zero_add] at this
    exact this
  have hf := parseDigits_fractionCodes (m % 1000000) (Nat.mod_lt _ (by norm_num))
  rw [h1]
  constructor
  · unfold parseUnsigned
    dsimp only
    rw [t1, t2, List.drop_one, List.tail_cons, if_neg (fun h => h2 h.1), hw, hf]
    dsimp only
    congr 1
    have hl : (fractionCodes (m % 1000000)).length = 6 := rfl
    rw [hl]
    have hm := Nat.div_add_mod m 1000000
    have hq : (m : ℚ) = 1000000 * ((m / 1000000 : Nat) : ℚ) + ((m % 1000000 : Nat) : ℚ) := by
      exact_mod_cast hm.symm
    rw [hq]
    field_simp
    ring
  · cases ds with
    | nil => exact absurd rfl h2
    | cons d ds => exact ⟨d, _, rfl, (h3 d (List.mem_cons_self _ _)).1⟩

/-- The textual form of a value with at most six digits after the point parses back to
the value. -/
theorem parseNumber_str (value : ℚ) (h : Printable value) :
    parseNumber (str value) = some value := by
  have hint : ∀ w : ℚ, 0 ≤ w → (w * 1000000).den = 1 →
      (((⌊w * 1000000⌋).toNat : Nat) : ℚ) / 1000000 = w := by
    intro w hw hd
    have h0 : (0 : ℚ) ≤ w * 1000000 := by positivity
    have h1 : ((⌊w * 1000000⌋ : Int) : ℚ) = w * 1000000 := by
      have := Rat.coe_int_num_of_den_eq_one hd
      rw [← this, Int.floor_intCast]
    have h2 : 0 ≤ ⌊w * 1000000⌋ := Int.floor_nonneg.mpr h0
    have h3 : (((⌊w * 1000000⌋).toNat : Nat) : ℚ) = ((⌊w * 1000000⌋ : Int) : ℚ) := by
      have := Int.toNat_of_nonneg h2
      exact_mod_cast this
    rw [h3, h1]
    field_simp
  unfold str
  dsimp only
  by_cases hv : value < 0
  · rw [if_pos hv, if_pos hv]
    obtain ⟨hp, _⟩ := parseUnsigned_codes (⌊-value * 1000000⌋).toNat
    have hm : ∀ text, parseNumber (45 :: text) = (parseUnsigned text).map (fun v => -v) :=
      fun _ => rfl
    rw [List.singleton_append, hm, hp, Option.map_some']
    have hd : (-value * 1000000).den = 1 := by
      have : -value * 1000000 = -(value * 1000000) := by ring
      rw [this, Rat.neg_den]
      exact h
    rw [hint (-value) (by linarith) hd]
    simp
  · rw [if_neg hv, if_neg hv]
    obtain ⟨hp, d, rest, hc, hd48⟩ := parseUnsigned_codes (⌊value * 1000000⌋).toNat
    rw [List.nil_append, hc]
    have hne : d ≠ 45 := by omega
    have : parseNumber (d :: rest) = parseUnsigned (d :: rest) := by
      unfold parseNumber
      split
      · rename_i heq
        injection heq with h1 _
        exact absurd h1.symm (fun h => hne h.symm)
      · rfl
    rw [this, ← hc, hp, hint value (not_lt.mp hv) h]

theorem parse_str (spec : OpcodeSpec) (value : ℚ) (h : Printable value) :
    parse spec (str value) = some value := by
  unfold parse
  rw [parseNumber_str value h]

theorem printable_natCast (n : Nat) : Printable (n : ℚ) := by
  show (((n : ℚ) * 1000000)).den = 1
  have : (n : ℚ) * 1000000 = ((n * 1000000 : Nat) : ℚ) := by push_cast; ring
  rw [this]
  exact Rat.den_natCast _

theorem printable_intCast (z : Int) : Printable (z : ℚ) := by
  show (((z : ℚ) * 1000000)).den = 1
  have : (z : ℚ) * 1000000 = ((z * 1000000 : Int) : ℚ) := by push_cast; ring
  rw [this]
  exact Rat.den_intCast _

set_option maxRecDepth 8000 in
/-- Every spec of the table: its default has at most six digits after the point; a spec
that enforces a bound selects no normalisation; and the default lies within the bounds, or
the spec is `oscillatorMulti`, or the spec has no flag. -/
theorem table_checked (c : Limits) (code : EnumConstant → Int) :
    ∀ s ∈ table c code, Printable s.defaultValue ∧ s.enforcesRaw
      ∧ (s.defaultInBounds ∨ s = oscillatorMulti c ∨ s.flags = []) := by
  have hv : (0 : ℚ) ≤ (c.maxVoices : ℚ) := Nat.cast_nonneg _
  have hl : (0 : ℚ) ≤ (c.maxLFOSteps : ℚ) := Nat.cast_nonneg _
  have k : ∀ s : OpcodeSpec, Printable s.defaultValue ∧ s.enforcesRaw ∧ s.defaultInBounds →
      Printable s.defaultValue ∧ s.enforcesRaw
        ∧ (s.defaultInBounds ∨ s = oscillatorMulti c ∨ s.flags = []) :=
    fun _ h => ⟨h.1, h.2.1, Or.inl h.2.2⟩
  have n : ∀ (s : OpcodeSpec) (z : Int), s.defaultValue = (z : ℚ) → s.flags = [] →
      Printable s.defaultValue ∧ s.enforcesRaw
        ∧ (s.defaultInBounds ∨ s = oscillatorMulti c ∨ s.flags = []) := by
    intro s z hz hf
    refine ⟨by rw [hz]; exact printable_intCast z, fun _ => ?_, Or.inr (Or.inr hf)⟩
    unfold OpcodeSpec.normalizes
    rw [hf]
    rfl
  have b : ∀ (s : OpcodeSpec) (m : Nat), s.defaultValue = (m : ℚ) → s.enforcesRaw →
      s.defaultInBounds →
      Printable s.defaultValue ∧ s.enforcesRaw
        ∧ (s.defaultInBounds ∨ s = oscillatorMulti c ∨ s.flags = []) :=
    fun s m hm he hb => ⟨by rw [hm]; exact printable_natCast m, he, Or.inl hb⟩
  simp only [table, List.forall_mem_cons, List.not_mem_nil, false_imp_iff, implies_true,
    and_true]
  refine ⟨k delay (by decide!), k delayRandom (by decide!), k delayMod (by decide!),
    k offset (by decide!), k offsetMod (by decide!), k offsetRandom (by decide!),
    k sampleEnd (by decide!), k sampleEndMod (by decide!), k sampleCount (by decide!),
    k loopStart (by decide!), k loopEnd (by decide!), k loopMod (by decide!),
    k loopCount (by decide!), k loopCrossfade (by decide!), n (oscillator code) _ rfl rfl,
    k oscillatorPhase (by decide!), k oscillatorMode (by decide!),
    ⟨printable_natCast 1, fun _ => rfl, Or.inr (Or.inl trivial)⟩, k oscillatorDetune (by decide!),
    k oscillatorDetuneMod (by decide!), k oscillatorModDepth (by decide!),
    k oscillatorModDepthMod (by decide!), k oscillatorQuality (by decide!),
    k group (by decide!), k offTime (by decide!),
    b (polyphony c) c.maxVoices rfl (fun _ => rfl) ⟨hv, le_refl _⟩,
    b (notePolyphony c) c.maxVoices rfl (fun _ => rfl) ⟨hv, le_refl _⟩, k key (by decide!),
    k loKey (by decide!), k hiKey (by decide!), k loCC (by decide!), k hiCC (by decide!),
    k loVel (by decide!), k hiVel (by decide!), k loChannelAftertouch (by decide!),
    k hiChannelAftertouch (by decide!), k loPolyAftertouch (by decide!),
    k hiPolyAftertouch (by decide!), k loBend (by decide!), k hiBend (by decide!),
    k loNormalized (by decide!), k hiNormalized (by decide!), k loBipolar (by decide!),
    k hiBipolar (by decide!), n (ccNumber c) 0 (by simp [ccNumber, UInt16Spec]) rfl,
    k smoothCC (by decide!), k curveCC (by decide!), k sustainCC (by decide!),
    k sostenutoCC (by decide!), k sustainThreshold (by decide!),
    k sostenutoThreshold (by decide!), k checkSustain (by decide!),
    k checkSostenuto (by decide!), k loBPM (by decide!), k hiBPM (by decide!),
    k sequence (by decide!), k volume (by decide!), k volumeMod (by decide!),
    k amplitude (by decide!), k amplitudeMod (by decide!), k pan (by decide!),
    k panMod (by decide!), k position (by decide!), k positionMod (by decide!),
    k width (by decide!), k widthMod (by decide!), k ampKeytrack (by decide!),
    k ampVeltrack (by decide!), k ampVelcurve (by decide!), k ampRandom (by decide!),
    k rtDead (by decide!), k rtDecay (by decide!), k filterCutoff (by decide!),
    k filterCutoffMod (by decide!), k filterResonance (by decide!),
    k filterResonanceMod (by decide!), k filterGain (by decide!), k filterGainMod (by decide!),
    k filterRandom (by decide!), k filterKeytrack (by decide!), k filterVeltrack (by decide!),
    k eqBandwidth (by decide!), k eqBandwidthMod (by decide!), k eqFrequency (by decide!),
    k eqFrequencyMod (by decide!), k eqGain (by decide!), k eqGainMod (by decide!),
    k eqVel2Frequency (by decide!), k eqVel2Gain (by decide!), k pitchKeytrack (by decide!),
    k pitchRandom (by decide!), k pitchVeltrack (by decide!), k transpose (by decide!),
    k pitch (by decide!), k pitchMod (by decide!), k bendUp (by decide!),
    k bendDown (by decide!), k bendStep (by decide!), k ampLFODepth (by decide!),
    k pitchLFODepth (by decide!), k filLFODepth (by decide!), k lfoFreq (by decide!),
    k lfoFreqMod (by decide!), k lfoBeats (by decide!), k lfoBeatsMod (by decide!),
    k lfoPhase (by decide!), k lfoPhaseMod (by decide!), k lfoDelay (by decide!),
    k lfoDelayMod (by decide!), k lfoFade (by decide!), k lfoFadeMod (by decide!),
    k lfoCount (by decide!),
    b (lfoSteps c) 0 (by simp [lfoSteps, UInt32Spec]) (fun _ => rfl) ⟨le_refl _, hl⟩,
    k lfoStepX (by decide!), n (lfoWave code) _ rfl rfl, k lfoOffset (by decide!),
    k lfoRatio (by decide!), k lfoScale (by decide!), k egTime (by decide!),
    k egRelease (by decide!), k egTimeMod (by decide!), k egSustain (by decide!),
    k egPercent (by decide!), k egPercentMod (by decide!), k egDepth (by decide!),
    k egVel2Depth (by decide!), k flexEGAmpeg (by decide!), k flexEGDynamic (by decide!),
    k flexEGSustain (by decide!), k flexEGPointTime (by decide!),
    k flexEGPointLevel (by decide!), k flexEGPointShape (by decide!),
    k sampleQuality (by decide!), k octaveOffset (by decide!), k noteOffset (by decide!),
    k effect (by decide!), k effectPercent (by decide!), n (apanWaveform code) _ rfl rfl,
    k apanFrequency (by decide!), k apanPhase (by decide!), k apanLevel (by decide!),
    k distoTone (by decide!), k distoDepth (by decide!),
    n (distoStages c) 1 (by simp [distoStages, UInt32Spec]) rfl, k compAttack (by decide!),
    k compRelease (by decide!), k compSTLink (by decide!), k compThreshold (by decide!),
    k compRatio (by decide!), k compGain (by decide!), k fverbSize (by decide!),
    k fverbPredelay (by decide!), k fverbTone (by decide!), k fverbDamp (by decide!),
    k gateSTLink (by decide!), k gateAttack (by decide!), k gateRelease (by decide!),
    k gateHold (by decide!), k gateThreshold (by decide!), k lofiBitred (by decide!),
    k lofiDecim (by decide!), k rectify (by decide!),
    n (stringsNumber c) (c.maxStrings : Nat) (by simp [stringsNumber, UInt32Spec]) rfl,
    n (trigger code) _ rfl rfl, n (crossfadeCurve code) _ rfl rfl, n (offMode code) _ rfl rfl,
    n (loopMode code) _ rfl rfl, n (velocityOverride code) _ rfl rfl,
    n (selfMask code) _ rfl rfl, n (filter code) _ rfl rfl, n (eq code) _ rfl rfl⟩

set_option maxRecDepth 8000 in
/-- C14 (counterexample): the round trip of a default fails for `amplitude`, a spec of
the table with the default 100 and the flag `kNormalizePercent`: the textual form of the
default is `100.000000`, and resolving it gives the valid value 1, whatever the
conversion of decibels is. -/
theorem round_trip_fails_for_amplitude :
    (∀ c code, amplitude ∈ table c code) ∧ amplitude.defaultValue = 100
      ∧ str amplitude.defaultValue = [49, 48, 48, 46, 48, 48, 48, 48, 48, 48]
      ∧ (∀ db2mag, resolve db2mag (str amplitude.defaultValue) amplitude = (1, true))
      ∧ ¬ ∀ db2mag, ∀ s ∈ table sampleLimits sampleCodes,
          resolve db2mag (str s.defaultValue) s = (s.defaultValue, true) := by
  have hm : ∀ c code, amplitude ∈ table c code := fun c code => by simp [table]
  have hr : ∀ db2mag, resolve db2mag (str amplitude.defaultValue) amplitude = (1, true) := by
    intro db2mag
    unfold resolve
    rw [parse_str amplitude _ (by decide!)]
    simp [enforceBounds, normalizeInput, amplitude, FloatSpec,
      OpcodeSpec.enforcesLower, OpcodeSpec.enforcesUpper]
  refine ⟨hm, rfl, by decide!, hr, fun h => ?_⟩
  have h1 := h db2magNat amplitude (hm sampleLimits sampleCodes)
  rw [hr] at h1
  have h2 := congrArg Prod.fst h1
  have h3 : amplitude.defaultValue = 100 := rfl
  rw [h3] at h2
  norm_num at h2

/-- C14 (amended): for every spec of the table, resolving the textual form of the
default of the spec gives a valid result equal to that default normalised according to
the flags of the spec; and it is the default itself when the flags select no
normalisation. The constant `config::oscillatorsPerVoice`, an enforced upper bound of a
spec with default 1, is at least 1. -/
theorem resolve_default_normalized (db2mag : ℚ → ℚ) (c : Limits)
    (code : EnumConstant → Int) (h1 : 1 ≤ c.oscillatorsPerVoice) :
    ∀ s ∈ table c code,
      resolve db2mag (str s.defaultValue) s
          = (normalizeInput db2mag s s.defaultValue, true)
        ∧ (s.normalizes = false →
          resolve db2mag (str s.defaultValue) s = (s.defaultValue, true)) := by
  intro s hs
  obtain ⟨hprint, hraw, hin⟩ := table_checked c code s hs
  have hres : resolve db2mag (str s.defaultValue) s
      = (enforceBounds s (normalizeInput db2mag s s.defaultValue), true) := by
    unfold resolve
    rw [parse_str s _ hprint]
  have hb : enforceBounds s (normalizeInput db2mag s s.defaultValue)
      = normalizeInput db2mag s s.defaultValue := by
    by_cases he : s.enforcesLower = true ∨ s.enforcesUpper = true
    · rw [normalizeInput_plain db2mag s _ (hraw he)]
      rcases hin with h | rfl | hf
      · exact enforceBounds_inside s _ (fun _ => h.1) (fun _ => h.2)
      · refine enforceBounds_inside _ _ (fun _ => le_refl _) (fun _ => ?_)
        show (1 : ℚ) ≤ (c.oscillatorsPerVoice : ℚ)
        exact_mod_cast h1
      · exfalso
        unfold OpcodeSpec.enforcesLower OpcodeSpec.enforcesUpper at he
        rw [hf] at he
        simp at he
    · rw [not_or] at he
      exact enforceBounds_inside s _ (fun h => absurd h he.1) (fun h => absurd h he.2)
  rw [hres, hb]
  exact ⟨rfl, fun hn => by rw [normalizeInput_plain db2mag s _ hn]⟩

set_option maxRecDepth 8000 in
/-- Instances of `resolve_default_normalized`: `amplitude`, whose default is normalised;
`oscillatorMulti`, which enforces its bounds; and `loopMode`, a spec of an enumeration
type. -/
theorem resolve_default_normalized_witness :
    resolve db2magNat (str amplitude.defaultValue) amplitude
        = (normalizeInput db2magNat amplitude amplitude.defaultValue, true)
      ∧ resolve db2magNat (str (oscillatorMulti sampleLimits).defaultValue)
          (oscillatorMulti sampleLimits)
        = ((oscillatorMulti sampleLimits).defaultValue, true)
      ∧ resolve db2magNat (str (loopMode sampleCodes).defaultValue) (loopMode sampleCodes)
        = ((loopMode sampleCodes).defaultValue, true) :=
  ⟨(resolve_default_normalized db2magNat sampleLimits sampleCodes (by decide) amplitude
      (by simp [table])).1,
    (resolve_default_normalized db2magNat sampleLimits sampleCodes (by decide)
      (oscillatorMulti sampleLimits) (by simp [table])).2 rfl,
    (resolve_default_normalized db2magNat sampleLimits sampleCodes (by decide)
      (loopMode sampleCodes) (by simp [table])).2 rfl⟩

end Default


/-! ## The envelope: release, reset and range -/

/-- C21. `startRelease` captures the release start point and changes nothing audible by
itself: afterwards `releaseValue` is the current value when that is at least 0.00001 and
the sustain level otherwise, `releaseCount` is 1, and the current state and the current
value are as before, for every object and every argument. -/
theorem startRelease_captures_value (e : ADSREnvelope) (d : Int) :
    (startRelease e d).releaseValue
        = (if 1 / 100000 ≤ e.currentValue then e.currentValue else e.sustain)
      ∧ (startRelease e d).releaseCount = 1
      ∧ (startRelease e d).currentState = e.currentState
      ∧ (startRelease e d).currentValue = e.currentValue := by
  refine ⟨?_, rfl, rfl, rfl⟩
  show (if e.currentValue < 1 / 100000 then e.sustain else e.currentValue) = _
  by_cases h : e.currentValue < 1 / 100000
  · rw [if_pos h, if_neg (not_le.mpr h)]
  · rw [if_neg h, if_pos (not_lt.mp h)]

theorem iteration_releaseDelay (pow : ℚ → ℚ → ℚ) (cfg : Config) (e : ADSREnvelope)
    (output : List ℚ) (h : e.releaseDelay = -1 ∨ e.releaseDelay = 0) :
    (iteration pow cfg e output).env.releaseDelay = -1
      ∨ (iteration pow cfg e output).env.releaseDelay = 0 := by
  have h1 : (releaseCheck e output.length).1.releaseDelay = -1
      ∨ (releaseCheck e output.length).1.releaseDelay = 0 := by
    rcases releaseCheck_cases e output.length with ⟨he, _, _⟩ | ⟨he, _⟩
    · rw [he]
      exact Or.inl rfl
    · rw [he]
      exact h
  have h2 := switchCase_releaseDelay pow cfg (releaseCheck e output.length).1
    (releaseCheck e output.length).2
  show (countDown _ _).releaseDelay = -1 ∨ (countDown _ _).releaseDelay = 0
  unfold countDown
  split
  · show max (-1) (_ - _) = -1 ∨ max (-1) (_ - _) = 0
    rw [h2]
    rcases h1 with h1 | h1 <;> rw [h1] <;> omega
  · rw [h2]
    exact h1

theorem getBlockLoop_releaseDelay {pow : ℚ → ℚ → ℚ} {cfg : Config} {fuel : Nat}
    {e : ADSREnvelope} {output : List ℚ} {c : Chunk}
    (h : getBlockLoop pow cfg fuel e output = some c)
    (hd : e.releaseDelay = -1 ∨ e.releaseDelay = 0) :
    c.env.releaseDelay = -1 ∨ c.env.releaseDelay = 0 :=
  (getBlockLoop_rule (fun _ e' => e'.releaseDelay = -1 ∨ e'.releaseDelay = 0)
    (fun _ => True) (fun _ => True)
    (fun e' x xs hP =>
      ⟨iteration_releaseDelay pow cfg e' (x :: xs) hP, fun _ _ => trivial,
        fun _ _ => trivial⟩)
    fuel e output c hd h).1

theorem castInt_small (count : Nat) (h : count < 2147483648) : castInt count = count := by
  unfold castInt
  omega

theorem countDownInt_eq (e : ADSREnvelope) (count : Nat) (h : count < 2147483648) :
    countDownInt e count = countDown e count := by
  unfold countDownInt countDown
  rw [castInt_small count h]

/-- On a span of fewer than 2^31 samples a pass with the conversion of `count` to `int`
is the pass of `iteration`. -/
theorem iterationInt_eq (pow : ℚ → ℚ → ℚ) (cfg : Config) (e : ADSREnvelope)
    (output : List ℚ) (h : output.length < 2147483648) :
    iterationInt pow cfg e output = iteration pow cfg e output := by
  have h1 := switchCase_length pow cfg (releaseCheck e output.length).1
    (releaseCheck e output.length).2
  have h2 := releaseCheck_size_le e output.length
  unfold iterationInt iteration
  dsimp only
  rw [countDownInt_eq _ _ (by omega)]

/-- On a span of fewer than 2^31 samples `getBlockLoopInt` is `getBlockLoop`. -/
theorem getBlockLoopInt_eq (pow : ℚ → ℚ → ℚ) (cfg : Config) (fuel : Nat) :
    ∀ (e : ADSREnvelope) (output : List ℚ), output.length < 2147483648 →
      getBlockLoopInt pow cfg fuel e output = getBlockLoop pow cfg fuel e output := by
  induction fuel with
  | zero =>
    intro e output _
    cases output <;> rfl
  | succ fuel ih =>
    intro e output h
    cases output with
    | nil => rfl
    | cons x xs =>
      have hl := iteration_length pow cfg e (x :: xs)
      simp only [getBlockLoopInt, getBlockLoop]
      rw [iterationInt_eq pow cfg e (x :: xs) h, ih _ _ (by omega)]

theorem getBlockInt_eq (pow : ℚ → ℚ → ℚ) (cfg : Config) (e : ADSREnvelope)
    (output : List ℚ) (h : output.length < 2147483648) :
    getBlockInt pow cfg e output = getBlock pow cfg e output :=
  getBlockLoopInt_eq pow cfg _ e output h

/-- A pass over a span of `n + 1` samples in state `Done`, after a release that has
fired: the whole span is written and the pending-release counter becomes
`max (-1) (-1 - static_cast<int>(n + 1))`. -/
theorem iterationInt_done (pow : ℚ → ℚ → ℚ) (cfg : Config) (e : ADSREnvelope) (n : Nat)
    (hs : e.currentState = State.Done) (hr : e.shouldRelease = true)
    (hd : e.releaseDelay = -1) :
    (iterationInt pow cfg e (List.replicate (n + 1) 0)).env.releaseDelay
        = max (-1) (-1 - castInt (n + 1))
      ∧ (iterationInt pow cfg e (List.replicate (n + 1) 0)).env.shouldRelease = true
      ∧ (iterationInt pow cfg e (List.replicate (n + 1) 0)).rest = [] := by
  have hn : ¬ (e.shouldRelease = true ∧ e.releaseDelay = 0) := by
    rw [hd]
    rintro ⟨_, h⟩
    cases h
  have hc : releaseCheck e (List.replicate (n + 1) (0 : ℚ)).length = (e, n + 1) := by
    rw [List.length_replicate]
    unfold releaseCheck
    rw [if_neg hn, if_neg (by rw [hd]; rintro ⟨_, h⟩; omega)]
  unfold iterationInt
  dsimp only
  rw [hc]
  dsimp only
  have hsw : switchCase pow cfg e (n + 1) = doneCase e (n + 1) := by
    unfold switchCase
    rw [hs]
  rw [hsw]
  have hlen : (doneCase e (n + 1)).out.length = n + 1 := by
    simp only [doneCase, List.length_replicate]
  rw [hlen]
  refine ⟨?_, ?_, ?_⟩
  · unfold countDownInt
    have : (doneCase e (n + 1)).env.shouldRelease = true := hr
    rw [if_pos this]
    show max (-1) ((doneCase e (n + 1)).env.releaseDelay - castInt (n + 1)) = _
    have : (doneCase e (n + 1)).env.releaseDelay = -1 := hd
    rw [this]
  · unfold countDownInt
    have : (doneCase e (n + 1)).env.shouldRelease = true := hr
    rw [if_pos this]
    exact hr
  · rw [if_pos hs, List.length_replicate]
    exact List.drop_eq_nil_of_le (by rw [List.length_replicate])

/-- A call of `getBlock` for `n + 1` samples in state `Done`, after a release that has
fired: the call returns after one pass. -/
theorem getBlockInt_done (pow : ℚ → ℚ → ℚ) (cfg : Config) (e : ADSREnvelope) (n : Nat)
    (hs : e.currentState = State.Done) (hr : e.shouldRelease = true)
    (hd : e.releaseDelay = -1) :
    ∃ c, getBlockInt pow cfg e (List.replicate (n + 1) 0) = some c
      ∧ c.env.shouldRelease = true
      ∧ c.env.releaseDelay = max (-1) (-1 - castInt (n + 1)) := by
  obtain ⟨h1, h2, h3⟩ := iterationInt_done pow cfg e n hs hr hd
  have hp : passBound (List.replicate (n + 1) (0 : ℚ)).length
      = (32 * (n + 1) + 31) + 1 := by
    rw [List.length_replicate]
    rfl
  have hl : List.replicate (n + 1) (0 : ℚ) = 0 :: List.replicate n 0 := rfl
  unfold getBlockInt
  rw [hp]
  have hg : getBlockLoopInt pow cfg ((32 * (n + 1) + 31) + 1) e (List.replicate (n + 1) 0)
      = match getBlockLoopInt pow cfg (32 * (n + 1) + 31)
            (iterationInt pow cfg e (List.replicate (n + 1) 0)).env
            (iterationInt pow cfg e (List.replicate (n + 1) 0)).rest with
        | none => none
        | some c => some ⟨c.env, (iterationInt pow cfg e (List.replicate (n + 1) 0)).out
            ++ c.out, (iterationInt pow cfg e (List.replicate (n + 1) 0)).ops ++ c.ops⟩ := by
    rw [hl]
    rfl
  rw [hg, h3]
  have hnil : ∀ f e', getBlockLoopInt pow cfg f e' [] = some ⟨e', [], []⟩ := by
    intro f e'
    cases f <;> rfl
  rw [hnil]
  exact ⟨_, rfl, h2, h1⟩


theorem iterationInt_releaseDelay (pow : ℚ → ℚ → ℚ) (cfg : Config) (e : ADSREnvelope)
    (output : List ℚ) (hl : output.length < 2147483648)
    (h : e.releaseDelay = -1 ∨ e.releaseDelay = 0) :
    (iterationInt pow cfg e output).env.releaseDelay = -1
      ∨ (iterationInt pow cfg e output).env.releaseDelay = 0 := by
  rw [iterationInt_eq pow cfg e output hl]
  exact iteration_releaseDelay pow cfg e output h

/-- C24 (counterexample): a span of 2^31 samples makes the pending-release counter
positive. An envelope is reset, released with `startRelease(5)` and rendered for one
sample: it is in state `Done` with `releaseDelay = -1`. A call of `getBlock` for a span of
2^31 samples then returns (after one pass of the outer loop, which fills the span), and
because `static_cast<int>(count)` is -2^31 for `count = 2^31` it leaves
`releaseDelay = max(-1, -1 + 2^31) = 2147483647` with `shouldRelease` set: the counter is
neither -1 nor 0 and the test `shouldRelease && releaseDelay > 0` holds. -/
theorem long_span_rearms_release :
    ∃ e c, finishedEnvelope = some e
      ∧ e.currentState = State.Done ∧ e.shouldRelease = true ∧ e.releaseDelay = -1
      ∧ castInt 2147483648 = -2147483648
      ∧ getBlockInt powNat sampleConfig e (List.replicate 2147483648 0) = some c
      ∧ c.env.releaseDelay = 2147483647
      ∧ ¬ (c.env.releaseDelay = -1 ∨ c.env.releaseDelay = 0)
      ∧ (c.env.shouldRelease = true ∧ 0 < c.env.releaseDelay) := by
  have h : finishedEnvelope.map
      (fun e => (e.currentState, e.shouldRelease, e.releaseDelay))
      = some (State.Done, true, -1) := by decide!
  cases hf : finishedEnvelope with
  | none => simp [hf] at h
  | some e =>
    simp only [hf, Option.map_some', Option.some.injEq, Prod.mk.injEq] at h
    obtain ⟨hs, hr, hd⟩ := h
    have hc : castInt 2147483648 = -2147483648 := by decide
    obtain ⟨c, h1, h2, h3⟩ := getBlockInt_done powNat sampleConfig e 2147483647 hs hr hd
    have h4 : c.env.releaseDelay = 2147483647 := by
      rw [h3]
      show max (-1) (-1 - castInt 2147483648) = 2147483647
      rw [hc]
      decide
    refine ⟨e, c, rfl, hs, hr, hd, hc, h1, h4, ?_, h2, ?_⟩
    · rw [h4]
      decide
    · rw [h4]
      decide

/-- C24 (amended). The pending-release counter is never positive when the spans are
shorter than 2^31 samples. In every object that can be brought about from a
default-constructed object or from a `reset` of any object by `reset`, `getBlock` on
spans of fewer than 2^31 samples, `startRelease(d)` for any `d` and `setReleaseTime`,
between calls and between the passes of the outer loop of `getBlock`, `releaseDelay` is
-1 or 0; so the test `shouldRelease && releaseDelay > 0` fails and the release check
leaves the size of the segment as it is. -/
theorem releaseDelay_never_positive (pow : ℚ → ℚ → ℚ) (cfg : Config) (e : ADSREnvelope)
    (h : Driven pow cfg e) :
    (e.releaseDelay = -1 ∨ e.releaseDelay = 0)
      ∧ ¬ (e.shouldRelease = true ∧ 0 < e.releaseDelay)
      ∧ ∀ n, (releaseCheck e n).2 = n := by
  have hd : e.releaseDelay = -1 ∨ e.releaseDelay = 0 := by
    induction h with
    | init => exact Or.inr rfl
    | reset e desc o d sr => exact Or.inr rfl
    | pass x xs hl _ ih => exact iterationInt_releaseDelay pow cfg _ _ hl ih
    | getBlock output hl _ hc ih =>
      rw [getBlockInt_eq pow cfg _ output hl] at hc
      exact getBlockLoop_releaseDelay hc ih
    | startRelease d _ _ => exact Or.inr rfl
    | setReleaseTime t _ ih => exact ih
  have hn : ¬ (e.shouldRelease = true ∧ 0 < e.releaseDelay) := by
    rintro ⟨_, hp⟩
    rcases hd with hd | hd <;> omega
  refine ⟨hd, hn, fun n => ?_⟩
  unfold releaseCheck
  rw [if_neg hn]
  split <;> rfl

/-- An instance of `releaseDelay_never_positive`: a default-constructed object, released
with `startRelease(5)` and rendered for two samples. -/
theorem releaseDelay_never_positive_witness :
    ∃ c, getBlockInt powNat sampleConfig
        (startRelease (ADSREnvelope.init sampleConfig) 5) [0, 0] = some c
      ∧ c.env.shouldRelease = true
      ∧ (c.env.releaseDelay = -1 ∨ c.env.releaseDelay = 0)
      ∧ ¬ (c.env.shouldRelease = true ∧ 0 < c.env.releaseDelay)
      ∧ ∀ n, (releaseCheck c.env n).2 = n := by
  have h : (getBlockInt powNat sampleConfig
      (startRelease (ADSREnvelope.init sampleConfig) 5) [0, 0]).map
        (fun c => c.env.shouldRelease) = some true := by decide!
  cases hg : getBlockInt powNat sampleConfig
      (startRelease (ADSREnvelope.init sampleConfig) 5) [0, 0] with
  | none => simp [hg] at h
  | some c =>
    simp only [hg, Option.map_some', Option.some.injEq] at h
    exact ⟨c, rfl, h, releaseDelay_never_positive powNat sampleConfig c.env
      (Driven.getBlock [0, 0] (by decide)
        (Driven.startRelease 5 Driven.init) hg)⟩


/-- C23 (code defect): `reset` does not re-initialise the release start point. A fresh
object and an object that was released in an earlier use are reset with the same
arguments, for a one-shot oscillator (a free-running envelope that is never released by
a call), and rendered for four samples: the fresh object writes 1, 0, 0, 0 and the used
one 1, 1/2, 0, 0, because the release that starts by itself in `Sustain` reads the
`releaseValue` and `releaseCount` left over from before the `reset`. -/
theorem reset_keeps_release_point :
    oneShotSamples (ADSREnvelope.init sampleConfig) = some [1, 0, 0, 0]
      ∧ usedEnvelope.bind oneShotSamples = some [1, 1 / 2, 0, 0]
      ∧ usedEnvelope.map (fun u => (u.releaseValue, u.releaseCount)) = some (1, 1) := by
  decide!


theorem delayLoop_nonneg (e : ADSREnvelope) (k : Nat) (h0 : 0 ≤ e.start)
    (hv : 0 ≤ e.currentValue) :
    (∀ v ∈ (delayLoop e k).out, 0 ≤ v) ∧ 0 ≤ (delayLoop e k).env.currentValue := by
  induction k generalizing e with
  | zero => simp [delayLoop, hv]
  | succ k ih =>
    unfold delayLoop
    split
    · obtain ⟨k1, k2⟩ := ih
        { e with delay := e.delay - 1, currentValue := e.start, attackCount := 0 } h0 h0
      refine ⟨?_, k2⟩
      intro v hm
      simp only [Chunk.push, List.mem_cons] at hm
      rcases hm with rfl | hm
      · exact h0
      · exact k1 v hm
    · exact ⟨fun v hm => absurd hm (List.not_mem_nil v), hv⟩

theorem attackSample_nonneg (pow : ℚ → ℚ → ℚ) (hp : PowNonneg pow) (e : ADSREnvelope)
    (h0 : 0 ≤ e.start) (h1 : e.start ≤ 1) (ha : 0 ≤ e.attackCount)
    (hs : 0 ≤ e.attackStep) : 0 ≤ (attackSample pow e).currentValue := by
  have hc0 : 0 ≤ min (e.attackCount + e.attackStep) 1 := le_min (by linarith) (by norm_num)
  have hc1 : min (e.attackCount + e.attackStep) 1 ≤ 1 := min_le_right _ _
  have h1' : 0 ≤ 1 - e.start := by linarith
  unfold attackSample
  dsimp only
  split
  · rename_i hsh
    have := hp _ (-e.attackShape + 1) hc0 hc1 (by linarith)
    exact add_nonneg h0 (mul_nonneg h1' this)
  · rename_i hsh
    have hpos : 0 < 1 / e.attackShape := one_div_pos.mpr (not_le.mp hsh)
    have := hp _ (1 / e.attackShape + 1) hc0 hc1 (by linarith)
    exact add_nonneg h0 (mul_nonneg h1' this)

theorem attackLoop_nonneg (pow : ℚ → ℚ → ℚ) (hp : PowNonneg pow) (e : ADSREnvelope)
    (k : Nat) (h0 : 0 ≤ e.start) (h1 : e.start ≤ 1) (ha : 0 ≤ e.attackCount)
    (hs : 0 ≤ e.attackStep) (hv : 0 ≤ e.currentValue) :
    (∀ v ∈ (attackLoop pow e k).out, 0 ≤ v) ∧ 0 ≤ (attackLoop pow e k).env.currentValue := by
  induction k generalizing e with
  | zero => simp [attackLoop, hv]
  | succ k ih =>
    unfold attackLoop
    split
    · have hn := attackSample_nonneg pow hp e h0 h1 ha hs
      have hc0 : 0 ≤ (attackSample pow e).attackCount :=
        le_min (by linarith) (by norm_num)
      obtain ⟨k1, k2⟩ := ih (attackSample pow e) h0 h1 hc0 hs hn
      refine ⟨?_, k2⟩
      intro v hm
      simp only [Chunk.push, List.mem_cons] at hm
      rcases hm with rfl | hm
      · exact hn
      · exact k1 v hm
    · simp [hv]

theorem holdLoop_nonneg (e : ADSREnvelope) (k : Nat) (hv : 0 ≤ e.currentValue) :
    (∀ v ∈ (holdLoop e k).out, 0 ≤ v) ∧ 0 ≤ (holdLoop e k).env.currentValue := by
  induction k generalizing e with
  | zero => simp [holdLoop, hv]
  | succ k ih =>
    unfold holdLoop
    split
    · obtain ⟨k1, k2⟩ := ih { e with hold := e.hold - 1 } hv
      refine ⟨?_, k2⟩
      intro v hm
      simp only [Chunk.push, List.mem_cons] at hm
      rcases hm with rfl | hm
      · exact hv
      · exact k1 v hm
    · exact ⟨fun v hm => absurd hm (List.not_mem_nil v), hv⟩

theorem decaySample_nonneg (pow : ℚ → ℚ → ℚ) (hp : PowNonneg pow) (e : ADSREnvelope)
    (hs0 : 0 ≤ e.sustain) (hs1 : e.sustain ≤ 1) : 0 ≤ (decaySample pow e).currentValue := by
  have hc := clamp_unit (e.decayCount - e.decayRate * (1 - e.sustain))
  unfold decaySample
  dsimp only
  split
  · linarith [hc.1]
  · split
    · rename_i hz hneg
      have hx : 0 < -e.decayShape + 1 := by linarith
      have a := hp e.sustain _ hs0 hs1 (one_div_pos.mpr hx)
      have b := hp _ _ hc.1 hc.2 hx
      linarith
    · rename_i hz hneg
      have hx : 0 < e.decayShape + 1 := by
        have : 0 ≤ e.decayShape := not_lt.mp hneg
        linarith
      have a := hp e.sustain _ hs0 hs1 hx
      have b := hp _ _ hc.1 hc.2 (one_div_pos.mpr hx)
      linarith

theorem decayLoop_nonneg (pow : ℚ → ℚ → ℚ) (hp : PowNonneg pow) (e : ADSREnvelope)
    (k : Nat) (hs0 : 0 ≤ e.sustain) (hs1 : e.sustain ≤ 1) (hv : 0 ≤ e.currentValue) :
    (∀ v ∈ (decayLoop pow e k).out, 0 ≤ v) ∧ 0 ≤ (decayLoop pow e k).env.currentValue := by
  induction k generalizing e with
  | zero => simp [decayLoop, hv]
  | succ k ih =>
    unfold decayLoop
    split
    · have hn := decaySample_nonneg pow hp e hs0 hs1
      obtain ⟨k1, k2⟩ := ih (decaySample pow e) hs0 hs1 hn
      refine ⟨?_, k2⟩
      intro v hm
      simp only [Chunk.push, List.mem_cons] at hm
      rcases hm with rfl | hm
      · exact hn
      · exact k1 v hm
    · simp [hv]

theorem sustainLoop_nonneg (e : ADSREnvelope) (k : Nat) (hs0 : 0 ≤ e.sustain)
    (hv : 0 ≤ e.currentValue) :
    (∀ v ∈ (sustainLoop e k).out, 0 ≤ v) ∧ 0 ≤ (sustainLoop e k).env.currentValue := by
  induction k generalizing e with
  | zero => simp [sustainLoop, hv]
  | succ k ih =>
    unfold sustainLoop
    have hn : 0 ≤ max e.sustain (e.currentValue + e.transitionDelta) :=
      le_max_of_le_left hs0
    obtain ⟨k1, k2⟩ := ih
      { e with currentValue := max e.sustain (e.currentValue + e.transitionDelta) } hs0 hn
    refine ⟨?_, k2⟩
    intro v hm
    simp only [Chunk.push, List.mem_cons] at hm
    rcases hm with rfl | hm
    · exact hn
    · exact k1 v hm

theorem releaseSample_nonneg (pow : ℚ → ℚ → ℚ) (hp : PowNonneg pow) (e : ADSREnvelope)
    (hr : 0 ≤ e.releaseValue) : 0 ≤ (releaseSample pow e).currentValue := by
  have hc := clamp_unit (e.releaseCount - e.releaseRate)
  unfold releaseSample
  dsimp only
  split
  · rename_i hsh
    exact mul_nonneg hr (hp _ _ hc.1 hc.2 (by linarith))
  · rename_i hsh
    have hx : 0 < e.releaseShape * 1 + 1 := by
      have : 0 < e.releaseShape := not_le.mp hsh
      linarith
    exact mul_nonneg hr (hp _ _ hc.1 hc.2 (one_div_pos.mpr hx))

theorem releaseLoop_nonneg (pow : ℚ → ℚ → ℚ) (hp : PowNonneg pow) (cfg : Config)
    (e : ADSREnvelope) (k : Nat) (hr : 0 ≤ e.releaseValue) (hv : 0 ≤ e.currentValue) :
    (∀ v ∈ (releaseLoop pow cfg e k).out, 0 ≤ v)
      ∧ 0 ≤ (releaseLoop pow cfg e k).env.currentValue := by
  induction k generalizing e with
  | zero => simp [releaseLoop, hv]
  | succ k ih =>
    unfold releaseLoop
    split
    · have hn := releaseSample_nonneg pow hp e hr
      obtain ⟨k1, k2⟩ := ih (releaseSample pow e) hr hn
      refine ⟨?_, k2⟩
      intro v hm
      simp only [Chunk.push, List.mem_cons] at hm
      rcases hm with rfl | hm
      · exact hn
      · exact k1 v hm
    · simp [hv]

theorem fadeoutLoop_pos (e : ADSREnvelope) (k : Nat) :
    ∀ v ∈ (fadeoutLoop e k).out, 0 < v := by
  induction k generalizing e with
  | zero => simp [fadeoutLoop]
  | succ k ih =>
    unfold fadeoutLoop
    dsimp only
    split
    · rename_i hpos
      intro v hm
      simp only [Chunk.push, List.mem_cons] at hm
      rcases hm with rfl | hm
      · exact hpos
      · exact ih _ v hm
    · simp


/-- One pass of the `switch` writes no negative sample and leaves no negative value. -/
theorem switchCase_nonneg (pow : ℚ → ℚ → ℚ) (hp : PowNonneg pow) (cfg : Config)
    (e : ADSREnvelope) (size : Nat) (h : Sound e) :
    (∀ v ∈ (switchCase pow cfg e size).out, 0 ≤ v)
      ∧ 0 ≤ (switchCase pow cfg e size).env.currentValue := by
  unfold switchCase
  split
  · obtain ⟨k1, k2⟩ := delayLoop_nonneg e size h.start_nonneg h.currentValue
    unfold delayCase
    dsimp only
    refine ⟨k1, ?_⟩
    split <;> exact k2
  · rename_i hs
    obtain ⟨k1, k2⟩ := attackLoop_nonneg pow hp e size h.start_nonneg h.start_le
      (h.attackCount hs) h.attackStep h.currentValue
    unfold attackCase
    dsimp only
    refine ⟨k1, ?_⟩
    split
    · show (0 : ℚ) ≤ 1
      norm_num
    · exact k2
  · obtain ⟨k1, k2⟩ := holdLoop_nonneg e size h.currentValue
    unfold holdCase
    dsimp only
    refine ⟨k1, ?_⟩
    split <;> exact k2
  · obtain ⟨k1, k2⟩ := decayLoop_nonneg pow hp e size h.sustain_nonneg h.sustain_le
      h.currentValue
    unfold decayCase
    dsimp only
    split
    · exact ⟨k1, le_max_of_le_right k2⟩
    · exact ⟨k1, k2⟩
  · unfold sustainCase
    split
    · exact ⟨fun v hm => absurd hm (List.not_mem_nil v), h.currentValue⟩
    · exact sustainLoop_nonneg e size h.sustain_nonneg h.currentValue
  · obtain ⟨k1, k2⟩ := releaseLoop_nonneg pow hp cfg e size h.releaseValue h.currentValue
    unfold releaseCase
    dsimp only
    split
    · exact ⟨k1, k2⟩
    · exact ⟨k1, k2⟩
  · have k1 := fadeoutLoop_pos e size
    unfold fadeoutCase
    dsimp only
    refine ⟨fun v hm => (k1 v hm).le, ?_⟩
    split
    · exact le_refl _
    · rename_i hn
      exact (not_le.mp hn).le
  · unfold doneCase
    refine ⟨fun v hm => ?_, le_refl _⟩
    rw [List.eq_of_mem_replicate hm]

theorem releaseCheck_currentValue (e : ADSREnvelope) (n : Nat) :
    (releaseCheck e n).1.currentValue = e.currentValue := by
  rcases releaseCheck_cases e n with ⟨he, _, _⟩ | ⟨he, _⟩ <;> rw [he]

/-- One pass of the outer loop keeps the numeric facts and writes no negative sample. -/
theorem iteration_sound (pow : ℚ → ℚ → ℚ) (hp : PowNonneg pow) (cfg : Config)
    (e : ADSREnvelope) (x : ℚ) (xs : List ℚ) (h : Sound e) :
    Sound (iteration pow cfg e (x :: xs)).env
      ∧ ∀ v ∈ (iteration pow cfg e (x :: xs)).out, 0 ≤ v := by
  have hst := releaseCheck_static e (x :: xs).length
  have hs := iteration_static pow cfg e (x :: xs)
  have h1 : Sound (releaseCheck e (x :: xs).length).1 := by
    refine ⟨?_, ?_, ?_, ?_, ?_, ?_, ?_, ?_⟩
    · rw [hst.start]; exact h.start_nonneg
    · rw [hst.start]; exact h.start_le
    · rw [hst.sustain]; exact h.sustain_nonneg
    · rw [hst.sustain]; exact h.sustain_le
    · rw [hst.attackStep]; exact h.attackStep
    · rw [hst.releaseValue]; exact h.releaseValue
    · rw [releaseCheck_currentValue]; exact h.currentValue
    · rcases releaseCheck_cases e (x :: xs).length with ⟨he, _, _⟩ | ⟨he, _⟩
      · rw [he]
        intro hc
        simp at hc
      · rw [he]
        exact h.attackCount
  obtain ⟨k1, k2⟩ := switchCase_nonneg pow hp cfg _ (releaseCheck e (x :: xs).length).2 h1
  refine ⟨⟨?_, ?_, ?_, ?_, ?_, ?_, ?_, ?_⟩, k1⟩
  · rw [hs.start]; exact h.start_nonneg
  · rw [hs.start]; exact h.start_le
  · rw [hs.sustain]; exact h.sustain_nonneg
  · rw [hs.sustain]; exact h.sustain_le
  · rw [hs.attackStep]; exact h.attackStep
  · rw [hs.releaseValue]; exact h.releaseValue
  · show 0 ≤ (countDown _ _).currentValue
    rw [countDown_currentValue]
    exact k2
  · exact (iteration_defined pow cfg e x xs h.sustain_nonneg h.sustain_le h.attackStep
      h.attackCount).1

theorem sound_init (cfg : Config) : Sound (ADSREnvelope.init cfg) :=
  ⟨le_refl _, zero_le_one, le_refl _, zero_le_one, le_refl _, le_refl _, le_refl _,
    fun _ => le_refl _⟩

theorem fromDefault_sound {pow : ℚ → ℚ → ℚ} (hp : PowNonneg pow) {cfg : Config}
    {e : ADSREnvelope} (h : FromDefault pow cfg e) : Sound e := by
  induction h with
  | init => exact sound_init cfg
  | @reset e desc o d sr hsr _ ih =>
    refine ⟨(clamp_unit _).1, (clamp_unit _).2, (clamp_unit _).1, (clamp_unit _).2,
      (secondsToLinRate_pos _ _ hsr).le, ih.releaseValue, (clamp_unit _).1, ?_⟩
    intro hc
    simp [reset] at hc
  | @getBlock e output c _ hc ih =>
    exact (getBlockLoop_rule (fun _ e' => Sound e') (fun v => 0 ≤ v) (fun _ => True)
      (fun e' x xs hP =>
        ⟨(iteration_sound pow hp cfg e' x xs hP).1, (iteration_sound pow hp cfg e' x xs hP).2,
          fun _ _ => trivial⟩)
      _ e output c ih hc).1
  | @startRelease e d _ ih =>
    refine ⟨ih.start_nonneg, ih.start_le, ih.sustain_nonneg, ih.sustain_le, ih.attackStep,
      ?_, ih.currentValue, ih.attackCount⟩
    show 0 ≤ (if e.currentValue < 1 / 100000 then e.sustain else e.currentValue)
    split
    · exact ih.sustain_nonneg
    · exact ih.currentValue
  | @setReleaseTime e t _ ih =>
    exact ⟨ih.start_nonneg, ih.start_le, ih.sustain_nonneg, ih.sustain_le, ih.attackStep,
      ih.releaseValue, ih.currentValue, ih.attackCount⟩

theorem fromDefault_threshold {pow : ℚ → ℚ → ℚ} {cfg : Config} {e : ADSREnvelope}
    (h : FromDefault pow cfg e) : e.sustainThreshold = e.sustain + cfg.virtuallyZero := by
  induction h with
  | init => exact (zero_add _).symm
  | reset desc o d sr _ _ _ => rfl
  | getBlock output _ hc ih =>
    have hs := getBlockLoop_static hc
    rw [hs.sustainThreshold, hs.sustain]
    exact ih
  | startRelease d _ ih => exact ih
  | setReleaseTime t _ ih => exact ih

/-- C25. The envelope output is never negative. For every envelope that comes about from
a default-constructed object by `reset` with a positive sample rate, `getBlock`,
`startRelease` and `setReleaseTime`, a call of `getBlock` returns with every position
written, and every sample it writes is at least 0. The power function is not negative on
the unit interval, and `config::virtuallyZero` is not negative. -/
theorem output_never_negative (pow : ℚ → ℚ → ℚ) (hp : PowNonneg pow) (cfg : Config)
    (hz : 0 ≤ cfg.virtuallyZero) (e : ADSREnvelope) (h : FromDefault pow cfg e)
    (output : List ℚ) :
    ∃ c, getBlock pow cfg e output = some c ∧ c.out.length = output.length
      ∧ ∀ v ∈ c.out, 0 ≤ v := by
  have hth : e.sustain ≤ e.sustainThreshold := by
    rw [fromDefault_threshold h]
    linarith
  obtain ⟨c, hc, hl, -⟩ := getBlock_total_of_threshold pow cfg e hth output
  refine ⟨c, hc, hl, ?_⟩
  exact (getBlockLoop_rule (fun _ e' => Sound e') (fun v => 0 ≤ v) (fun _ => True)
    (fun e' x xs hP =>
      ⟨(iteration_sound pow hp cfg e' x xs hP).1, (iteration_sound pow hp cfg e' x xs hP).2,
        fun _ _ => trivial⟩)
    _ e output c (fromDefault_sound hp h) hc).2.1

theorem powNat_nonneg : PowNonneg powNat :=
  fun b x h0 h1 hx => (powNat_order.unit_range b x h0 h1 hx).1

theorem output_never_negative_witness :
    ∃ c, getBlock powNat sampleConfig
        (startRelease
          (reset sampleConfig (ADSREnvelope.init sampleConfig) slowReleaseDesc false 0 4) 0)
        [0, 0, 0] = some c
      ∧ c.out.length = [(0 : ℚ), 0, 0].length ∧ ∀ v ∈ c.out, 0 ≤ v :=
  output_never_negative powNat powNat_nonneg sampleConfig (by decide!) _
    (FromDefault.startRelease 0
      (FromDefault.reset slowReleaseDesc false 0 4 (by norm_num) FromDefault.init))
    [0, 0, 0]


theorem fadeoutRamp_succ (v d : ℚ) (m : Nat) :
    fadeoutRamp v d (m + 1) = (v + d) :: fadeoutRamp (v + d) d m := by
  unfold fadeoutRamp
  rw [List.range_succ_eq_map, List.map_cons, List.map_map]
  refine congrArg₂ _ (by simp) ?_
  apply List.map_congr_left
  intro i _
  simp only [Function.comp, Nat.cast_succ]
  ring

theorem fadeoutRamp_append (v d : ℚ) (a b : Nat) :
    fadeoutRamp v d a ++ fadeoutRamp (v + (a : ℚ) * d) d b = fadeoutRamp v d (a + b) := by
  induction a generalizing v with
  | zero => simp [fadeoutRamp]
  | succ a ih =>
    have h : v + ((a + 1 : Nat) : ℚ) * d = (v + d) + (a : ℚ) * d := by
      push_cast
      ring
    rw [fadeoutRamp_succ, List.cons_append, h, ih (v + d), Nat.add_right_comm,
      fadeoutRamp_succ]

theorem rampLength_succ (v d : ℚ) (n : Nat) :
    rampLength v d (n + 1) = if 0 < v + d then rampLength (v + d) d n + 1 else 0 := rfl

theorem rampLength_le (v d : ℚ) (n : Nat) : rampLength v d n ≤ n := by
  induction n generalizing v with
  | zero => exact le_refl _
  | succ n ih =>
    unfold rampLength
    split
    · exact Nat.succ_le_succ (ih _)
    · exact Nat.zero_le _

theorem rampLength_pos (v d : ℚ) (n : Nat) :
    ∀ i < rampLength v d n, 0 < v + ((i : ℚ) + 1) * d := by
  induction n generalizing v with
  | zero =>
    intro i hi
    simp [rampLength] at hi
  | succ n ih =>
    intro i hi
    unfold rampLength at hi
    split at hi
    · rename_i hp
      cases i with
      | zero => simpa using hp
      | succ i =>
        have := ih (v + d) i (by omega)
        have hc : v + (((i + 1 : Nat) : ℚ) + 1) * d = v + d + ((i : ℚ) + 1) * d := by
          push_cast
          ring
        rw [hc]
        exact this
    · omega

theorem rampLength_stop (v d : ℚ) (n : Nat) (h : rampLength v d n < n) :
    v + ((rampLength v d n : ℚ) + 1) * d ≤ 0 := by
  induction n generalizing v with
  | zero => omega
  | succ n ih =>
    unfold rampLength at h ⊢
    split
    · rename_i hp
      rw [if_pos hp] at h
      have := ih (v + d) (by omega)
      have hc : v + (((rampLength (v + d) d n + 1 : Nat) : ℚ) + 1) * d
          = v + d + ((rampLength (v + d) d n : ℚ) + 1) * d := by
        push_cast
        ring
      rw [hc]
      exact this
    · rename_i hp
      simpa using not_lt.mp hp

theorem rampLength_add (v d : ℚ) (a b : Nat) :
    rampLength v d (a + b)
      = if rampLength v d a = a then a + rampLength (v + (a : ℚ) * d) d b
        else rampLength v d a := by
  induction a generalizing v with
  | zero => simp [rampLength]
  | succ a ih =>
    have h : v + ((a + 1 : Nat) : ℚ) * d = (v + d) + (a : ℚ) * d := by
      push_cast
      ring
    rw [Nat.add_right_comm, rampLength_succ v d (a + b), rampLength_succ v d a]
    by_cases hp : 0 < v + d
    · rw [if_pos hp, if_pos hp, ih (v + d), h]
      by_cases hq : rampLength (v + d) d a = a
      · rw [if_pos hq, if_pos (by omega)]
        omega
      · rw [if_neg hq, if_neg (by omega)]
    · rw [if_neg hp, if_neg hp, if_neg (by omega)]

/-- The loop of `case State::Fadeout` writes the ramp, as far as it is positive. -/
theorem fadeoutLoop_ramp (k : Nat) : ∀ e : ADSREnvelope,
    (fadeoutLoop e k).out
        = fadeoutRamp e.currentValue e.transitionDelta
            (rampLength e.currentValue e.transitionDelta k)
      ∧ (rampLength e.currentValue e.transitionDelta k = k →
          (fadeoutLoop e k).env.currentValue = e.currentValue + (k : ℚ) * e.transitionDelta
          ∧ (0 < k → 0 < (fadeoutLoop e k).env.currentValue))
      ∧ (rampLength e.currentValue e.transitionDelta k < k →
          (fadeoutLoop e k).env.currentValue ≤ 0) := by
  induction k with
  | zero =>
    intro e
    refine ⟨rfl, fun _ => ⟨?_, fun h => absurd h (lt_irrefl 0)⟩, fun h => absurd h (lt_irrefl 0)⟩
    show e.currentValue = e.currentValue + ((0 : Nat) : ℚ) * e.transitionDelta
    simp
  | succ k ih =>
    intro e
    obtain ⟨i1, i2, i3⟩ := ih { e with currentValue := e.currentValue + e.transitionDelta }
    dsimp only at i1 i2 i3
    by_cases hp : 0 < e.currentValue + e.transitionDelta
    · have hl : rampLength e.currentValue e.transitionDelta (k + 1)
          = rampLength (e.currentValue + e.transitionDelta) e.transitionDelta k + 1 := by
        rw [rampLength, if_pos hp]
      have hf : fadeoutLoop e (k + 1)
          = Chunk.push (e.currentValue + e.transitionDelta) []
              (fadeoutLoop { e with currentValue := e.currentValue + e.transitionDelta } k) := by
        rw [fadeoutLoop]
        exact if_pos hp
      rw [hl, hf]
      refine ⟨?_, ?_, ?_⟩
      · rw [fadeoutRamp_succ]
        exact congrArg _ i1
      · intro hk
        obtain ⟨j1, j2⟩ := i2 (by omega)
        refine ⟨?_, fun _ => ?_⟩
        · show (fadeoutLoop _ k).env.currentValue = _
          rw [j1]
          push_cast
          ring
        · show 0 < (fadeoutLoop _ k).env.currentValue
          cases k with
          | zero => exact hp
          | succ k => exact j2 (Nat.succ_pos k)
      · intro hk
        exact i3 (by omega)
    · have hl : rampLength e.currentValue e.transitionDelta (k + 1) = 0 := by
        rw [rampLength, if_neg hp]
      have hf : fadeoutLoop e (k + 1)
          = ⟨{ e with currentValue := e.currentValue + e.transitionDelta }, [], []⟩ := by
        rw [fadeoutLoop]
        exact if_neg hp
      rw [hl, hf]
      refine ⟨rfl, fun hk => absurd hk (by omega), fun _ => not_lt.mp hp⟩


theorem releaseCheck_fired (e : ADSREnvelope) (n : Nat) (h : e.releaseDelay = -1) :
    releaseCheck e n = (e, n) := by
  unfold releaseCheck
  rw [if_neg (fun hc => by rw [h] at hc; exact absurd hc.2 (by decide)),
    if_neg (fun hc => by rw [h] at hc; exact absurd hc.2 (by decide))]

theorem countDown_finished (e : ADSREnvelope) (n : Nat) (h : Finished e) :
    Finished (countDown e n) := by
  obtain ⟨h1, h2, h3⟩ := h
  refine ⟨?_, by rw [countDown_currentState]; exact h2,
    by rw [countDown_currentValue]; exact h3⟩
  unfold countDown
  split
  · show max (-1) (e.releaseDelay - (n : Int)) = -1
    rw [h1]
    exact max_eq_left (by omega)
  · exact h1

/-- A pass in state `Fadeout` after a fired release writes the ramp as far as it is
positive; when the ramp ends within the span, the object is `Done` with value 0. -/
theorem iteration_fading (pow : ℚ → ℚ → ℚ) (cfg : Config) (v d : ℚ) (e : ADSREnvelope)
    (x : ℚ) (xs : List ℚ) (h : Fading v d e) :
    (iteration pow cfg e (x :: xs)).out = fadeoutRamp v d (rampLength v d (xs.length + 1))
      ∧ (iteration pow cfg e (x :: xs)).rest.length
          = xs.length + 1 - rampLength v d (xs.length + 1)
      ∧ (rampLength v d (xs.length + 1) = xs.length + 1 →
          Fading (v + ((xs.length + 1 : Nat) : ℚ) * d) d (iteration pow cfg e (x :: xs)).env)
      ∧ (rampLength v d (xs.length + 1) < xs.length + 1 →
          Finished (iteration pow cfg e (x :: xs)).env) := by
  obtain ⟨hs, hr, hd, ht, hv⟩ := h
  have hf := fadeoutLoop_frame e (xs.length + 1)
  obtain ⟨r1, r2, r3⟩ := fadeoutLoop_ramp (xs.length + 1) e
  rw [ht, hv] at r1 r2 r3
  have hlen : (fadeoutRamp v d (rampLength v d (xs.length + 1))).length
      = rampLength v d (xs.length + 1) := by
    simp [fadeoutRamp]
  have hrc : releaseCheck e (x :: xs).length = (e, xs.length + 1) :=
    releaseCheck_fired e _ hd
  have hsw : switchCase pow cfg e (xs.length + 1) = fadeoutCase e (xs.length + 1) := by
    unfold switchCase
    rw [hs]
  have hout : (iteration pow cfg e (x :: xs)).out = (fadeoutLoop e (xs.length + 1)).out := by
    unfold iteration
    rw [hrc]
    dsimp only
    rw [hsw]
    rfl
  have hrest : (iteration pow cfg e (x :: xs)).rest
      = (x :: xs).drop (fadeoutLoop e (xs.length + 1)).out.length := by
    unfold iteration
    rw [hrc]
    dsimp only
    rw [hsw, if_neg (by rw [hs]; decide)]
    rfl
  have henv : (iteration pow cfg e (x :: xs)).env
      = countDown (fadeoutCase e (xs.length + 1)).env
          (fadeoutLoop e (xs.length + 1)).out.length := by
    unfold iteration
    rw [hrc]
    dsimp only
    rw [hsw]
    rfl
  refine ⟨by rw [hout, r1], ?_, ?_, ?_⟩
  · rw [hrest, List.length_drop, r1, hlen]
    rfl
  · intro hm
    obtain ⟨j1, j2⟩ := r2 hm
    have hpos := j2 (Nat.succ_pos _)
    have hc : (fadeoutCase e (xs.length + 1)).env = (fadeoutLoop e (xs.length + 1)).env := by
      unfold fadeoutCase
      dsimp only
      rw [if_neg (not_le.mpr hpos)]
    rw [henv, hc, countDown_fired _ _ (by rw [hf.shouldRelease]; exact hr)
      (by rw [hf.releaseDelay]; exact hd)]
    exact ⟨by rw [hf.currentState]; exact hs, by rw [hf.shouldRelease]; exact hr,
      by rw [hf.releaseDelay]; exact hd, by rw [hf.transitionDelta]; exact ht, j1⟩
  · intro hm
    have hle := r3 hm
    have hc : (fadeoutCase e (xs.length + 1)).env
        = { (fadeoutLoop e (xs.length + 1)).env with
            currentState := State.Done, currentValue := 0 } := by
      unfold fadeoutCase
      dsimp only
      rw [if_pos hle]
    rw [henv, hc]
    apply countDown_finished
    exact ⟨by show (fadeoutLoop e (xs.length + 1)).env.releaseDelay = -1
              rw [hf.releaseDelay]; exact hd, rfl, rfl⟩

/-- A pass in state `Done` after a fired release fills the span with zeros. -/
theorem iteration_finished (pow : ℚ → ℚ → ℚ) (cfg : Config) (e : ADSREnvelope) (x : ℚ)
    (xs : List ℚ) (h : Finished e) :
    (iteration pow cfg e (x :: xs)).out = List.replicate (xs.length + 1) 0
      ∧ (iteration pow cfg e (x :: xs)).rest = []
      ∧ Finished (iteration pow cfg e (x :: xs)).env := by
  obtain ⟨hd, hs, hv⟩ := h
  have hrc : releaseCheck e (x :: xs).length = (e, xs.length + 1) :=
    releaseCheck_fired e _ hd
  have hsw : switchCase pow cfg e (xs.length + 1) = doneCase e (xs.length + 1) := by
    unfold switchCase
    rw [hs]
  refine ⟨?_, ?_, ?_⟩
  · unfold iteration
    rw [hrc]
    dsimp only
    rw [hsw]
    rfl
  · unfold iteration
    rw [hrc]
    dsimp only
    rw [hsw, if_pos hs]
    simp [doneCase]
  · have henv : (iteration pow cfg e (x :: xs)).env
        = countDown (doneCase e (xs.length + 1)).env
            (doneCase e (xs.length + 1)).out.length := by
      unfold iteration
      rw [hrc]
      dsimp only
      rw [hsw]
    rw [henv]
    exact countDown_finished _ _ ⟨hd, hs, rfl⟩

theorem getBlockLoop_step (pow : ℚ → ℚ → ℚ) (cfg : Config) (fuel : Nat) (e : ADSREnvelope)
    (x : ℚ) (xs : List ℚ) (d : Chunk)
    (h : getBlockLoop pow cfg fuel (iteration pow cfg e (x :: xs)).env
      (iteration pow cfg e (x :: xs)).rest = some d) :
    getBlockLoop pow cfg (fuel + 1) e (x :: xs)
      = some ⟨d.env, (iteration pow cfg e (x :: xs)).out ++ d.out,
          (iteration pow cfg e (x :: xs)).ops ++ d.ops⟩ := by
  simp only [getBlockLoop, h]

theorem getBlockLoop_finished (pow : ℚ → ℚ → ℚ) (cfg : Config) (fuel : Nat)
    (e : ADSREnvelope) (output : List ℚ) (h : Finished e) :
    ∃ c, getBlockLoop pow cfg (fuel + 1) e output = some c
      ∧ c.out = List.replicate output.length 0 ∧ Finished c.env := by
  cases output with
  | nil => exact ⟨⟨e, [], []⟩, rfl, rfl, h⟩
  | cons x xs =>
    obtain ⟨i1, i2, i3⟩ := iteration_finished pow cfg e x xs h
    have hd : getBlockLoop pow cfg fuel (iteration pow cfg e (x :: xs)).env
        (iteration pow cfg e (x :: xs)).rest
        = some ⟨(iteration pow cfg e (x :: xs)).env, [], []⟩ := by
      rw [i2]
      cases fuel <;> rfl
    refine ⟨_, getBlockLoop_step pow cfg fuel e x xs _ hd, ?_, i3⟩
    show (iteration pow cfg e (x :: xs)).out ++ [] = _
    rw [List.append_nil, i1]
    rfl

theorem getBlockLoop_fading (pow : ℚ → ℚ → ℚ) (cfg : Config) (fuel : Nat) (v d : ℚ)
    (e : ADSREnvelope) (output : List ℚ) (h : Fading v d e) :
    ∃ c, getBlockLoop pow cfg (fuel + 2) e output = some c
      ∧ c.out = fadeoutRamp v d (rampLength v d output.length)
          ++ List.replicate (output.length - rampLength v d output.length) 0
      ∧ (rampLength v d output.length = output.length →
          Fading (v + (output.length : ℚ) * d) d c.env)
      ∧ (rampLength v d output.length < output.length → Finished c.env) := by
  cases output with
  | nil =>
    refine ⟨⟨e, [], []⟩, rfl, rfl, fun _ => ?_, fun hc => absurd hc (by simp [rampLength])⟩
    obtain ⟨h1, h2, h3, h4, h5⟩ := h
    refine ⟨h1, h2, h3, h4, ?_⟩
    rw [h5]
    simp
  | cons x xs =>
    obtain ⟨i1, i2, i3, i4⟩ := iteration_fading pow cfg v d e x xs h
    have hle := rampLength_le v d (xs.length + 1)
    by_cases hm : rampLength v d (xs.length + 1) = xs.length + 1
    · have hnil : (iteration pow cfg e (x :: xs)).rest = [] := by
        apply List.eq_nil_of_length_eq_zero
        rw [i2, hm]
        exact Nat.sub_self _
      have hd : getBlockLoop pow cfg (fuel + 1) (iteration pow cfg e (x :: xs)).env
          (iteration pow cfg e (x :: xs)).rest
          = some ⟨(iteration pow cfg e (x :: xs)).env, [], []⟩ := by
        rw [hnil]
        rfl
      refine ⟨_, getBlockLoop_step pow cfg (fuel + 1) e x xs _ hd, ?_, fun _ => i3 hm,
        fun hc => absurd hc (by simp only [List.length_cons]; omega)⟩
      show (iteration pow cfg e (x :: xs)).out ++ [] = _
      simp only [List.length_cons]
      rw [List.append_nil, i1, hm, Nat.sub_self]
      simp
    · have hlt : rampLength v d (xs.length + 1) < xs.length + 1 := by omega
      obtain ⟨c, hc, hout, hfin⟩ := getBlockLoop_finished pow cfg fuel
        (iteration pow cfg e (x :: xs)).env (iteration pow cfg e (x :: xs)).rest (i4 hlt)
      refine ⟨_, getBlockLoop_step pow cfg (fuel + 1) e x xs c hc, ?_,
        fun he => absurd he (by simp only [List.length_cons]; exact hm), fun _ => hfin⟩
      show (iteration pow cfg e (x :: xs)).out ++ c.out = _
      simp only [List.length_cons]
      rw [i1, hout, i2]


theorem getBlock_fuel (n : Nat) : passBound n = (32 * n + 30) + 2 := by
  unfold passBound
  omega

theorem getBlocks_finished (pow : ℚ → ℚ → ℚ) (cfg : Config) (blocks : List (List ℚ)) :
    ∀ e : ADSREnvelope, Finished e →
      ∃ r, getBlocks pow cfg e blocks = some r
        ∧ r.out = List.replicate (blocks.map List.length).sum 0 ∧ Finished r.env := by
  induction blocks with
  | nil => exact fun e h => ⟨⟨e, [], []⟩, rfl, rfl, h⟩
  | cons b bs ih =>
    intro e h
    obtain ⟨c, hc, hout, hfin⟩ := getBlockLoop_finished pow cfg (32 * b.length + 31) e b h
    obtain ⟨r, hr, hrout, hrfin⟩ := ih c.env hfin
    have hb : getBlock pow cfg e b = some c := hc
    refine ⟨⟨r.env, c.out ++ r.out, c.ops ++ r.ops⟩, ?_, ?_, hrfin⟩
    · simp only [getBlocks, hb, hr]
    · show c.out ++ r.out = _
      rw [hout, hrout, List.map_cons, List.sum_cons, List.replicate_add]

/-- Successive calls of `getBlock` in state `Fadeout` after a fired release write the
ramp as far as it is positive and zeros from there on, however the calls divide the
samples. -/
theorem getBlocks_fading (pow : ℚ → ℚ → ℚ) (cfg : Config) (d : ℚ)
    (blocks : List (List ℚ)) : ∀ (v : ℚ) (e : ADSREnvelope), Fading v d e →
      ∃ r, getBlocks pow cfg e blocks = some r
        ∧ r.out = fadeoutRamp v d (rampLength v d (blocks.map List.length).sum)
            ++ List.replicate
              ((blocks.map List.length).sum - rampLength v d (blocks.map List.length).sum) 0
        ∧ (rampLength v d (blocks.map List.length).sum < (blocks.map List.length).sum →
            Finished r.env) := by
  induction blocks with
  | nil =>
    intro v e _
    exact ⟨⟨e, [], []⟩, rfl, rfl, fun hc => absurd hc (by simp [rampLength])⟩
  | cons b bs ih =>
    intro v e h
    obtain ⟨c, hc, hout, hfad, hfin⟩ :=
      getBlockLoop_fading pow cfg (32 * b.length + 30) v d e b h
    have hb : getBlock pow cfg e b = some c := by
      unfold getBlock
      rw [getBlock_fuel]
      exact hc
    have hle := rampLength_le v d b.length
    have hadd := rampLength_add v d b.length (bs.map List.length).sum
    rw [List.map_cons, List.sum_cons]
    by_cases hm : rampLength v d b.length = b.length
    · rw [if_pos hm] at hadd
      obtain ⟨r, hr, hrout, hrfin⟩ := ih _ c.env (hfad hm)
      refine ⟨⟨r.env, c.out ++ r.out, c.ops ++ r.ops⟩, ?_, ?_, ?_⟩
      · simp only [getBlocks, hb, hr]
      · show c.out ++ r.out = _
        rw [hout, hrout, hm, Nat.sub_self, List.replicate_zero, List.append_nil,
          ← List.append_assoc, fadeoutRamp_append, hadd, Nat.add_sub_add_left]
      · intro hlt
        exact hrfin (by omega)
    · rw [if_neg hm] at hadd
      have hlt : rampLength v d b.length < b.length := by omega
      obtain ⟨r, hr, hrout, hrfin⟩ := getBlocks_finished pow cfg bs c.env (hfin hlt)
      refine ⟨⟨r.env, c.out ++ r.out, c.ops ++ r.ops⟩, ?_, ?_, fun _ => hrfin⟩
      · simp only [getBlocks, hb, hr]
      · show c.out ++ r.out = _
        rw [hout, hrout, hadd, List.append_assoc, ← List.replicate_add]
        congr 2
        omega

/-- The ramp that starts at `v` with the step of the `Release` exit writes fewer samples
than `sampleRate * egTransitionTime`. -/
theorem rampLength_bound (thr v p : ℚ) (n : Nat) (hthr : 0 < thr) (hp : 0 < p) :
    rampLength v (-(max thr v) / p) n ≤ ⌈p⌉₊ := by
  by_cases h0 : rampLength v (-(max thr v) / p) n = 0
  · rw [h0]
    exact Nat.zero_le _
  · obtain ⟨m, hm⟩ : ∃ m, rampLength v (-(max thr v) / p) n = m + 1 :=
      ⟨rampLength v (-(max thr v) / p) n - 1, by omega⟩
    have hpos := rampLength_pos v (-(max thr v) / p) n m (by omega)
    have hmax : 0 < max thr v := lt_max_of_lt_left hthr
    have hv : v ≤ max thr v := le_max_right _ _
    have hlt : ((m : ℚ) + 1) < p := by
      by_contra hc
      have hge : p ≤ (m : ℚ) + 1 := not_lt.mp hc
      have h1 : max thr v ≤ ((m : ℚ) + 1) * (max thr v / p) := by
        rw [mul_div_assoc', le_div_iff₀ hp]
        nlinarith
      have h2 : ((m : ℚ) + 1) * (-(max thr v) / p) = -(((m : ℚ) + 1) * (max thr v / p)) := by
        ring
      rw [h2] at hpos
      linarith
    rw [hm]
    have : ((m + 1 : Nat) : ℚ) ≤ (⌈p⌉₊ : ℚ) := by
      push_cast
      exact le_trans hlt.le (Nat.le_ceil p)
    exact_mod_cast this

/-- C22. `Fadeout` is a linear ramp to exactly 0. Let `e` be the object that the `Release`
case leaves in state `Fadeout`, after a release that has fired, with a positive sample
rate, release threshold and transition time. Its value `v` is at most the release
threshold and its step is `-max(egReleaseThreshold, v) / (sampleRate * egTransitionTime)`,
which is negative. The calls of `getBlock` that follow return, and however they divide
the samples they write `m` samples of the ramp, `v + step`, `v + 2 * step`, ..., each
positive (and so each below the one before), and zeros from there on; `m` is at most
`ceil(sampleRate * egTransitionTime)`; and when the ramp ends before the samples do, the
next value of the ramp is not positive and the object is `Done` with value 0. -/
theorem fadeout_linear_ramp (pow : ℚ → ℚ → ℚ) (cfg : Config)
    (hthr : 0 < cfg.egReleaseThreshold) (htt : 0 < cfg.egTransitionTime)
    (e0 e : ADSREnvelope) (size : Nat) (hs : e0.currentState = State.Release)
    (hrel : e0.shouldRelease = true) (hrd : e0.releaseDelay = -1) (hsr : 0 < e0.sampleRate)
    (he : e = (releaseCase pow cfg e0 size).env) (hx : e.currentState = State.Fadeout)
    (blocks : List (List ℚ)) :
    e.currentValue ≤ cfg.egReleaseThreshold
      ∧ e.transitionDelta
        = -(max cfg.egReleaseThreshold e.currentValue) / (e.sampleRate * cfg.egTransitionTime)
      ∧ e.transitionDelta < 0
      ∧ ∃ r m, getBlocks pow cfg e blocks = some r
        ∧ m ≤ (blocks.map List.length).sum
        ∧ m ≤ ⌈e.sampleRate * cfg.egTransitionTime⌉₊
        ∧ r.out = fadeoutRamp e.currentValue e.transitionDelta m
            ++ List.replicate ((blocks.map List.length).sum - m) 0
        ∧ (∀ i < m, 0 < e.currentValue + ((i : ℚ) + 1) * e.transitionDelta)
        ∧ (m < (blocks.map List.length).sum →
            e.currentValue + ((m : ℚ) + 1) * e.transitionDelta ≤ 0
            ∧ r.env.currentState = State.Done ∧ r.env.currentValue = 0) := by
  have hf := releaseLoop_frame pow cfg e0 size
  have hexit : (releaseLoop pow cfg e0 size).env.currentValue ≤ cfg.egReleaseThreshold := by
    by_contra hc
    have : e = (releaseLoop pow cfg e0 size).env := by
      rw [he]
      unfold releaseCase
      dsimp only
      rw [if_neg hc]
    rw [this, hf.currentState, hs] at hx
    exact absurd hx (by decide)
  have heq : e = { (releaseLoop pow cfg e0 size).env with
      currentState := State.Fadeout
      transitionDelta := -(max cfg.egReleaseThreshold
          (releaseLoop pow cfg e0 size).env.currentValue)
        / ((releaseLoop pow cfg e0 size).env.sampleRate * cfg.egTransitionTime) } := by
    rw [he]
    unfold releaseCase
    dsimp only
    rw [if_pos hexit]
  have hv : e.currentValue = (releaseLoop pow cfg e0 size).env.currentValue := by rw [heq]
  have hsre : e.sampleRate = e0.sampleRate := by rw [heq]; exact hf.sampleRate
  have htd : e.transitionDelta
      = -(max cfg.egReleaseThreshold e.currentValue)
        / (e.sampleRate * cfg.egTransitionTime) := by rw [heq]
  have hp : 0 < e.sampleRate * cfg.egTransitionTime := by
    rw [hsre]
    exact mul_pos hsr htt
  have hneg : e.transitionDelta < 0 := by
    rw [htd, neg_div]
    exact neg_neg_of_pos (div_pos (lt_max_of_lt_left hthr) hp)
  have hfad : Fading e.currentValue e.transitionDelta e :=
    ⟨hx, by rw [heq]; exact hf.shouldRelease.trans hrel,
      by rw [heq]; exact hf.releaseDelay.trans hrd, rfl, rfl⟩
  obtain ⟨r, hr, hout, hfin⟩ :=
    getBlocks_fading pow cfg e.transitionDelta blocks e.currentValue e hfad
  refine ⟨by rw [hv]; exact hexit, htd, hneg, r,
    rampLength e.currentValue e.transitionDelta (blocks.map List.length).sum, hr,
    rampLength_le _ _ _, ?_, hout, rampLength_pos _ _ _, fun hlt => ?_⟩
  · have := rampLength_bound cfg.egReleaseThreshold e.currentValue
      (e.sampleRate * cfg.egTransitionTime) (blocks.map List.length).sum hthr hp
    rw [← htd] at this
    exact this
  · obtain ⟨-, f2, f3⟩ := hfin hlt
    exact ⟨rampLength_stop _ _ _ hlt, f2, f3⟩

theorem fadeout_linear_ramp_witness :
    fadingEnvelope.currentValue ≤ sampleConfig.egReleaseThreshold
      ∧ fadingEnvelope.transitionDelta
        = -(max sampleConfig.egReleaseThreshold fadingEnvelope.currentValue)
          / (fadingEnvelope.sampleRate * sampleConfig.egTransitionTime)
      ∧ fadingEnvelope.transitionDelta < 0
      ∧ ∃ r m, getBlocks powNat sampleConfig fadingEnvelope twoCalls = some r
        ∧ m ≤ (twoCalls.map List.length).sum
        ∧ m ≤ ⌈fadingEnvelope.sampleRate * sampleConfig.egTransitionTime⌉₊
        ∧ r.out = fadeoutRamp fadingEnvelope.currentValue fadingEnvelope.transitionDelta m
            ++ List.replicate ((twoCalls.map List.length).sum - m) 0
        ∧ (∀ i < m,
            0 < fadingEnvelope.currentValue + ((i : ℚ) + 1) * fadingEnvelope.transitionDelta)
        ∧ (m < (twoCalls.map List.length).sum →
            fadingEnvelope.currentValue + ((m : ℚ) + 1) * fadingEnvelope.transitionDelta ≤ 0
            ∧ r.env.currentState = State.Done ∧ r.env.currentValue = 0) :=
  fadeout_linear_ramp powNat sampleConfig (by decide!) (by decide!) lowReleaseEnvelope
    fadingEnvelope 1 rfl rfl rfl (by decide!) rfl (by decide!) twoCalls


/-! ## The envelope in `float` arithmetic: a release that never ends -/

theorem releaseSampleFloat_fixed (pow : ℚ → ℚ → ℚ) (e : ADSREnvelope)
    (h1 : clamp (roundFloat (e.releaseCount - e.releaseRate)) 0 1 = e.releaseCount)
    (hs : e.releaseShape ≤ 0)
    (h2 : roundFloat (e.releaseValue
        * pow e.releaseCount (roundFloat (roundFloat (-e.releaseShape * 1) + 1)))
      = e.currentValue) :
    releaseSampleFloat pow e = e := by
  unfold releaseSampleFloat
  dsimp only
  rw [if_pos hs, h1, h2]

theorem releaseLoopFloat_fixed (pow : ℚ → ℚ → ℚ) (cfg : Config) (e : ADSREnvelope)
    (hf : releaseSampleFloat pow e = e) (ht : cfg.egReleaseThreshold < e.currentValue)
    (n : Nat) :
    releaseLoopFloat pow cfg e n = ⟨e, List.replicate n e.currentValue, []⟩ := by
  induction n with
  | zero => rfl
  | succ n ih =>
    unfold releaseLoopFloat
    rw [if_pos ht]
    dsimp only
    rw [hf, ih]
    rfl

theorem releaseCaseFloat_fixed (pow : ℚ → ℚ → ℚ) (cfg : Config) (e : ADSREnvelope)
    (hf : releaseSampleFloat pow e = e) (ht : cfg.egReleaseThreshold < e.currentValue)
    (n : Nat) :
    releaseCaseFloat pow cfg e n = ⟨e, List.replicate n e.currentValue, []⟩ := by
  unfold releaseCaseFloat
  dsimp only
  rw [releaseLoopFloat_fixed pow cfg e hf ht n]
  dsimp only
  rw [if_neg (not_le.mpr ht)]

/-- C4 (code defect): a long release never ends in `float` arithmetic. An envelope is
reset at 48 kHz with a release of 1000 seconds (and instant attack, sustain 1), rendered
for one sample and released with `startRelease`. Its release rate, computed in `float`, is
positive and below `2^-25`, so the `float` subtraction `releaseCount - releaseRate` at
`releaseCount = 1` gives 1 again. The `Release` case therefore writes the value 1 into
every position of any span and leaves the object exactly as it found it, in state
`Release`; the release check and the count-down leave it as it is too. The state `Done`
is never reached, whatever the number of samples rendered. -/
theorem release_stuck_in_float :
    ∃ e, heldEnvelope = some e
      ∧ e.currentState = State.Release ∧ e.shouldRelease = true ∧ e.releaseDelay = -1
      ∧ e.currentValue = 1 ∧ e.releaseCount = 1
      ∧ e.releaseRate = secondsToExpRateFloat 48000 1000
      ∧ 0 < e.releaseRate ∧ e.releaseRate < 1 / 2 ^ 25
      ∧ roundFloat (e.releaseCount - e.releaseRate) = 1
      ∧ e.releaseCount - e.releaseRate < 1
      ∧ (∀ n, releaseCaseFloat powNat sampleConfig e n = ⟨e, List.replicate n 1, []⟩)
      ∧ (∀ n, (releaseCheck e n).1 = e ∧ countDown e n = e)
      ∧ isSmoothing e = true := by
  have h : heldEnvelope.map (fun e => (e.currentState, e.shouldRelease, e.releaseDelay,
        e.currentValue))
      = some (State.Release, true, -1, 1) := by decide!
  have h' : heldEnvelope.map (fun e => (e.releaseCount, e.releaseValue, e.releaseShape,
        decide (e.releaseRate = secondsToExpRateFloat 48000 1000)))
      = some (1, 1, 0, true) := by decide!
  have hrate : 0 < secondsToExpRateFloat 48000 1000
      ∧ secondsToExpRateFloat 48000 1000 < 1 / 2 ^ 25
      ∧ roundFloat (1 - secondsToExpRateFloat 48000 1000) = 1 := by decide!
  have hpow : roundFloat ((1 : ℚ) * powNat 1 (roundFloat (roundFloat (-0 * 1) + 1))) = 1 := by
    decide!
  have hthr : sampleConfig.egReleaseThreshold < 1 := by decide!
  cases hf : heldEnvelope with
  | none => simp [hf] at h
  | some e =>
    simp only [hf, Option.map_some', Option.some.injEq, Prod.mk.injEq,
      decide_eq_true_eq] at h h'
    obtain ⟨hs, hsr, hd, hv⟩ := h
    obtain ⟨hc, hrv, hsh, hr⟩ := h'
    have hfix : releaseSampleFloat powNat e = e := by
      apply releaseSampleFloat_fixed
      · rw [hc, hr, hrate.2.2]
        decide!
      · rw [hsh]
      · rw [hrv, hc, hsh, hv]
        exact hpow
    have hcase := releaseCaseFloat_fixed powNat sampleConfig e hfix (by rw [hv]; exact hthr)
    rw [hv] at hcase
    refine ⟨e, rfl, hs, hsr, hd, hv, hc, hr, by rw [hr]; exact hrate.1,
      by rw [hr]; exact hrate.2.1, by rw [hc, hr]; exact hrate.2.2, ?_, hcase, ?_, ?_⟩
    · rw [hc, hr]
      linarith [hrate.1]
    · intro n
      constructor
      · unfold releaseCheck
        rw [if_neg (by rw [hd]; rintro ⟨_, h⟩; cases h),
          if_neg (by rw [hd]; rintro ⟨_, h⟩; omega)]
      · unfold countDown
        rw [if_pos hsr, hd]
        have : max (-1 : Int) (-1 - (n : Int)) = -1 := by omega
        rw [this, ← hd]
    · simp [isSmoothing, hs]


/-! ## The LV2 adapter: powers of two, ports, the sample counter and MIDI -/

namespace lv2

theorem smeared_one (n : Nat) : Smeared 1 n n := by
  intro i
  constructor
  · intro h
    exact ⟨0, Nat.one_pos, h⟩
  · rintro ⟨j, hj, h⟩
    obtain rfl : j = 0 := by omega
    exact h

theorem smeared_double {m x n : Nat} (h : Smeared m x n) :
    Smeared (2 * m) (x ||| (x >>> m)) n := by
  intro i
  rw [Nat.testBit_or, Nat.testBit_shiftRight, Bool.or_eq_true, h i, h (m + i)]
  constructor
  · rintro (⟨j, hj, hb⟩ | ⟨j, hj, hb⟩)
    · exact ⟨j, by omega, hb⟩
    · refine ⟨m + j, by omega, ?_⟩
      rw [← hb]
      congr 1
      omega
  · rintro ⟨j, hj, hb⟩
    by_cases hlt : j < m
    · exact Or.inl ⟨j, hlt, hb⟩
    · refine Or.inr ⟨j - m, by omega, ?_⟩
      rw [← hb]
      congr 1
      omega

theorem smeared_smear (n : Nat) : Smeared 32 (smear n) n :=
  smeared_double (smeared_double (smeared_double (smeared_double
    (smeared_double (smeared_one n)))))

/-- The smear of a positive number below `2 ^ 32` has all the bits up to its highest set
bit set: it is one less than the next power of two above the number. -/
theorem smear_eq (n : Nat) (h0 : n ≠ 0) (h32 : n < 2 ^ 32) :
    ∃ k, smear n = 2 ^ (k + 1) - 1 ∧ 2 ^ k ≤ n ∧ n < 2 ^ (k + 1) := by
  obtain ⟨k, hk, hhigh⟩ := Nat.exists_most_significant_bit h0
  have hle : 2 ^ k ≤ n := Nat.testBit_implies_ge hk
  have hlt : n < 2 ^ (k + 1) := by
    apply Nat.lt_pow_two_of_testBit
    intro i hi
    exact hhigh i (by omega)
  have hk32 : k < 32 := by
    by_contra hc
    have : 2 ^ 32 ≤ 2 ^ k := Nat.pow_le_pow_right (by norm_num) (not_lt.mp hc)
    omega
  refine ⟨k, ?_, hle, hlt⟩
  apply Nat.eq_of_testBit_eq
  intro i
  rw [Nat.testBit_two_pow_sub_one]
  by_cases hi : i < k + 1
  · rw [decide_eq_true hi]
    exact (smeared_smear n i).mpr ⟨k - i, by omega, by rw [← hk]; congr 1; omega⟩
  · rw [decide_eq_false hi]
    rw [Bool.eq_false_iff]
    intro hc
    obtain ⟨j, _, hb⟩ := (smeared_smear n i).mp hc
    rw [hhigh (i + j) (by omega)] at hb
    exact absurd hb (by decide)

theorem wrapInt32_small (x : Int) (h0 : 0 ≤ x) (h1 : x < 2147483648) : wrapInt32 x = x := by
  unfold wrapInt32
  omega

theorem next_pow_2_of_pos (v : Int) (h : 1 ≤ v) :
    next_pow_2 v = wrapInt32 ((smear (v - 1).toNat : Nat) + 1) := by
  unfold next_pow_2 smear
  rw [if_neg (by omega)]

/-- C30. `next_pow_2` returns the least power of two that is not below its argument: for
every `v` below 1 it returns 1; for every `v` from 1 to `2 ^ 30` it returns a power of
two `p` with `v ≤ p` and `p / 2 < v`; so it is the identity on the powers of two up to
`2 ^ 30`. -/
theorem next_pow_2_least (v : Int) :
    (v < 1 → next_pow_2 v = 1)
      ∧ (1 ≤ v → v ≤ 2 ^ 30 →
          ∃ k : Nat, next_pow_2 v = 2 ^ k ∧ v ≤ next_pow_2 v ∧ next_pow_2 v / 2 < v)
      ∧ (∀ k : Nat, k ≤ 30 → v = 2 ^ k → next_pow_2 v = v) := by
  have part : 1 ≤ v → v ≤ 2 ^ 30 →
      ∃ k : Nat, next_pow_2 v = 2 ^ k ∧ v ≤ next_pow_2 v ∧ next_pow_2 v / 2 < v := by
    intro h1 h30
    rw [next_pow_2_of_pos v h1]
    obtain ⟨n, hn⟩ : ∃ n : Nat, v - 1 = n := ⟨(v - 1).toNat, by omega⟩
    have hv : v = n + 1 := by omega
    have htn : (v - 1).toNat = n := by omega
    rw [htn]
    by_cases h0 : n = 0
    · subst h0
      have hv1 : v = 1 := by omega
      subst hv1
      exact ⟨0, by decide, by decide, by decide⟩
    · have hn30 : n < 2 ^ 30 := by
        have : (n : Int) < 2 ^ 30 := by omega
        exact_mod_cast this
      obtain ⟨k, hs, hle, hlt⟩ := smear_eq n h0 (lt_trans hn30 (by norm_num))
      have hk : k < 30 := by
        by_contra hc
        have : 2 ^ 30 ≤ 2 ^ k := Nat.pow_le_pow_right (by norm_num) (not_lt.mp hc)
        omega
      have hpos : 0 < 2 ^ (k + 1) := Nat.pos_pow_of_pos _ (by norm_num)
      have hp30 : 2 ^ (k + 1) ≤ 2 ^ 30 := Nat.pow_le_pow_right (by norm_num) (by omega)
      have hsum : ((smear n : Nat) : Int) + 1 = ((2 ^ (k + 1) : Nat) : Int) := by
        rw [hs]
        omega
      have h2 : (2 : Nat) ^ (k + 1) = 2 * 2 ^ k := by rw [pow_succ, mul_comm]
      have hw : wrapInt32 (((smear n : Nat) : Int) + 1) = ((2 ^ (k + 1) : Nat) : Int) := by
        rw [hsum]
        apply wrapInt32_small
        · omega
        · have : (2 : Nat) ^ 30 = 1073741824 := by norm_num
          omega
      rw [hw]
      refine ⟨k + 1, by push_cast; rfl, ?_, ?_⟩
      · rw [hv]
        omega
      · rw [hv, h2]
        omega
  refine ⟨?_, part, ?_⟩
  · intro h
    unfold next_pow_2
    rw [if_pos h]
  · intro k hk hv
    have hkpos : (1 : Int) ≤ 2 ^ k := one_le_pow₀ (by norm_num)
    have hk30 : (2 : Int) ^ k ≤ 2 ^ 30 := pow_le_pow_right₀ (by norm_num) hk
    obtain ⟨j, hj, hle, hlt⟩ := part (by rw [hv]; exact hkpos) (by rw [hv]; exact hk30)
    rw [hj] at hle hlt ⊢
    rw [hv] at hle hlt ⊢
    have hjk : k ≤ j := by
      by_contra hc
      have : (2 : Int) ^ (j + 1) ≤ 2 ^ k := pow_le_pow_right₀ (by norm_num) (by omega)
      have h2 : (2 : Int) ^ (j + 1) = 2 * 2 ^ j := by rw [pow_succ, mul_comm]
      have : (0 : Int) < 2 ^ j := by positivity
      omega
    have hkj : j ≤ k := by
      by_contra hc
      have : (2 : Int) ^ (k + 1) ≤ 2 ^ j := pow_le_pow_right₀ (by norm_num) (by omega)
      have h2 : (2 : Int) ^ (k + 1) = 2 * 2 ^ k := by rw [pow_succ, mul_comm]
      have : (0 : Int) < 2 ^ k := by positivity
      omega
    rw [le_antisymm hkj hjk]

theorem next_pow_2_least_witness :
    ∃ k : Nat, next_pow_2 5 = 2 ^ k ∧ (5 : Int) ≤ next_pow_2 5 ∧ next_pow_2 5 / 2 < 5 :=
  (next_pow_2_least 5).2.1 (by decide) (by decide)

theorem next_pow_2_small (t : Int) (h : t ≤ 8) :
    next_pow_2 t ∈ sfizz_oversampling_factor_t := by
  by_cases h1 : t < 1
  · unfold next_pow_2
    rw [if_pos h1]
    decide
  · have h2 : 1 ≤ t := not_lt.mp h1
    interval_cases t <;> decide

theorem check_oversampling_field (self : sfizz_plugin_t) (worker : Worker) (port : ℚ) :
    (sfizz_lv2_check_oversampling self worker port).1.oversampling
      = next_pow_2 (truncToInt port) := by
  unfold sfizz_lv2_check_oversampling
  dsimp only
  split
  · rename_i h
    exact h.symm
  · rfl

theorem check_oversampling_queue (self : sfizz_plugin_t) (worker : Worker) (port : ℚ) :
    (sfizz_lv2_check_oversampling self worker port).2.queue = worker.queue
      ∨ (sfizz_lv2_check_oversampling self worker port).2.queue
        = worker.queue ++ [oversamplingRequest self (next_pow_2 (truncToInt port))] := by
  unfold sfizz_lv2_check_oversampling
  dsimp only
  split
  · exact Or.inl rfl
  · unfold Worker.schedule_work
    split
    · exact Or.inr rfl
    · exact Or.inl rfl

/-- C26 (counterexample): a port value of 16 is recorded as the oversampling factor 16,
which is not a value of `sfizz_oversampling_factor_t`, and 16 is sent to the worker. -/
theorem oversampling_sixteen_recorded :
    (sfizz_lv2_check_oversampling freshSystem.plugin freshSystem.worker 16).1.oversampling = 16
      ∧ (sfizz_lv2_check_oversampling freshSystem.plugin freshSystem.worker 16).2.queue
        = [oversamplingRequest freshSystem.plugin 16]
      ∧ oversamplingRequest freshSystem.plugin 16
        = { size := 4, type := 6, body := AtomBody.int 16 }
      ∧ (16 : Int) ∉ sfizz_oversampling_factor_t := by
  decide!

/-- C26 (amended): after `sfizz_lv2_check_oversampling` the field `oversampling` is
`next_pow_2` of the port value converted to `int`, whatever it was before, and the
request sent to the worker, if one is sent, carries that value; for every port value
whose conversion to `int` is at most 8, it is one of 1, 2, 4, 8. -/
theorem oversampling_valid_up_to_eight (self : sfizz_plugin_t) (worker : Worker) (port : ℚ)
    (h : truncToInt port ≤ 8) :
    (sfizz_lv2_check_oversampling self worker port).1.oversampling
        = next_pow_2 (truncToInt port)
      ∧ next_pow_2 (truncToInt port) ∈ sfizz_oversampling_factor_t
      ∧ ((sfizz_lv2_check_oversampling self worker port).2.queue = worker.queue
        ∨ (sfizz_lv2_check_oversampling self worker port).2.queue
          = worker.queue ++ [oversamplingRequest self (next_pow_2 (truncToInt port))]) :=
  ⟨check_oversampling_field self worker port, next_pow_2_small _ h,
    check_oversampling_queue self worker port⟩

theorem oversampling_valid_up_to_eight_witness :
    (sfizz_lv2_check_oversampling freshSystem.plugin freshSystem.worker 3).1.oversampling
        = next_pow_2 (truncToInt 3)
      ∧ next_pow_2 (truncToInt 3) ∈ sfizz_oversampling_factor_t
      ∧ ((sfizz_lv2_check_oversampling freshSystem.plugin freshSystem.worker 3).2.queue
          = freshSystem.worker.queue
        ∨ (sfizz_lv2_check_oversampling freshSystem.plugin freshSystem.worker 3).2.queue
          = freshSystem.worker.queue
            ++ [oversamplingRequest freshSystem.plugin (next_pow_2 (truncToInt 3))]) :=
  oversampling_valid_up_to_eight freshSystem.plugin freshSystem.worker 3 (by decide!)

theorem midi_type_note_on (status : Nat) (h1 : 144 ≤ status) (h2 : status ≤ 159) :
    lv2_midi_message_type status = LV2_MIDI_MSG_NOTE_ON := by
  interval_cases status <;> decide

/-- C28. `sfizz_lv2_process_midi_event` treats a note-on with velocity 0 as a note-off.
For every note-on message (status byte 0x90 to 0x9F): when the velocity byte is 0 it sends
exactly one note-off, with the frame time and the note number of the message, and nothing
else; when the velocity byte is from 1 to 127 it sends exactly one note-on with that
velocity, and nothing else. -/
theorem note_on_zero_is_note_off (ev : MidiEvent) (h1 : 144 ≤ ev.msg0) (h2 : ev.msg0 ≤ 159) :
    (ev.msg2 = 0 →
        sfizz_lv2_process_midi_event ev
          = [MidiCall.sfizz_send_note_off (wrapInt32 ev.frames) ev.msg1 0])
      ∧ (1 ≤ ev.msg2 → ev.msg2 ≤ 127 →
        sfizz_lv2_process_midi_event ev
          = [MidiCall.sfizz_send_note_on (wrapInt32 ev.frames) ev.msg1 ev.msg2]) := by
  have ht := midi_type_note_on ev.msg0 h1 h2
  constructor
  · intro hz
    unfold sfizz_lv2_process_midi_event
    dsimp only
    rw [if_pos ht, if_pos hz, hz]
    rfl
  · intro hl hu
    unfold sfizz_lv2_process_midi_event
    dsimp only
    rw [if_pos ht, if_neg (by omega)]
    unfold toChar
    rw [if_pos (by omega)]

theorem note_on_zero_is_note_off_witness :
    sfizz_lv2_process_midi_event { frames := 7, msg0 := 144, msg1 := 60, msg2 := 0 }
        = [MidiCall.sfizz_send_note_off 7 60 0]
      ∧ sfizz_lv2_process_midi_event { frames := 7, msg0 := 145, msg1 := 60, msg2 := 100 }
        = [MidiCall.sfizz_send_note_on 7 60 100] :=
  ⟨(note_on_zero_is_note_off { frames := 7, msg0 := 144, msg1 := 60, msg2 := 0 }
      (by decide) (by decide)).1 rfl,
    (note_on_zero_is_note_off { frames := 7, msg0 := 145, msg1 := 60, msg2 := 100 }
      (by decide) (by decide)).2 (by decide) (by decide)⟩

theorem truncToInt_natCast (n : Nat) : truncToInt (n : ℚ) = n := by
  unfold truncToInt
  rw [if_pos (Nat.cast_nonneg n)]
  exact Int.floor_natCast n

theorem run_idle (c : Int) (worker : Worker) :
    run false (idlePlugin c) worker (portsWith []) MAX_BLOCK_SIZE
      = (idlePlugin (wrapInt32 (c + 8192)), worker) := by
  have h1 : truncToInt (8192 : ℚ) = 8192 := truncToInt_natCast 8192
  have h2 : truncToInt (1 : ℚ) = 1 := truncToInt_natCast 1
  have h3 : truncToInt (64 : ℚ) = 64 := truncToInt_natCast 64
  have h4 : next_pow_2 1 = 1 := by decide
  have h5 : wrapUInt32 8192 = 8192 := by decide
  have h6 : wrapInt32 ((8192 : Nat) : Int) = 8192 := by decide
  simp only [run, portsWith, handleEvents, sfizz_lv2_check_preload_size,
    sfizz_lv2_check_oversampling, sfizz_lv2_check_num_voices, countSamples, idlePlugin,
    freshSystem, instantiate, sfizz_lv2_map_required_uris, MAX_BLOCK_SIZE, DEFAULT_VOICES,
    DEFAULT_PRELOAD, DEFAULT_OVERSAMPLING, h1, h2, h3, h4, h5, h6]
  simp

theorem step_idle (s : System) (c : Int) (h : s.plugin = idlePlugin c) :
    (System.step false s idleRun).plugin = idlePlugin (wrapInt32 (c + 8192)) := by
  unfold System.step idleRun
  dsimp only
  rw [h, run_idle]

theorem steps_idle (k : Nat) (hk : k ≤ 262143) :
    (System.steps false freshSystem (List.replicate k idleRun)).plugin
      = idlePlugin (8192 * (k : Int)) := by
  induction k with
  | zero => rfl
  | succ k ih =>
    have hw : wrapInt32 (8192 * (k : Int) + 8192) = 8192 * ((k + 1 : Nat) : Int) := by
      unfold wrapInt32
      push_cast
      omega
    unfold System.steps at ih ⊢
    rw [List.replicate_succ', List.foldl_append, List.foldl_cons, List.foldl_nil,
      step_idle _ _ (ih (by omega)), hw]

/-- C27 (code defect): the sample counter is not bounded. In a freshly instantiated
plugin `check_modification` is false and stays false while no file is loaded through the
worker, and `run` resets the counter only when the flag is true: after 7 blocks of
`MAX_BLOCK_SIZE` samples the counter is 57344, above `LOG_SAMPLE_COUNT`; after 262143
blocks it is 2147475456; and the addition of the next block passes the largest `int`
(it wraps to -2147483648 in the model). -/
theorem sample_counter_overflows :
    freshSystem.plugin.check_modification = false
      ∧ (System.steps false freshSystem (List.replicate 7 idleRun)).plugin.sample_counter
        = 57344
      ∧ LOG_SAMPLE_COUNT = 48000
      ∧ (System.steps false freshSystem (List.replicate 262143 idleRun)).plugin.sample_counter
        = 2147475456
      ∧ (System.steps false freshSystem (List.replicate 262144 idleRun)).plugin.sample_counter
        = -2147483648 := by
  refine ⟨rfl, ?_, rfl, ?_, ?_⟩
  · rw [steps_idle 7 (by norm_num)]
    rfl
  · rw [steps_idle 262143 (by norm_num)]
    rfl
  · have h := steps_idle 262143 (by norm_num)
    unfold System.steps at h ⊢
    rw [List.replicate_succ', List.foldl_append, List.foldl_cons, List.foldl_nil,
      step_idle _ _ h]
    show wrapInt32 (8192 * ((262143 : Nat) : Int) + 8192) = -2147483648
    decide

end lv2


/-! ## The VST controller -/

namespace SfizzVstControllerNoUi

theorem halvingLoop_spec (fuel : Nat) : ∀ (f acc : Int), 1 ≤ f → f < 2 ^ (fuel + 1) →
    ∃ r : Nat, halvingLoop fuel f acc = some (acc + r) ∧ 2 ^ r ≤ f ∧ f < 2 ^ (r + 1) := by
  induction fuel with
  | zero =>
    intro f acc h1 h2
    have hf : f = 1 := by
      have : (2 : Int) ^ (0 + 1) = 2 := by norm_num
      omega
    subst hf
    exact ⟨0, by simp [halvingLoop], by norm_num, by norm_num⟩
  | succ fuel ih =>
    intro f acc h1 h2
    by_cases hf : 1 < f
    · have hp : (2 : Int) ^ (fuel + 1 + 1) = 2 * 2 ^ (fuel + 1) := by
        rw [pow_succ, mul_comm]
      obtain ⟨r, hr, hlo, hhi⟩ := ih (f / 2) (acc + 1) (by omega) (by omega)
      refine ⟨r + 1, ?_, ?_, ?_⟩
      · rw [halvingLoop, if_pos hf, hr]
        push_cast
        rw [add_assoc, add_comm 1 (r : Int)]
      · have : (2 : Int) ^ (r + 1) = 2 * 2 ^ r := by rw [pow_succ, mul_comm]
        omega
      · have : (2 : Int) ^ (r + 1 + 1) = 2 * 2 ^ (r + 1) := by rw [pow_succ, mul_comm]
        omega
    · have hf1 : f = 1 := by omega
      subst hf1
      exact ⟨0, by simp [halvingLoop], by norm_num, by norm_num⟩

theorem halvingLoop_more (fuel : Nat) : ∀ (f acc r : Int),
    halvingLoop fuel f acc = some r → halvingLoop (fuel + 1) f acc = some r := by
  induction fuel with
  | zero =>
    intro f acc r h
    unfold halvingLoop at h ⊢
    by_cases hf : 1 < f
    · rw [if_pos hf] at h
      exact absurd h (by simp)
    · rw [if_neg hf] at h ⊢
      exact h
  | succ fuel ih =>
    intro f acc r h
    rw [halvingLoop] at h ⊢
    by_cases hf : 1 < f
    · rw [if_pos hf] at h ⊢
      exact ih _ _ _ h
    · rw [if_neg hf] at h ⊢
      exact h

/-- C29. In `getParamValueByString` for the oversampling parameter the halving loop ends
and computes the rounded-down binary logarithm: for every parsed factor from 1 up to the
largest `int32`, within 31 passes (and with any larger number of passes allowed) it
leaves `log2Factor = r` with `2 ^ r ≤ factor < 2 ^ (r + 1)`; the factors 1, 2, 4, 8 give
0, 1, 2, 3; it inverts the `1 << factorLog2` of `getParamStringByValue` for every
`factorLog2` up to 30; and a string that does not parse, or a factor below 1, gives 0. -/
theorem oversampling_log2 :
    (∀ factor : Int, 1 ≤ factor → factor < 2 ^ 31 →
        ∃ r : Nat, 2 ^ r ≤ factor ∧ factor < 2 ^ (r + 1)
          ∧ ∀ extra : Nat, log2Factor (31 + extra) (some factor) = some (r : Int))
      ∧ log2Factor 31 (some 1) = some 0 ∧ log2Factor 31 (some 2) = some 1
      ∧ log2Factor 31 (some 4) = some 2 ∧ log2Factor 31 (some 8) = some 3
      ∧ (∀ factorLog2 : Nat, factorLog2 ≤ 30 →
          log2Factor 31 (some (printedFactor factorLog2)) = some (factorLog2 : Int))
      ∧ log2Factor 31 none = some 0
      ∧ (∀ factor : Int, factor < 1 → log2Factor 31 (some factor) = some 0) := by
  have main : ∀ factor : Int, 1 ≤ factor → factor < 2 ^ 31 →
      ∃ r : Nat, 2 ^ r ≤ factor ∧ factor < 2 ^ (r + 1)
        ∧ ∀ extra : Nat, log2Factor (31 + extra) (some factor) = some (r : Int) := by
    intro factor h1 h2
    obtain ⟨r, hr, hlo, hhi⟩ := halvingLoop_spec 30 factor 0 h1 h2
    refine ⟨r, hlo, hhi, fun extra => ?_⟩
    have hs : scannedFactor (some factor) = factor := by
      unfold scannedFactor
      exact if_neg (by omega)
    unfold log2Factor
    rw [hs]
    have h30 : halvingLoop 30 factor 0 = some (r : Int) := by
      rw [hr, zero_add]
    have hmore : ∀ n : Nat, halvingLoop (30 + n) factor 0 = some (r : Int) := by
      intro n
      induction n with
      | zero => exact h30
      | succ n ihn => exact halvingLoop_more _ _ _ _ ihn
    have h31 : 31 + extra = 30 + (extra + 1) := by omega
    rw [h31]
    exact hmore (extra + 1)
  refine ⟨main, by decide, by decide, by decide, by decide, ?_, by decide, ?_⟩
  · intro k hk
    have hpf : printedFactor k = 2 ^ k := by
      unfold printedFactor
      rw [Nat.shiftLeft_eq, one_mul]
      push_cast
      rfl
    have h1 : (1 : Int) ≤ 2 ^ k := one_le_pow₀ (by norm_num)
    have h2 : (2 : Int) ^ k < 2 ^ 31 := pow_lt_pow_right₀ (by norm_num) (by omega)
    obtain ⟨r, hlo, hhi, hall⟩ := main (2 ^ k) h1 h2
    have hrk : r = k := by
      have a : r ≤ k := by
        by_contra hc
        have : (2 : Int) ^ (k + 1) ≤ 2 ^ r := pow_le_pow_right₀ (by norm_num) (by omega)
        have h3 : (2 : Int) ^ (k + 1) = 2 * 2 ^ k := by rw [pow_succ, mul_comm]
        omega
      have b : k ≤ r := by
        by_contra hc
        have : (2 : Int) ^ (r + 1) ≤ 2 ^ k := pow_le_pow_right₀ (by norm_num) (by omega)
        omega
      omega
    subst hrk
    rw [hpf]
    exact hall 0
  · intro factor hf
    have hs : scannedFactor (some factor) = 1 := by
      unfold scannedFactor
      exact if_pos hf
    unfold log2Factor
    rw [hs]
    decide

theorem oversampling_log2_witness :
    ∃ r : Nat, 2 ^ r ≤ (5 : Int) ∧ (5 : Int) < 2 ^ (r + 1)
      ∧ ∀ extra : Nat, log2Factor (31 + extra) (some 5) = some (r : Int) :=
  oversampling_log2.1 5 (by decide) (by decide)

end SfizzVstControllerNoUi

end sfz
